import Mathlib

/-!
# Scheme interpreter: a shallow embedding and its verified properties

The development embeds the interpreter of `HazyMrf/Scheme-Interpreter`
(`tokenizer.cpp`, `parser.cpp`, `object.h`, `scheme.cpp`, `scheme.h`).

Modelling decisions.

* `std::shared_ptr<Object>` is a value of type `Obj`; the null pointer (the empty
  list) is `Obj.null`.  Cells are immutable trees, so the in-place mutation done
  by a successful `set-car!` / `set-cdr!` is outside the model: such a call ends
  in the outcome `Err.Mutation`.  All error paths of the two built-ins are kept.
* `std::shared_ptr<Scope>` is an index into a heap of frames (`Heap`); frames are
  mutable and shared, exactly what closures capture.  The global frame is index 0.
* C++ exceptions are the constructors of `Err`.  Besides the three interpreter
  exceptions there is `OutOfRange` (thrown by `std::stoi`), `Undefined` (the code
  dereferences a null pointer, indexes past a vector or divides by zero) and
  `Fuel` (an artefact of the model: the recursion bound was reached).
* A thrown exception keeps the heap as it is at the throw: `M α` returns the
  heap next to the result.
* `int64_t` arithmetic wraps modulo `2^64` (`wrap64`).
-/

namespace Scheme

/-! ## Errors -/

/-- Outcome kinds of a failed computation. -/
inductive Err where
  | SyntaxError
  | NameError
  | RuntimeError
  | OutOfRange
  | Undefined
  | Mutation
  | Fuel
  deriving DecidableEq

/-! ## Values -/

/-- The subclasses of `Function` installed in `kDefaultFuncs`. -/
inductive Func where
  | Quote | IsNumber | Equal | Greater | Less | GreaterOrEqual | LessOrEqual
  | Add | Multiply | Sub | Divide | Abs | Max | Min
  | IsBoolean | BooleanNot | BooleanAnd | BooleanOr
  | IsPair | IsNull | IsList | Cons | Car | Cdr | CreateList | ListRef | ListTail
  | IsSymbol | Define | Set | If | SetCar | SetCdr
  deriving DecidableEq

/-- The class hierarchy under `Object`, with `null` for the null pointer. -/
inductive Obj where
  | null
  | Number (value : Int)
  | Symbol (name : String)
  | Boolean (b : Bool)
  | Cell (first second : Obj)
  | Function (f : Func)
  | Lambda (local_scope : Nat) (args : List String) (evals : List Obj)
  | LambdaCreator (lambda_parent_scope : Nat) (lambda_args : List String)
      (lambda_evals : List Obj)

mutual
/-- Decision procedure for equality of values. -/
def Obj.decEq : (a b : Obj) → Decidable (a = b)
  | .null, .null => isTrue rfl
  | .Number x, .Number y =>
      if h : x = y then isTrue (by rw [h]) else isFalse (by intro e; cases e; exact h rfl)
  | .Symbol x, .Symbol y =>
      if h : x = y then isTrue (by rw [h]) else isFalse (by intro e; cases e; exact h rfl)
  | .Boolean x, .Boolean y =>
      if h : x = y then isTrue (by rw [h]) else isFalse (by intro e; cases e; exact h rfl)
  | .Function x, .Function y =>
      if h : x = y then isTrue (by rw [h]) else isFalse (by intro e; cases e; exact h rfl)
  | .Cell a b, .Cell c d =>
      match Obj.decEq a c, Obj.decEq b d with
      | isTrue h1, isTrue h2 => isTrue (by rw [h1, h2])
      | isFalse h1, _ => isFalse (by intro e; cases e; exact h1 rfl)
      | _, isFalse h2 => isFalse (by intro e; cases e; exact h2 rfl)
  | .Lambda s a e, .Lambda s1 a1 e1 =>
      if h1 : s = s1 then
        if h2 : a = a1 then
          match Obj.decEqList e e1 with
          | isTrue h3 => isTrue (by rw [h1, h2, h3])
          | isFalse h3 => isFalse (by intro e; cases e; exact h3 rfl)
        else isFalse (by intro e; cases e; exact h2 rfl)
      else isFalse (by intro e; cases e; exact h1 rfl)
  | .LambdaCreator s a e, .LambdaCreator s1 a1 e1 =>
      if h1 : s = s1 then
        if h2 : a = a1 then
          match Obj.decEqList e e1 with
          | isTrue h3 => isTrue (by rw [h1, h2, h3])
          | isFalse h3 => isFalse (by intro e; cases e; exact h3 rfl)
        else isFalse (by intro e; cases e; exact h2 rfl)
      else isFalse (by intro e; cases e; exact h1 rfl)
  | .null, .Number _ | .null, .Symbol _ | .null, .Boolean _ | .null, .Cell _ _ | .null, .Function _ | .null, .Lambda _ _ _ | .null, .LambdaCreator _ _ _ => isFalse (by intro e; cases e)
  | .Number _, .null | .Number _, .Symbol _ | .Number _, .Boolean _ | .Number _, .Cell _ _ | .Number _, .Function _ | .Number _, .Lambda _ _ _ | .Number _, .LambdaCreator _ _ _ => isFalse (by intro e; cases e)
  | .Symbol _, .null | .Symbol _, .Number _ | .Symbol _, .Boolean _ | .Symbol _, .Cell _ _ | .Symbol _, .Function _ | .Symbol _, .Lambda _ _ _ | .Symbol _, .LambdaCreator _ _ _ => isFalse (by intro e; cases e)
  | .Boolean _, .null | .Boolean _, .Number _ | .Boolean _, .Symbol _ | .Boolean _, .Cell _ _ | .Boolean _, .Function _ | .Boolean _, .Lambda _ _ _ | .Boolean _, .LambdaCreator _ _ _ => isFalse (by intro e; cases e)
  | .Cell _ _, .null | .Cell _ _, .Number _ | .Cell _ _, .Symbol _ | .Cell _ _, .Boolean _ | .Cell _ _, .Function _ | .Cell _ _, .Lambda _ _ _ | .Cell _ _, .LambdaCreator _ _ _ => isFalse (by intro e; cases e)
  | .Function _, .null | .Function _, .Number _ | .Function _, .Symbol _ | .Function _, .Boolean _ | .Function _, .Cell _ _ | .Function _, .Lambda _ _ _ | .Function _, .LambdaCreator _ _ _ => isFalse (by intro e; cases e)
  | .Lambda _ _ _, .null | .Lambda _ _ _, .Number _ | .Lambda _ _ _, .Symbol _ | .Lambda _ _ _, .Boolean _ | .Lambda _ _ _, .Cell _ _ | .Lambda _ _ _, .Function _ | .Lambda _ _ _, .LambdaCreator _ _ _ => isFalse (by intro e; cases e)
  | .LambdaCreator _ _ _, .null | .LambdaCreator _ _ _, .Number _ | .LambdaCreator _ _ _, .Symbol _ | .LambdaCreator _ _ _, .Boolean _ | .LambdaCreator _ _ _, .Cell _ _ | .LambdaCreator _ _ _, .Function _ | .LambdaCreator _ _ _, .Lambda _ _ _ => isFalse (by intro e; cases e)
/-- Decision procedure for equality of vectors of values. -/
def Obj.decEqList : (a b : List Obj) → Decidable (a = b)
  | [], [] => isTrue rfl
  | x :: xs, y :: ys =>
      match Obj.decEq x y, Obj.decEqList xs ys with
      | isTrue h1, isTrue h2 => isTrue (by rw [h1, h2])
      | isFalse h1, _ => isFalse (by intro e; cases e; exact h1 rfl)
      | _, isFalse h2 => isFalse (by intro e; cases e; exact h2 rfl)
  | [], _ :: _ => isFalse (by intro e; cases e)
  | _ :: _, [] => isFalse (by intro e; cases e)
end

instance : DecidableEq Obj := Obj.decEq

/-- The test `Is<Number>`. -/
def Obj.isNumber : Obj → Bool
  | .Number _ => true
  | _ => false

/-- The test `Is<Symbol>`. -/
def Obj.isSymbol : Obj → Bool
  | .Symbol _ => true
  | _ => false

/-- The test `Is<Boolean>`. -/
def Obj.isBoolean : Obj → Bool
  | .Boolean _ => true
  | _ => false

/-- The test `Is<Cell>`. -/
def Obj.isCell : Obj → Bool
  | .Cell _ _ => true
  | _ => false

/-- The test `Is<Function>`. -/
def Obj.isFunction : Obj → Bool
  | .Function _ => true
  | _ => false

/-- The test `Is<LambdaCreator>`. -/
def Obj.isLambdaCreator : Obj → Bool
  | .LambdaCreator _ _ _ => true
  | _ => false

/-- The test `ptr == nullptr`. -/
def Obj.isNull : Obj → Bool
  | .null => true
  | _ => false

/-- The chain of cells holding `xs` in order and ending in `last`. -/
def mkChain (xs : List Obj) (last : Obj) : Obj :=
  xs.foldr Obj.Cell last

/-! ## Scopes -/

/-- One `Scope` object: the parent pointer and the `unordered_map` of bindings. -/
structure Scope where
  parent_scope_ : Option Nat
  scope_objects_ : List (String × Obj)
  deriving DecidableEq

/-- All `Scope` objects allocated so far; a `shared_ptr<Scope>` is an index. -/
abbrev Heap := List Scope

/-- Assignment `m[name] = value` on the association list of a frame. -/
def mapSet : List (String × Obj) → String → Obj → List (String × Obj)
  | [], name, value => [(name, value)]
  | (k, v) :: rest, name, value =>
      if k = name then (k, value) :: rest else (k, v) :: mapSet rest name value

/-- The method `Scope::Contains`. -/
def Contains (h : Heap) (scope : Nat) (name : String) : Bool :=
  match h[scope]? with
  | some s => (s.scope_objects_.lookup name).isSome
  | none => false

/-- The method `Scope::ResolveSymbol` (callers check `Contains` first). -/
def ResolveSymbol (h : Heap) (scope : Nat) (name : String) : Obj :=
  match h[scope]? with
  | some s => (s.scope_objects_.lookup name).getD Obj.null
  | none => Obj.null

/-- The method `Scope::GetParentScope`. -/
def GetParentScope (h : Heap) (scope : Nat) : Option Nat :=
  match h[scope]? with
  | some s => s.parent_scope_
  | none => none

/-- The recursion of `Scope::AllContains`, bounded by the number of frames. -/
def AllContainsAux (h : Heap) : Nat → Nat → String → Bool
  | 0, _, _ => false
  | k + 1, scope, name =>
      if Contains h scope name then true
      else match GetParentScope h scope with
        | none => false
        | some p => AllContainsAux h k p name

/-- The method `Scope::AllContains`. -/
def AllContains (h : Heap) (scope : Nat) (name : String) : Bool :=
  AllContainsAux h h.length scope name

/-- The recursion of `Scope::AllResolveSymbol`; a null parent is dereferenced. -/
def AllResolveSymbolAux (h : Heap) : Nat → Nat → String → Except Err Obj
  | 0, _, _ => .error Err.Undefined
  | k + 1, scope, name =>
      if Contains h scope name then .ok (ResolveSymbol h scope name)
      else match GetParentScope h scope with
        | none => .error Err.Undefined
        | some p => AllResolveSymbolAux h k p name

/-- The method `Scope::AllResolveSymbol`. -/
def AllResolveSymbol (h : Heap) (scope : Nat) (name : String) : Except Err Obj :=
  AllResolveSymbolAux h h.length scope name

/-- The method `Scope::DefineSymbol`. -/
def DefineSymbol (h : Heap) (scope : Nat) (name : String) (value : Obj) : Heap :=
  h.modify (fun s => { s with scope_objects_ := mapSet s.scope_objects_ name value }) scope

/-- The recursion of `Scope::SetDefineSymbol`. -/
def SetDefineSymbolAux (h : Heap) : Nat → Nat → String → Obj → Except Err Heap
  | 0, _, _, _ => .error Err.SyntaxError
  | k + 1, scope, name, value =>
      if Contains h scope name then .ok (DefineSymbol h scope name value)
      else match GetParentScope h scope with
        | none => .error Err.SyntaxError
        | some p => SetDefineSymbolAux h k p name value

/-- The method `Scope::SetDefineSymbol`. -/
def SetDefineSymbol (h : Heap) (scope : Nat) (name : String) (value : Obj) :
    Except Err Heap :=
  SetDefineSymbolAux h h.length scope name value

/-- The recursion of `Symbol::Eval`. -/
def SymbolEvalAux (h : Heap) : Nat → Nat → String → Except Err Obj
  | 0, _, _ => .error Err.NameError
  | k + 1, scope, name =>
      if Contains h scope name then .ok (ResolveSymbol h scope name)
      else match GetParentScope h scope with
        | none => .error Err.NameError
        | some p => SymbolEvalAux h k p name

/-- The method `Symbol::Eval`. -/
def SymbolEval (h : Heap) (scope : Nat) (name : String) : Except Err Obj :=
  SymbolEvalAux h h.length scope name

/-! ## Tokenizer -/

/-- The enumeration `BracketToken`. -/
inductive BracketToken where
  | OPEN
  | CLOSE
  deriving DecidableEq

/-- The variant `Token`. -/
inductive Token where
  | ConstantToken (value : Int)
  | BracketToken (b : BracketToken)
  | SymbolToken (name : String)
  | QuoteToken
  | DotToken
  | BooleanToken (b : Bool)
  deriving DecidableEq

/-- The constant `kSymbolTokenStartChars` (the square brackets are part of it). -/
def kSymbolTokenStartChars : List Char :=
  "[abcdefghijklmnopqrstuvwxyzABCDEFGHIJKLMNOPQRSTUVWXYZ<=>*/#]".data

/-- The constant `kSymbolTokenChars`. -/
def kSymbolTokenChars : List Char :=
  "[abcdefghijklmnopqrstuvwxyzABCDEFGHIJKLMNOPQRSTUVWXYZ<=>*/#0123456789?!-]".data

/-- The function `std::isdigit` in the C locale. -/
def isdigit (c : Char) : Bool :=
  decide ('0'.toNat ≤ c.toNat ∧ c.toNat ≤ '9'.toNat)

/-- The six characters that `Tokenizer::Next` skips. -/
def isSkipped (c : Char) : Bool :=
  c = ' ' || c = '\n' || c = '\t' || c = Char.ofNat 11 || c = '\r' || c = Char.ofNat 12

/-- Value of a run of decimal digits. -/
def digitsValue (ds : List Char) : Nat :=
  ds.foldl (fun acc c => 10 * acc + (c.toNat - '0'.toNat)) 0

/-- The integer denoted by an optional sign followed by digits. -/
def literalValue (s : List Char) : Int :=
  match s with
  | '-' :: ds => - (digitsValue ds : Int)
  | '+' :: ds => (digitsValue ds : Int)
  | ds => (digitsValue ds : Int)

/-- The function `std::stoi` on an optional sign followed by digits: the value, or
`std::out_of_range` when it does not fit the 32-bit `int`. -/
def stoi (s : List Char) : Except Err Int :=
  if -2147483648 ≤ literalValue s ∧ literalValue s ≤ 2147483647 then .ok (literalValue s)
  else .error Err.OutOfRange

/-- The class `Tokenizer`: the unread input, the current token and the end flag. -/
structure Tokenizer where
  in_ : List Char
  token_ : Token
  is_end_ : Bool

/-- The method `Tokenizer::ReadConstantToken`. -/
def ReadConstantToken (t : Tokenizer) (signed_number : List Char) : Except Err Tokenizer :=
  match stoi (signed_number ++ t.in_.takeWhile isdigit) with
  | .ok v => .ok { t with in_ := t.in_.dropWhile isdigit, token_ := Token.ConstantToken v }
  | .error e => .error e

/-- The method `Tokenizer::ReadSymbolOrBooleanToken`. -/
def ReadSymbolOrBooleanToken (t : Tokenizer) (string_of_symbols : List Char) : Tokenizer :=
  let s := string_of_symbols ++ t.in_.takeWhile (fun c => kSymbolTokenChars.contains c)
  let rest := t.in_.dropWhile (fun c => kSymbolTokenChars.contains c)
  if s = "#t".data then { t with in_ := rest, token_ := Token.BooleanToken true }
  else if s = "#f".data then { t with in_ := rest, token_ := Token.BooleanToken false }
  else { t with in_ := rest, token_ := Token.SymbolToken (String.mk s) }

/-- The method `Tokenizer::Next`. -/
def Next (t : Tokenizer) : Except Err Tokenizer :=
  let t1 : Tokenizer := { t with in_ := t.in_.dropWhile isSkipped }
  match t1.in_ with
  | [] => .ok { t1 with is_end_ := true }
  | c :: rest =>
      if isdigit c then ReadConstantToken t1 []
      else if c = '(' then .ok { t1 with in_ := rest, token_ := Token.BracketToken .OPEN }
      else if c = ')' then .ok { t1 with in_ := rest, token_ := Token.BracketToken .CLOSE }
      else if c = '.' then .ok { t1 with in_ := rest, token_ := Token.DotToken }
      else if c = '\'' then .ok { t1 with in_ := rest, token_ := Token.QuoteToken }
      else if kSymbolTokenStartChars.contains c then .ok (ReadSymbolOrBooleanToken t1 [])
      else if c = '+' then
        match rest with
        | d :: _ =>
            if isdigit d then ReadConstantToken { t1 with in_ := rest } ['+']
            else .ok { t1 with in_ := rest, token_ := Token.SymbolToken "+" }
        | [] => .ok { t1 with in_ := rest, token_ := Token.SymbolToken "+" }
      else if c = '-' then
        match rest with
        | d :: _ =>
            if isdigit d then ReadConstantToken { t1 with in_ := rest } ['-']
            else .ok { t1 with in_ := rest, token_ := Token.SymbolToken "-" }
        | [] => .ok { t1 with in_ := rest, token_ := Token.SymbolToken "-" }
      else .error Err.SyntaxError

/-- The constructor `Tokenizer::Tokenizer`: the variant starts as its first
alternative and the first token is read at once. -/
def Tokenizer.new (input : List Char) : Except Err Tokenizer :=
  Next { in_ := input, token_ := Token.ConstantToken 0, is_end_ := false }

/-! ## Reader -/

mutual
/-- The function `ReadInner`. -/
def ReadInner : Nat → Tokenizer → Except Err (Obj × Tokenizer)
  | 0, _ => .error Err.Fuel
  | n + 1, tokenizer =>
      if tokenizer.is_end_ then .error Err.SyntaxError
      else
        let token := tokenizer.token_
        match Next tokenizer with
        | .error e => .error e
        | .ok tk =>
            match token with
            | .ConstantToken value => .ok (Obj.Number value, tk)
            | .SymbolToken name => .ok (Obj.Symbol name, tk)
            | .BooleanToken b => .ok (Obj.Boolean b, tk)
            | .BracketToken .OPEN => ReadList n tk []
            | .DotToken => .ok (Obj.Symbol ".", tk)
            | .QuoteToken =>
                if tk.is_end_ then .error Err.SyntaxError
                else
                  match ReadInner n tk with
                  | .error e => .error e
                  | .ok (tail, tk2) =>
                      match tail with
                      | .null => .ok (Obj.Cell (Obj.Symbol "quote") Obj.null, tk2)
                      | _ =>
                          .ok (Obj.Cell (Obj.Symbol "quote") (Obj.Cell tail Obj.null), tk2)
            | .BracketToken .CLOSE => .error Err.SyntaxError
/-- The loop of `ReadList`; `acc` holds the elements linked so far, so `acc = []`
is `result_cell == nullptr`. -/
def ReadList : Nat → Tokenizer → List Obj → Except Err (Obj × Tokenizer)
  | 0, _, _ => .error Err.Fuel
  | n + 1, tokenizer, acc =>
      if tokenizer.is_end_ then .error Err.SyntaxError
      else if tokenizer.token_ = Token.BracketToken .CLOSE then
        match Next tokenizer with
        | .error e => .error e
        | .ok tk => .ok (mkChain acc Obj.null, tk)
      else
        match ReadInner n tokenizer with
        | .error e => .error e
        | .ok (sh_ptr, tk) =>
            if sh_ptr = Obj.Symbol "." then
              if acc.isEmpty || tk.is_end_ then .error Err.SyntaxError
              else
                match ReadInner n tk with
                | .error e => .error e
                | .ok (second, tk2) =>
                    if second.isSymbol then .error Err.SyntaxError
                    else if tk2.is_end_ || tk2.token_ ≠ Token.BracketToken .CLOSE then
                      .error Err.SyntaxError
                    else
                      match Next tk2 with
                      | .error e => .error e
                      | .ok tk3 => .ok (mkChain acc second, tk3)
            else ReadList n tk (acc ++ [sh_ptr])
end

/-- The function `Read`; the bound on the recursion exceeds every nesting the
remaining input can produce. -/
def Read (tokenizer : Tokenizer) : Except Err Obj :=
  match ReadInner (2 * tokenizer.in_.length + 4) tokenizer with
  | .error e => .error e
  | .ok (obj, tk) => if tk.is_end_ then .ok obj else .error Err.SyntaxError

/-! ## Printer -/

/-- The method `Stringify` of the atoms and the throwing ones of the procedures;
`none` stands for a receiver that is not of that class. -/
def atomStringify : Obj → Option (Except Err String)
  | .Number v => some (.ok (toString v))
  | .Symbol name => some (.ok name)
  | .Boolean b => some (.ok (if b then "#t" else "#f"))
  | .Function _ => some (.error Err.RuntimeError)
  | .Lambda _ _ _ => some (.error Err.RuntimeError)
  | .LambdaCreator _ _ _ => some (.error Err.RuntimeError)
  | .null => some (.error Err.Undefined)
  | .Cell _ _ => none

/-- The body of `Cell::StringifyImpl` once the texts of the two slots are known:
`headStr` is the text of the first slot, `tailStr` the text of the second slot
printed without parentheses, which is used only when that slot holds a cell. -/
def joinCell (need_paren : Bool) (headStr : Except Err String) (tail : Obj)
    (tailStr : Except Err String) : Except Err String :=
  let open_ := if need_paren then "(" else ""
  let close_ := if need_paren then ")" else ""
  match headStr with
  | .error e => .error e
  | .ok hs =>
      match tail with
      | .Cell _ _ =>
          match tailStr with
          | .error e => .error e
          | .ok ts => .ok (open_ ++ hs ++ " " ++ ts ++ close_)
      | .Number v => .ok (open_ ++ hs ++ " . " ++ toString v ++ close_)
      | .Boolean b => .ok (open_ ++ hs ++ " . " ++ (if b then "#t" else "#f") ++ close_)
      | _ => .ok (open_ ++ hs ++ close_)

/-- The method `Cell::StringifyImpl`; the receiver is always a cell.  A first slot
that holds a cell is printed by `StringifyImpl(true)`, any other by its own
`Stringify`, a null one being dereferenced. -/
def StringifyImpl : Obj → Bool → Except Err String
  | .Cell head tail, need_paren =>
      joinCell need_paren
        (if head.isCell then StringifyImpl head true
          else (atomStringify head).getD (.error Err.Undefined))
        tail (StringifyImpl tail false)
  | _, _ => .error Err.Undefined

/-- The virtual method `Object::Stringify` on a non-null receiver. -/
def Stringify : Obj → Except Err String
  | .Cell .null .null => .ok "(())"
  | .Cell first second => StringifyImpl (.Cell first second) true
  | other => (atomStringify other).getD (.error Err.Undefined)

/-- The function `Serialize`. -/
def Serialize : Obj → Except Err String
  | .null => .ok "()"
  | cell => Stringify cell

/-! ## The evaluation monad -/

deriving instance DecidableEq for Except

/-- A computation that reads and updates the heap of frames and may throw. -/
def M (α : Type) : Type := Heap → Except Err α × Heap

/-- Sequencing: an exception skips the continuation and keeps the heap. -/
def M.bind {α β : Type} (x : M α) (f : α → M β) : M β := fun h =>
  match x h with
  | (.ok a, h1) => f a h1
  | (.error e, h1) => (.error e, h1)

instance : Monad M where
  pure a := fun h => (.ok a, h)
  bind := M.bind

/-- The statement `throw`. -/
def raise {α : Type} (e : Err) : M α := fun h => (.error e, h)

/-- A computation that does not touch the heap. -/
def liftE {α : Type} (r : Except Err α) : M α := fun h => (r, h)

/-- A computation that depends on the current heap. -/
def withHeap {α : Type} (f : Heap → M α) : M α := fun h => f h h

/-! ## Built-in procedures -/

/-- Reduction of a mathematical integer to the `int64_t` it is stored as. -/
def wrap64 (x : Int) : Int := (x + 2 ^ 63) % 2 ^ 64 - 2 ^ 63

/-- The macro `ASSERT_ALL_NUMBERS`: the payloads, or `RuntimeError`. -/
def ASSERT_ALL_NUMBERS : List Obj → Except Err (List Int)
  | [] => .ok []
  | .Number v :: rest =>
      match ASSERT_ALL_NUMBERS rest with
      | .ok vs => .ok (v :: vs)
      | .error e => .error e
  | _ :: _ => .error Err.RuntimeError

/-- The comparison loops: `true` unless some adjacent pair violates `r`. -/
def adjacentAll (r : Int → Int → Bool) : List Int → Bool
  | a :: b :: rest => r a b && adjacentAll r (b :: rest)
  | _ => true

/-- The shared shape of `Equal`, `Greater`, `Less`, `GreaterOrEqual`, `LessOrEqual`. -/
def ApplyCompare (r : Int → Int → Bool) (objects : List Obj) : Except Err Obj :=
  match ASSERT_ALL_NUMBERS objects with
  | .error e => .error e
  | .ok vs => .ok (Obj.Boolean (adjacentAll r vs))

/-- The method `Add::Apply`. -/
def ApplyAdd (objects : List Obj) : Except Err Obj :=
  match ASSERT_ALL_NUMBERS objects with
  | .error e => .error e
  | .ok vs => .ok (Obj.Number (vs.foldl (fun result v => wrap64 (result + v)) 0))

/-- The method `Multiply::Apply`. -/
def ApplyMultiply (objects : List Obj) : Except Err Obj :=
  match ASSERT_ALL_NUMBERS objects with
  | .error e => .error e
  | .ok vs => .ok (Obj.Number (vs.foldl (fun result v => wrap64 (result * v)) 1))

/-- The method `Sub::Apply`. -/
def ApplySub (objects : List Obj) : Except Err Obj :=
  if objects.isEmpty then .error Err.RuntimeError
  else
    match ASSERT_ALL_NUMBERS objects with
    | .ok (v0 :: vs) => .ok (Obj.Number (vs.foldl (fun result v => wrap64 (result - v)) v0))
    | .ok [] => .error Err.Undefined
    | .error e => .error e

/-- The loop of `Divide::Apply`; a zero divisor and `INT64_MIN / -1` trap. -/
def divideLoop : Int → List Int → Except Err Int
  | result, [] => .ok result
  | result, v :: vs =>
      if v = 0 ∨ (result = -(2 ^ 63) ∧ v = -1) then .error Err.Undefined
      else divideLoop (Int.tdiv result v) vs

/-- The method `Divide::Apply`. -/
def ApplyDivide (objects : List Obj) : Except Err Obj :=
  if objects.isEmpty then .error Err.RuntimeError
  else
    match ASSERT_ALL_NUMBERS objects with
    | .ok (v0 :: vs) =>
        match divideLoop v0 vs with
        | .ok r => .ok (Obj.Number r)
        | .error e => .error e
    | .ok [] => .error Err.Undefined
    | .error e => .error e

/-- The method `Abs::Apply`. -/
def ApplyAbs (objects : List Obj) : Except Err Obj :=
  if objects.length ≠ 1 then .error Err.RuntimeError
  else
    match ASSERT_ALL_NUMBERS objects with
    | .ok (v :: _) => .ok (Obj.Number (wrap64 (if v < 0 then -v else v)))
    | .ok [] => .error Err.Undefined
    | .error e => .error e

/-- The method `Max::Apply`. -/
def ApplyMax (objects : List Obj) : Except Err Obj :=
  if objects.isEmpty then .error Err.RuntimeError
  else
    match ASSERT_ALL_NUMBERS objects with
    | .ok (v0 :: vs) => .ok (Obj.Number (vs.foldl (fun result v => max result v) v0))
    | .ok [] => .error Err.Undefined
    | .error e => .error e

/-- The method `Min::Apply`. -/
def ApplyMin (objects : List Obj) : Except Err Obj :=
  if objects.isEmpty then .error Err.RuntimeError
  else
    match ASSERT_ALL_NUMBERS objects with
    | .ok (v0 :: vs) => .ok (Obj.Number (vs.foldl (fun result v => min result v) v0))
    | .ok [] => .error Err.Undefined
    | .error e => .error e

/-- The shared shape of `IsNumber`, `IsBoolean`, `IsSymbol`. -/
def ApplyTagTest (test : Obj → Bool) (objects : List Obj) : Except Err Obj :=
  match objects with
  | [x] => .ok (Obj.Boolean (test x))
  | _ => .error Err.RuntimeError

/-- The method `BooleanNot::Apply`. -/
def ApplyBooleanNot (objects : List Obj) : Except Err Obj :=
  match objects with
  | [.Boolean false] => .ok (Obj.Boolean true)
  | [_] => .ok (Obj.Boolean false)
  | _ => .error Err.RuntimeError

/-- The first test in the loops of `BooleanAnd` and `BooleanOr`: a cell must
start with the symbol `quote`; its first slot is cast to `Symbol` unchecked. -/
def quoteCheck : Obj → Except Err Unit
  | .Cell (.Symbol name) _ => if name ≠ "quote" then .error Err.NameError else .ok ()
  | .Cell _ _ => .error Err.Undefined
  | _ => .ok ()

/-- The tail of `BooleanAnd::Apply` and `BooleanOr::Apply` on `objects.back()`. -/
def lastUnquote : Obj → Obj
  | .Cell _ (.Cell first _) => first
  | .Cell _ tail => tail
  | back => back

/-- The loop of `BooleanAnd::Apply`: the object it returns, if any. -/
def andLoop : List Obj → Except Err (Option Obj)
  | [] => .ok none
  | obj :: rest =>
      match quoteCheck obj with
      | .error e => .error e
      | .ok _ =>
          match obj with
          | .Boolean false => .ok (some obj)
          | _ => andLoop rest

/-- The method `BooleanAnd::Apply`. -/
def ApplyBooleanAnd (objects : List Obj) : Except Err Obj :=
  if objects.isEmpty then .ok (Obj.Boolean true)
  else
    match andLoop objects with
    | .error e => .error e
    | .ok (some obj) => .ok obj
    | .ok none => .ok (lastUnquote (objects.getLast?.getD Obj.null))

/-- The loop of `BooleanOr::Apply`: the object it returns, if any. -/
def orLoop : List Obj → Except Err (Option Obj)
  | [] => .ok none
  | obj :: rest =>
      match quoteCheck obj with
      | .error e => .error e
      | .ok _ =>
          match obj with
          | .Boolean false => orLoop rest
          | _ => .ok (some obj)

/-- The method `BooleanOr::Apply`. -/
def ApplyBooleanOr (objects : List Obj) : Except Err Obj :=
  if objects.isEmpty then .ok (Obj.Boolean false)
  else
    match orLoop objects with
    | .error e => .error e
    | .ok (some obj) => .ok obj
    | .ok none => .ok (lastUnquote (objects.getLast?.getD Obj.null))

/-- The loop of `IsPair::Apply`; a receiver that is no cell is cast unchecked. -/
def IsPairLoop : Obj → Nat → Except Err Nat
  | .null, size => .ok size
  | .Number _, size => .ok (size + 1)
  | .Boolean _, size => .ok (size + 1)
  | .Cell first second, size => IsPairLoop second (if first.isNull then size else size + 1)
  | _, _ => .error Err.Undefined

/-- The method `IsPair::Apply`; `front()` of an empty vector is undefined. -/
def ApplyIsPair (objects : List Obj) : Except Err Obj :=
  match objects with
  | [] => .error Err.Undefined
  | cell :: _ =>
      match IsPairLoop cell 0 with
      | .ok size => .ok (Obj.Boolean (size = 2))
      | .error e => .error e

/-- The method `IsNull::Apply`. -/
def ApplyIsNull (objects : List Obj) : Except Err Obj :=
  match objects with
  | [] => .error Err.Undefined
  | cell :: _ => .ok (Obj.Boolean cell.isNull)

/-- The loop of `IsList::Apply`. -/
def IsListLoop : Obj → Except Err Bool
  | .null => .ok true
  | .Number _ => .ok false
  | .Boolean _ => .ok false
  | .Cell _ second => IsListLoop second
  | _ => .error Err.Undefined

/-- The method `IsList::Apply`. -/
def ApplyIsList (objects : List Obj) : Except Err Obj :=
  match objects with
  | [] => .error Err.Undefined
  | cell :: _ =>
      match IsListLoop cell with
      | .ok b => .ok (Obj.Boolean b)
      | .error e => .error e

/-- The method `Cons::Apply`. -/
def ApplyCons (objects : List Obj) : Except Err Obj :=
  match objects with
  | [a, b] => .ok (Obj.Cell a b)
  | _ => .error Err.RuntimeError

/-- The method `Car::Apply`. -/
def ApplyCar (objects : List Obj) : Except Err Obj :=
  match objects with
  | [] => .error Err.Undefined
  | .null :: _ => .error Err.RuntimeError
  | .Cell first _ :: _ => .ok first
  | _ :: _ => .error Err.RuntimeError

/-- The method `Cdr::Apply`. -/
def ApplyCdr (objects : List Obj) : Except Err Obj :=
  match objects with
  | [] => .error Err.Undefined
  | .null :: _ => .error Err.RuntimeError
  | .Cell _ second :: _ => .ok second
  | _ :: _ => .error Err.RuntimeError

/-- The method `CreateList::Apply`. -/
def ApplyCreateList (objects : List Obj) : Except Err Obj :=
  .ok (mkChain objects Obj.null)

/-- The conversion of an `int64_t` to `size_t`. -/
def toSizeT (v : Int) : Nat := (v % 2 ^ 64).toNat

/-- The loop of `ListRef::Apply` and the access after it. -/
def ListRefLoop : Obj → Nat → Except Err Obj
  | .Cell first _, 0 => .ok first
  | _, 0 => .error Err.Undefined
  | .Cell _ .null, _ + 1 => .error Err.RuntimeError
  | .Cell _ second, index + 1 => ListRefLoop second index
  | _, _ + 1 => .error Err.RuntimeError

/-- The method `ListRef::Apply`. -/
def ApplyListRef (objects : List Obj) : Except Err Obj :=
  match objects with
  | [cell, .Number v] => ListRefLoop cell (toSizeT v)
  | _ => .error Err.RuntimeError

/-- The loop of `ListTail::Apply`. -/
def ListTailLoop : Obj → Nat → Except Err Obj
  | cell, 0 => .ok cell
  | .Cell _ second, index + 1 => ListTailLoop second index
  | _, _ + 1 => .error Err.RuntimeError

/-- The method `ListTail::Apply`. -/
def ApplyListTail (objects : List Obj) : Except Err Obj :=
  match objects with
  | [cell, .Number v] => ListTailLoop cell (toSizeT v)
  | _ => .error Err.RuntimeError

/-- The methods `SetCar::Apply` and `SetCdr::Apply` up to the assignment. -/
def ApplySetSlot (objects : List Obj) : Except Err Obj :=
  match objects with
  | [.null, _] => .error Err.RuntimeError
  | [.Cell _ _, _] => .error Err.Mutation
  | [_, _] => .error Err.RuntimeError
  | _ => .error Err.SyntaxError

/-! ## Closures -/

/-- The loop over `variables` shared by the three places that read a lambda. -/
def lambdaVariables : Obj → Except Err (List String)
  | .null => .ok []
  | .Cell (.Symbol name) rest =>
      match lambdaVariables rest with
      | .ok names => .ok (name :: names)
      | .error e => .error e
  | _ => .error Err.SyntaxError

/-- The loop over `evals`, preceded by the test `evals == nullptr`. -/
def lambdaEvalsLoop : Obj → Except Err (List Obj)
  | .null => .ok []
  | .Cell first rest =>
      match lambdaEvalsLoop rest with
      | .ok objs => .ok (first :: objs)
      | .error e => .error e
  | _ => .error Err.SyntaxError

/-- Reading `(variables . evals)` as done in `ArgsToVector` and in the branch of
`Evaluate` for a lambda in head position: variables first, then the body. -/
def readLambda (tail : Obj) : Except Err (List String × List Obj) :=
  match tail with
  | .Cell variables_ evals =>
      match lambdaVariables variables_ with
      | .error e => .error e
      | .ok arguments =>
          match evals with
          | .null => .error Err.SyntaxError
          | _ =>
              match lambdaEvalsLoop evals with
              | .error e => .error e
              | .ok evals_objects => .ok (arguments, evals_objects)
  | _ => .error Err.SyntaxError

/-- Reading `(variables . evals)` as done in the branch of `Evaluate` for the head
symbol `lambda`: the empty body is rejected before the variables are read. -/
def readLambdaEarly (tail : Obj) : Except Err (List String × List Obj) :=
  match tail with
  | .Cell _ .null => .error Err.SyntaxError
  | _ => readLambda tail

/-- The constructor `Lambda::Lambda`: a new frame whose parent is `scope`. -/
def newLambda (scope : Nat) (args : List String) (evals : List Obj) : M Obj := fun h =>
  (.ok (Obj.Lambda h.length args evals), h ++ [{ parent_scope_ := some scope, scope_objects_ := [] }])

/-- The method `LambdaCreator::CreateLambda`. -/
def CreateLambda : Obj → M Obj
  | .LambdaCreator lambda_parent_scope lambda_args lambda_evals =>
      newLambda lambda_parent_scope lambda_args lambda_evals
  | _ => raise Err.Undefined

/-- The first loop of `EvalLambda`: bind each parameter in the local frame. -/
def defineAll (h : Heap) (local_scope : Nat) : List String → List Obj → Heap
  | a :: as, o :: os => defineAll (DefineSymbol h local_scope a o) local_scope as os
  | _, _ => h

/-- The second loop of `EvalLambda` and its `return`: every body expression is
evaluated in order and the value of the last one is returned. -/
def evalBody (ev : Obj → M Obj) : List Obj → M Obj
  | [] => raise Err.Undefined
  | [e] => ev e
  | e :: e2 :: rest => M.bind (ev e) (fun _ => evalBody ev (e2 :: rest))

/-- The method `Lambda::EvalLambda`; `ev` is the function `Evaluate`. -/
def EvalLambda (ev : Obj → Nat → M Obj) (lambda : Obj) (objects : List Obj) : M Obj :=
  match lambda with
  | .Lambda local_scope args evals =>
      if objects.length ≠ args.length then raise Err.SyntaxError
      else
        M.bind (fun h => (.ok (), defineAll h local_scope args objects))
          (fun _ => evalBody (fun e => ev e local_scope) evals)
  | _ => raise Err.Undefined

/-! ## Built-ins that use the scope -/

/-- The shortcut of `Define` and `Set`: a value that is a bound symbol is replaced
by its binding. -/
def symbolShortcut (h : Heap) (scope : Nat) (value : Obj) : Except Err Obj :=
  match value with
  | .Symbol name => if AllContains h scope name then AllResolveSymbol h scope name else .ok value
  | _ => .ok value

/-- The method `Define::Apply`. -/
def ApplyDefine (ev : Obj → Nat → M Obj) (scope : Nat) (objects : List Obj) : M Obj :=
  match objects with
  | [] => raise Err.SyntaxError
  | [_] => raise Err.SyntaxError
  | [.Symbol name, value] => fun h =>
      match symbolShortcut h scope value with
      | .error e => (.error e, h)
      | .ok v => (.ok Obj.null, DefineSymbol h scope name v)
  | .Symbol name :: lambda :: lambda_objects =>
      match lambda with
      | .Lambda _ _ _ =>
          M.bind (EvalLambda ev lambda lambda_objects)
            (fun value h => (.ok Obj.null, DefineSymbol h scope name value))
      | _ => raise Err.SyntaxError
  | _ :: _ :: _ => raise Err.SyntaxError

/-- The method `Set::Apply`. -/
def ApplySet (scope : Nat) (objects : List Obj) : M Obj :=
  match objects with
  | [variable_, value] =>
      match variable_ with
      | .Symbol name => fun h =>
          if !AllContains h scope name then (.error Err.NameError, h)
          else
            match symbolShortcut h scope value with
            | .error e => (.error e, h)
            | .ok v =>
                match SetDefineSymbol h scope name v with
                | .error e => (.error e, h)
                | .ok h1 => (.ok Obj.null, h1)
      | _ => raise Err.SyntaxError
  | _ => raise Err.SyntaxError

/-- The method `If::Apply`. -/
def ApplyIf (ev : Obj → Nat → M Obj) (scope : Nat) (objects : List Obj) : M Obj :=
  match objects with
  | [condition, true_branch] =>
      match condition with
      | .Boolean false => pure Obj.null
      | _ => ev true_branch scope
  | [condition, true_branch, false_branch] =>
      match condition with
      | .Boolean false =>
          match false_branch with
          | .null => pure Obj.null
          | _ => ev false_branch scope
      | _ => ev true_branch scope
  | _ => raise Err.SyntaxError

/-- The virtual call `Function::Apply`. -/
def Apply (ev : Obj → Nat → M Obj) (f : Func) (scope : Nat) (objects : List Obj) : M Obj :=
  match f with
  | .Quote => raise Err.NameError
  | .IsNumber => liftE (ApplyTagTest Obj.isNumber objects)
  | .Equal => liftE (ApplyCompare (fun a b => decide (a = b)) objects)
  | .Greater => liftE (ApplyCompare (fun a b => decide (a > b)) objects)
  | .Less => liftE (ApplyCompare (fun a b => decide (a < b)) objects)
  | .GreaterOrEqual => liftE (ApplyCompare (fun a b => decide (a ≥ b)) objects)
  | .LessOrEqual => liftE (ApplyCompare (fun a b => decide (a ≤ b)) objects)
  | .Add => liftE (ApplyAdd objects)
  | .Multiply => liftE (ApplyMultiply objects)
  | .Sub => liftE (ApplySub objects)
  | .Divide => liftE (ApplyDivide objects)
  | .Abs => liftE (ApplyAbs objects)
  | .Max => liftE (ApplyMax objects)
  | .Min => liftE (ApplyMin objects)
  | .IsBoolean => liftE (ApplyTagTest Obj.isBoolean objects)
  | .BooleanNot => liftE (ApplyBooleanNot objects)
  | .BooleanAnd => liftE (ApplyBooleanAnd objects)
  | .BooleanOr => liftE (ApplyBooleanOr objects)
  | .IsPair => liftE (ApplyIsPair objects)
  | .IsNull => liftE (ApplyIsNull objects)
  | .IsList => liftE (ApplyIsList objects)
  | .Cons => liftE (ApplyCons objects)
  | .Car => liftE (ApplyCar objects)
  | .Cdr => liftE (ApplyCdr objects)
  | .CreateList => liftE (ApplyCreateList objects)
  | .ListRef => liftE (ApplyListRef objects)
  | .ListTail => liftE (ApplyListTail objects)
  | .IsSymbol => liftE (ApplyTagTest Obj.isSymbol objects)
  | .Define => ApplyDefine ev scope objects
  | .Set => ApplySet scope objects
  | .If => ApplyIf ev scope objects
  | .SetCar => liftE (ApplySetSlot objects)
  | .SetCdr => liftE (ApplySetSlot objects)

/-! ## Evaluator -/

/-- The rewriting of `(define (name . variables) . body)` done in `Evaluate`. -/
def defineSugar (name variables_ body : Obj) : Obj :=
  Obj.Cell (Obj.Symbol "define")
    (Obj.Cell name
      (Obj.Cell (Obj.Cell (Obj.Symbol "lambda") (Obj.Cell variables_ body)) Obj.null))

/-- The part of `ArgsToVector` for the name `if`, after the condition was pushed:
the two branches are pushed unevaluated. -/
def pushBranches (vec : List Obj) (tail : Obj) : Except Err (List Obj) :=
  match tail with
  | .Cell true_branch rest =>
      match rest with
      | .Cell false_branch rest2 =>
          match rest2 with
          | .null => .ok (vec ++ [true_branch, false_branch])
          | _ => .error Err.SyntaxError
      | _ => .ok (vec ++ [true_branch])
  | _ => .error Err.SyntaxError

/-- The body of the function `Evaluate`; the parameters `evaluate` and
`argsToVector` stand for the recursive calls. -/
def EvaluateBody (evaluate : Obj → Nat → M Obj)
    (argsToVector : List Obj → Obj → String → Nat → M (List Obj))
    (cell : Obj) (scope : Nat) : M Obj :=
      match cell with
      | .null => raise Err.RuntimeError
      | .Number _ => pure cell
      | .Boolean _ => pure cell
      | .Symbol name => fun h =>
          if AllContains h scope name then (AllResolveSymbol h scope name, h)
          else (.error Err.NameError, h)
      | .Cell head tail =>
          match head with
          | .Symbol hname =>
              if hname = "lambda" then
                match readLambdaEarly tail with
                | .error e => raise e
                | .ok (arguments, evals_objects) =>
                    pure (Obj.LambdaCreator scope arguments evals_objects)
              else if hname = "quote" then
                match tail with
                | .null => pure Obj.null
                | .Cell first _ => pure first
                | _ => raise Err.Undefined
              else
                let call (args : List Obj) (tail1 : Obj) : M Obj :=
                  M.bind (argsToVector args tail1 hname scope) (fun args1 =>
                    withHeap (fun h =>
                      match SymbolEval h scope hname with
                      | .error e => raise e
                      | .ok (.LambdaCreator ps as es) =>
                          M.bind (CreateLambda (.LambdaCreator ps as es)) (fun lambda =>
                            EvalLambda evaluate lambda args1)
                      | .ok (.Function f) => Apply evaluate f scope args1
                      | .ok _ => raise Err.Undefined))
                if hname = "define" ∨ hname = "set!" then
                  match tail with
                  | .Cell (.Symbol vname) rest =>
                      match rest with
                      | .Cell _ _ => call [Obj.Symbol vname] rest
                      | _ => raise Err.SyntaxError
                  | .Cell (.Cell name variables_) body =>
                      match name with
                      | .Symbol _ => evaluate (defineSugar name variables_ body) scope
                      | _ => raise Err.SyntaxError
                  | _ => raise Err.SyntaxError
                else call [] tail
          | .Cell (.Symbol hh) lambda_tail =>
              if hh = "lambda" then
                match readLambda lambda_tail with
                | .error e => raise e
                | .ok (arguments, evals_objects) =>
                    M.bind (newLambda scope arguments evals_objects) (fun lambda =>
                      M.bind (argsToVector [] tail "lambda" scope) (fun args =>
                        EvalLambda evaluate lambda args))
              else
                M.bind (evaluate head scope) (fun lambda_creator =>
                  match lambda_creator with
                  | .LambdaCreator _ _ _ =>
                      M.bind (argsToVector [] tail "lambda" scope) (fun e =>
                        M.bind (CreateLambda lambda_creator) (fun lambda =>
                          EvalLambda evaluate lambda e))
                  | _ => raise Err.RuntimeError)
          | .Cell _ _ => raise Err.RuntimeError
          | _ => raise Err.RuntimeError
      | _ => raise Err.Undefined

/-- The body of the function `ArgsToVector`; it returns the vector it was given,
extended. -/
def ArgsToVectorBody (evaluate : Obj → Nat → M Obj)
    (argsToVector : List Obj → Obj → String → Nat → M (List Obj))
    (vec : List Obj) (cell : Obj) (name : String) (scope : Nat) : M (List Obj) :=
      match cell with
      | .null => pure vec
      | .Number _ => pure (vec ++ [cell])
      | .Boolean _ => pure (vec ++ [cell])
      | .Symbol sname => fun h =>
          if AllContains h scope sname then
            match AllResolveSymbol h scope sname with
            | .ok v => (.ok (vec ++ [v]), h)
            | .error e => (.error e, h)
          else (.ok vec, h)
      | .Cell head tail =>
          match head with
          | .Symbol hname =>
              if hname = "lambda" then
                match readLambda tail with
                | .error e => raise e
                | .ok (arguments, evals_objects) =>
                    pure (vec ++ [Obj.LambdaCreator scope arguments evals_objects])
              else
                let resolved : M (List Obj) := withHeap (fun h =>
                  if !AllContains h scope hname then raise Err.NameError
                  else
                    match AllResolveSymbol h scope hname with
                    | .error e => raise e
                    | .ok v =>
                        if !v.isFunction && !v.isLambdaCreator then
                          argsToVector (vec ++ [v]) tail name scope
                        else
                          M.bind (evaluate cell scope) (fun obj => pure (vec ++ [obj])))
                if name = "and" ∨ name = "or" then
                  withHeap (fun h =>
                    match SymbolEval h scope hname with
                    | .error _ => pure (vec ++ [cell])
                    | .ok _ => if hname = "quote" then pure (vec ++ [cell]) else resolved)
                else resolved
          | _ =>
              if head.isNull && tail.isNull then raise Err.RuntimeError
              else
                M.bind (argsToVector vec head name scope) (fun vec1 =>
                  if name = "if" then liftE (pushBranches vec1 tail)
                  else argsToVector vec1 tail name scope)
      | _ => raise Err.Undefined

mutual
/-- The function `Evaluate`; the first argument bounds the depth of the calls. -/
def Evaluate : Nat → Obj → Nat → M Obj
  | 0 => fun _ _ => raise Err.Fuel
  | n + 1 => EvaluateBody (Evaluate n) (ArgsToVector n)
/-- The function `ArgsToVector`, bounded in the same way. -/
def ArgsToVector : Nat → List Obj → Obj → String → Nat → M (List Obj)
  | 0 => fun _ _ _ _ => raise Err.Fuel
  | n + 1 => ArgsToVectorBody (Evaluate n) (ArgsToVector n)
end

/-! ## Interpreter -/

/-- The table `kDefaultFuncs`. -/
def kDefaultFuncs : List (String × Obj) :=
  [("quote", .Function .Quote), ("symbol?", .Function .IsSymbol),
   ("boolean?", .Function .IsBoolean), ("not", .Function .BooleanNot),
   ("and", .Function .BooleanAnd), ("or", .Function .BooleanOr),
   ("pair?", .Function .IsPair), ("null?", .Function .IsNull),
   ("list?", .Function .IsList), ("cons", .Function .Cons), ("car", .Function .Car),
   ("cdr", .Function .Cdr), ("list", .Function .CreateList),
   ("list-ref", .Function .ListRef), ("list-tail", .Function .ListTail),
   ("number?", .Function .IsNumber), ("=", .Function .Equal), (">", .Function .Greater),
   ("<", .Function .Less), (">=", .Function .GreaterOrEqual),
   ("<=", .Function .LessOrEqual), ("+", .Function .Add), ("-", .Function .Sub),
   ("*", .Function .Multiply), ("/", .Function .Divide), ("max", .Function .Max),
   ("min", .Function .Min), ("abs", .Function .Abs), ("define", .Function .Define),
   ("set!", .Function .Set), ("if", .Function .If), ("set-car!", .Function .SetCar),
   ("set-cdr!", .Function .SetCdr)]

/-- The constructor `Interpreter::Interpreter`: one global frame. -/
def Interpreter.new : Heap :=
  [{ parent_scope_ := none, scope_objects_ := kDefaultFuncs }]

/-- The stream built from `input.data()`: the text up to the first NUL. -/
def streamOf (input : String) : List Char :=
  input.data.takeWhile (fun c => c ≠ Char.ofNat 0)

/-- The method `Interpreter::Run`; `fuel` bounds the depth of `Evaluate`. -/
def Run (fuel : Nat) (input : String) : M String := fun h =>
  match Tokenizer.new (streamOf input) with
  | .error e => (.error e, h)
  | .ok tokenizer =>
      match Read tokenizer with
      | .error e => (.error e, h)
      | .ok input_ast =>
          match Evaluate fuel input_ast 0 h with
          | (.error e, h1) => (.error e, h1)
          | (.ok output_ast, h1) => (Serialize output_ast, h1)

/-- Runs the inputs one after the other on the same interpreter and returns the
outcome of each. -/
def RunAll (fuel : Nat) : List String → Heap → List (Except Err String) × Heap
  | [], h => ([], h)
  | input :: rest, h =>
      let r := Run fuel input h
      let rs := RunAll fuel rest r.2
      (r.1 :: rs.1, rs.2)

/-! ## Refinement by fuel -/

/-- The computation `y` agrees with `x` wherever `x` did not run out of fuel. -/
def FuelLe {α : Type} (x y : M α) : Prop :=
  ∀ h, (x h).1 = .error Err.Fuel ∨ x h = y h

/-! ## Concrete interpreter states used by the worked examples -/

/-- The heap after `(define (g k) (if (= k 1) (define y 7) y))` and `(g 1)`. -/
def heapAfterG : Heap :=
  (RunAll 10 ["(define (g k) (if (= k 1) (define y 7) y))", "(g 1)"] Interpreter.new).2

/-! ## Argument lists -/

/-- The value bound to `name` along the scope chain is a built-in or a closure
factory. -/
def boundToProcedure (h : Heap) (scope : Nat) (name : String) : Bool :=
  AllContains h scope name &&
    match AllResolveSymbol h scope name with
    | .ok v => v.isFunction || v.isLambdaCreator
    | .error _ => false

/-- The value bound to `name` along the scope chain is neither a built-in nor a
closure factory. -/
def boundToData (h : Heap) (scope : Nat) (name : String) : Bool :=
  AllContains h scope name &&
    match AllResolveSymbol h scope name with
    | .ok v => !v.isFunction && !v.isLambdaCreator
    | .error _ => false

/-- The argument shapes that `ArgsToVector` turns into exactly one entry: an
integer or boolean literal, a symbol other than `lambda` bound to data, and a
compound whose head is the symbol `lambda` or a symbol bound to a procedure. -/
def PlainArg (h : Heap) (scope : Nat) : Obj → Bool
  | .Number _ => true
  | .Boolean _ => true
  | .Symbol s => decide (s ≠ "lambda") && boundToData h scope s
  | .Cell (.Symbol hname) _ => decide (hname = "lambda") || boundToProcedure h scope hname
  | _ => false

/-- Evaluating the expressions `as` one by one with `Evaluate`, left to right,
each in the heap its predecessor left: the values `vs` and the final heap.  Every
expression has a plain shape in the heap it is evaluated in. -/
inductive EvalArgs (fuel : Nat) (scope : Nat) : List Obj → Heap → List Obj → Heap → Prop
  | nil (h : Heap) : EvalArgs fuel scope [] h [] h
  | cons {a : Obj} {as : List Obj} {h h1 h2 : Heap} {v : Obj} {vs : List Obj} :
      PlainArg h scope a = true → Evaluate fuel a scope h = (.ok v, h1) →
      EvalArgs fuel scope as h1 vs h2 → EvalArgs fuel scope (a :: as) h (v :: vs) h2

/-! ## Concrete syntax -/

/-- The text is an integer literal of the tokenizer grammar: an optional sign
followed by one or more decimal digits. -/
def IsIntLiteral (s : List Char) : Bool :=
  match s with
  | '-' :: ds => !ds.isEmpty && ds.all isdigit
  | '+' :: ds => !ds.isEmpty && ds.all isdigit
  | ds => !ds.isEmpty && ds.all isdigit

/-- The text is the name of a symbol token: `+`, `-`, or a start character
followed by symbol characters, other than `#t` and `#f`. -/
def IsSymbolName (s : List Char) : Bool :=
  s = ['+'] || s = ['-'] ||
    match s with
    | c :: _ =>
        kSymbolTokenStartChars.contains c && s.all (fun d => kSymbolTokenChars.contains d) &&
          s ≠ "#t".data && s ≠ "#f".data
    | [] => false

/-- What may follow a token in the texts considered here: the end of the input,
a blank or a closing parenthesis. -/
def delimited (rest : List Char) : Bool :=
  match rest with
  | [] => true
  | c :: _ => c = ' ' || c = ')'

/-- The relation between a datum and a text that spells it with single blanks
between list elements and no quote mark or dot: `TextOf false v s` for a datum,
`TextOf true v s` for the elements of the non-empty list `v` without the
enclosing parentheses.  An integer may be spelled by any literal of its value. -/
inductive TextOf : Bool → Obj → List Char → Prop
  | number {s : List Char} {v : Int} :
      IsIntLiteral s = true → stoi s = .ok v → TextOf false (.Number v) s
  | boolean (b : Bool) : TextOf false (.Boolean b) (if b then "#t" else "#f").data
  | symbol {s : List Char} : IsSymbolName s = true → TextOf false (.Symbol (String.mk s)) s
  | null : TextOf false .null ['(', ')']
  | list {v : Obj} {s : List Char} : TextOf true v s → TextOf false v ('(' :: (s ++ [')']))
  | single {a : Obj} {s : List Char} : TextOf false a s → TextOf true (.Cell a .null) s
  | cons {a rest : Obj} {s t : List Char} :
      TextOf false a s → TextOf true rest t → TextOf true (.Cell a rest) (s ++ ' ' :: t)

/-- The reader, started on the text `s` of a datum followed by a delimited rest,
returns the datum and stands where a tokenizer started on the rest stands. -/
def ReadsElem (v : Obj) (s : List Char) : Prop :=
  v ≠ Obj.Symbol "." ∧ 1 ≤ s.length ∧
  ∀ rest, delimited rest = true → ∃ t1 tokF tokL,
    tokF ≠ Token.BracketToken .CLOSE ∧ t1.length < s.length + rest.length ∧
    (∀ tok, Next ⟨s ++ rest, tok, false⟩ = .ok ⟨t1, tokF, false⟩) ∧
    ∀ fuel, t1.length + 1 ≤ fuel + rest.length →
      ReadInner fuel ⟨t1, tokF, false⟩
        = match Next ⟨rest, tokL, false⟩ with
          | .ok T2 => .ok (v, T2)
          | .error e => .error e

/-- The loop of `ReadList`, started on the text `t` of the elements of `v` followed
by a closing parenthesis, links them after `acc`. -/
def ReadsList (v : Obj) (t : List Char) : Prop :=
  ∀ rest0, ∃ t1 tokF,
    tokF ≠ Token.BracketToken .CLOSE ∧
    (∀ tok, Next ⟨t ++ ')' :: rest0, tok, false⟩ = .ok ⟨t1, tokF, false⟩) ∧
    ∀ fuel, t.length + 1 ≤ fuel → ∀ acc,
      ReadList fuel ⟨t1, tokF, false⟩ acc
        = match Next ⟨rest0, Token.BracketToken .CLOSE, false⟩ with
          | .ok T2 => .ok (mkChain acc v, T2)
          | .error e => .error e

/-! ## Values that survive printing and reading -/

/-- An integer that fits the 32-bit `int` of `ConstantToken`, a boolean, or a
symbol whose name is the name of a symbol token. -/
def atomOk : Obj → Bool
  | .Number v => decide (-2147483648 ≤ v ∧ v ≤ 2147483647)
  | .Boolean _ => true
  | .Symbol name => IsSymbolName name.data
  | _ => false

/-- A proper list whose elements are such atoms or non-empty such lists. -/
def listOk : Obj → Bool
  | .null => true
  | .Cell a b => (atomOk a || (a.isCell && listOk a)) && listOk b
  | _ => false

/-- The values of the round trip: an atom, a proper list as above (the empty
list included), or the cell whose two slots are both empty. -/
def RoundTrips (v : Obj) : Bool :=
  atomOk v || listOk v || decide (v = Obj.Cell Obj.null Obj.null)

/-- A value of the C++ type `int64_t`. -/
def IsInt64 (x : Int) : Prop := -(2 ^ 63) ≤ x ∧ x < 2 ^ 63

/-- The words of the specification for the body of a closure, "evaluated in order":
each expression is evaluated in the scopes the previous one left; the result is the
list of the values, or the first exception. -/
def evalInOrder (ev : Obj → M Obj) : List Obj → Heap → Except Err (List Obj) × Heap
  | [], h => (.ok [], h)
  | e :: es, h =>
      match ev e h with
      | (.error err, h1) => (.error err, h1)
      | (.ok v, h1) =>
          match evalInOrder ev es h1 with
          | (.error err, h2) => (.error err, h2)
          | (.ok vs, h2) => (.ok (v :: vs), h2)

/-- The words of the specification for the result of a closure body, "the result of
the last is returned". -/
def lastValue (r : Except Err (List Obj) × Heap) : Except Err Obj × Heap :=
  match r with
  | (.ok vs, h) => (.ok (vs.getLast?.getD Obj.null), h)
  | (.error err, h) => (.error err, h)

/-- The scopes inside a call made from the global scope of a new interpreter: the
global frame and the new local frame of the closure. -/
def heapInCall : Heap :=
  Interpreter.new ++ [{ parent_scope_ := some 0, scope_objects_ := [] }]

/-- The scopes inside the call `(g 5)` after `(define x 1)`, `(define (f) x)` and
`(define (g x) (f))`: the global frame and the local frame of `g`, which binds `x`
to 5. -/
def heapInG : Heap :=
  defineAll
    ((RunAll 6 ["(define x 1)", "(define (f) x)", "(define (g x) (f))"] Interpreter.new).2
      ++ [{ parent_scope_ := some 0, scope_objects_ := [] }])
    1 ["x"] [Obj.Number 5]

/-- Every parent pointer of the heap is the index of a frame of the heap. -/
def WellLinked (h : Heap) : Bool :=
  h.all (fun s =>
    match s.parent_scope_ with
    | some p => decide (p < h.length)
    | none => true)

/-- The form that `ReadInner` builds for a quote mark followed by the datum `d`. -/
def quoteForm : Obj → Obj
  | .null => Obj.Cell (Obj.Symbol "quote") Obj.null
  | d => Obj.Cell (Obj.Symbol "quote") (Obj.Cell d Obj.null)

/-- The words "joined by single spaces". -/
def joinWithSpaces : List String → String
  | [] => ""
  | [s] => s
  | s :: rest => s ++ " " ++ joinWithSpaces rest

/-- The words of the specification for the terminal of a printed chain: an integer
or a Boolean is printed after ` . `, anything else is omitted. -/
def printedTerminal (t : Obj) : String :=
  match t with
  | .Number _ =>
      match Serialize t with
      | .ok s => " . " ++ s
      | .error _ => ""
  | .Boolean _ =>
      match Serialize t with
      | .ok s => " . " ++ s
      | .error _ => ""
  | _ => ""

/-- A chain of cells whose elements are integers, Booleans, symbols or again such
chains (the non-empty nested lists), with any terminal that is not a cell. -/
def printable : Obj → Bool
  | .Cell a b =>
      (a.isNumber || a.isBoolean || a.isSymbol || (a.isCell && printable a)) &&
        (!b.isCell || printable b)
  | _ => false

/-- An element of a printed list: an integer, a Boolean, a symbol or a non-empty
nested list. -/
def printableElement (e : Obj) : Bool :=
  e.isNumber || e.isBoolean || e.isSymbol || printable e

/-- The tokens that a tokenizer yields from its current token on, when every call of
`Next` succeeds; the first argument bounds the number of calls. -/
def tokensFrom : Nat → Tokenizer → Except Err (List Token)
  | 0, _ => .error Err.Fuel
  | n + 1, tk =>
      if tk.is_end_ then .ok []
      else
        match Next tk with
        | .error e => .error e
        | .ok tk1 =>
            match tokensFrom n tk1 with
            | .error e => .error e
            | .ok ts => .ok (tk.token_ :: ts)

/-- The token sequence of an input, or the exception of the first invalid token. -/
def tokenize (input : List Char) : Except Err (List Token) :=
  match Tokenizer.new input with
  | .error e => .error e
  | .ok tk => tokensFrom (input.length + 1) tk

/-- The tokenizer stands before the token sequence `ts`, all of it valid. -/
inductive Tokens : Tokenizer → List Token → Prop
  | done {tk : Tokenizer} : tk.is_end_ = true → Tokens tk []
  | step {tk tk1 : Tokenizer} {ts : List Token} :
      tk.is_end_ = false → Next tk = .ok tk1 → Tokens tk1 ts → Tokens tk (tk.token_ :: ts)

/-- Every closing parenthesis of the sequence matches an earlier opening one and,
with `depth` parentheses open before it, every opening one is closed. -/
def balanced : Nat → List Token → Bool
  | depth, [] => depth == 0
  | depth, .BracketToken .OPEN :: ts => balanced (depth + 1) ts
  | 0, .BracketToken .CLOSE :: _ => false
  | depth + 1, .BracketToken .CLOSE :: ts => balanced depth ts
  | depth, _ :: ts => balanced depth ts

/-- The number of tokens a tokenizer can still yield is at most this: its current
token and one for each character not read yet. -/
def remaining (tk : Tokenizer) : Nat :=
  if tk.is_end_ then 0 else tk.in_.length + 1

/-- What the reader may do on a valid token sequence `ts` with `opened` parentheses
already open: return and leave a valid sequence with the same balance, or raise
`SyntaxError` (or run out of the bound of the model). -/
def OutcomeOnTokens (opened : Nat) (ts : List Token) :
    Except Err (Obj × Tokenizer) → Prop
  | .ok (_, tk1) =>
      ∃ ts1, Tokens tk1 ts1 ∧ ∀ depth, balanced (depth + opened) ts = balanced depth ts1
  | .error e => e = Err.SyntaxError ∨ e = Err.Fuel

/-- The state that corresponds to the state `T` when the input is extended by
`suffix`: the same token with the longer rest, or, where `T` is at the end, the
state `S` that stands at the first token of `suffix`. -/
def frameOf (suffix : List Char) (S T : Tokenizer) : Tokenizer :=
  if T.is_end_ then S else ⟨T.in_ ++ suffix, T.token_, false⟩

/-- The bytes at which the specification lets a token start or be skipped:
whitespace, a decimal digit, a parenthesis, a dot, a quote, `+` or `-`, a letter
`A`-`Z` or `a`-`z`, or one of `< = > * / #`. -/
def inTokenAlphabet (c : Char) : Bool :=
  isSkipped c || isdigit c || c = '(' || c = ')' || c = '.' || c = '\'' || c = '+' || c = '-' ||
    decide ('A'.toNat ≤ c.toNat ∧ c.toNat ≤ 'Z'.toNat) ||
    decide ('a'.toNat ≤ c.toNat ∧ c.toNat ≤ 'z'.toNat) ||
    c = '<' || c = '=' || c = '>' || c = '*' || c = '/' || c = '#'

/-- The frames reached from `scope` through `GetParentScope`, innermost first. -/
def chainFrom (h : Heap) : Nat → Nat → List Nat
  | 0, _ => []
  | k + 1, scope =>
      scope :: match GetParentScope h scope with
        | none => []
        | some p => chainFrom h k p

/-- The scope chain of `scope`: the frame itself, its parent, and so on up to a frame
that has no parent. -/
def scopeChain (h : Heap) (scope : Nat) : List Nat :=
  chainFrom h h.length scope

/-- Every frame was allocated after its parent: a parent pointer is a smaller index. -/
def ParentsFirst (h : Heap) : Bool :=
  (List.range h.length).all (fun i =>
    match GetParentScope h i with
    | some p => decide (p < i)
    | none => true)

/-- The computation `x` only adds frames and leaves the parent pointer of every frame
that exists before it as it is. -/
def KeepsFrames {α : Type} (x : M α) : Prop :=
  ∀ h, h.length ≤ (x h).2.length ∧
    ∀ p, p < h.length → GetParentScope (x h).2 p = GetParentScope h p

/-- The scopes inside the call `(g 5)` after `(define x 1)`,
`(define (mk) (lambda () x))` and `(define (g x) ((mk)))`: the global frame and the
local frame of `g`, which binds `x` to 5. -/
def heapInMk : Heap :=
  defineAll
    ((RunAll 6 ["(define x 1)", "(define (mk) (lambda () x))", "(define (g x) ((mk)))"]
        Interpreter.new).2
      ++ [{ parent_scope_ := some 0, scope_objects_ := [] }])
    1 ["x"] [Obj.Number 5]

/-- The scopes of `heapInMk` once the head `(mk)` of the call `((mk))` was evaluated:
the call of `mk` has added its local frame, whose parent is the global frame and in
which the closure factory was created. -/
def heapAfterMk : Heap :=
  heapInMk ++ [{ parent_scope_ := some 0, scope_objects_ := [] }]

/-! # Theorems -/

/-! ## More fuel changes no finished run -/

theorem FuelLe.refl {α : Type} (x : M α) : FuelLe x x := fun _ => Or.inr rfl

theorem bind_fuelLe {α β : Type} {x y : M α} {f g : α → M β}
    (hx : FuelLe x y) (hf : ∀ a, FuelLe (f a) (g a)) : FuelLe (M.bind x f) (M.bind y g) := by
  intro h
  unfold M.bind
  rcases hx h with h1 | h1
  · left
    generalize x h = r at h1
    rcases r with ⟨r1, r2⟩
    simp only at h1
    subst h1
    rfl
  · rw [← h1]
    generalize x h = r
    rcases r with ⟨_ | a, r2⟩
    · right; rfl
    · exact hf a r2

theorem withHeap_fuelLe {α : Type} {f g : Heap → M α} (hf : ∀ h, FuelLe (f h) (g h)) :
    FuelLe (withHeap f) (withHeap g) := fun h => hf h h

theorem evalBody_fuelLe {ev ev' : Obj → M Obj} (he : ∀ e, FuelLe (ev e) (ev' e)) :
    ∀ es, FuelLe (evalBody ev es) (evalBody ev' es)
  | [] => FuelLe.refl _
  | [e] => by simpa [evalBody] using he e
  | e :: e2 :: rest => by
      show FuelLe (M.bind (ev e) _) (M.bind (ev' e) _)
      exact bind_fuelLe (he e) (fun _ => evalBody_fuelLe he (e2 :: rest))

theorem EvalLambda_fuelLe {ev ev' : Obj → Nat → M Obj} (he : ∀ e s, FuelLe (ev e s) (ev' e s))
    (lambda : Obj) (objects : List Obj) :
    FuelLe (EvalLambda ev lambda objects) (EvalLambda ev' lambda objects) := by
  unfold EvalLambda
  split
  · split
    · exact FuelLe.refl _
    · exact bind_fuelLe (FuelLe.refl _) (fun _ => evalBody_fuelLe (fun e => he e _) _)
  · exact FuelLe.refl _

theorem Apply_fuelLe {ev ev' : Obj → Nat → M Obj} (he : ∀ e s, FuelLe (ev e s) (ev' e s))
    (f : Func) (scope : Nat) (objects : List Obj) :
    FuelLe (Apply ev f scope objects) (Apply ev' f scope objects) := by
  cases f <;> try exact FuelLe.refl _
  · show FuelLe (ApplyDefine ev scope objects) (ApplyDefine ev' scope objects)
    unfold ApplyDefine
    split <;> try exact FuelLe.refl _
    split <;> try exact FuelLe.refl _
    exact bind_fuelLe (EvalLambda_fuelLe he _ _) (fun _ => FuelLe.refl _)
  · show FuelLe (ApplyIf ev scope objects) (ApplyIf ev' scope objects)
    unfold ApplyIf
    repeat' split
    all_goals first | exact FuelLe.refl _ | exact he _ _


theorem EvaluateBody_fuelLe {ev ev' : Obj → Nat → M Obj}
    {av av' : List Obj → Obj → String → Nat → M (List Obj)}
    (he : ∀ e s, FuelLe (ev e s) (ev' e s))
    (ha : ∀ v c nm s, FuelLe (av v c nm s) (av' v c nm s)) (cell : Obj) (scope : Nat) :
    FuelLe (EvaluateBody ev av cell scope) (EvaluateBody ev' av' cell scope) := by
  unfold EvaluateBody
  repeat' split
  all_goals first
    | exact FuelLe.refl _
    | exact he _ _
    | (refine bind_fuelLe (ha _ _ _ _) (fun args1 => withHeap_fuelLe (fun h => ?_))
       repeat' split
       all_goals first
         | exact FuelLe.refl _
         | exact Apply_fuelLe he _ _ _
         | exact bind_fuelLe (FuelLe.refl _) (fun _ => EvalLambda_fuelLe he _ _))
    | exact bind_fuelLe (FuelLe.refl _) (fun _ => bind_fuelLe (ha _ _ _ _) (fun _ => EvalLambda_fuelLe he _ _))
    | (refine bind_fuelLe (he _ _) (fun lc => ?_)
       split
       · exact bind_fuelLe (ha _ _ _ _) (fun _ => bind_fuelLe (FuelLe.refl _) (fun _ => EvalLambda_fuelLe he _ _))
       · exact FuelLe.refl _)

theorem ArgsToVectorBody_fuelLe {ev ev' : Obj → Nat → M Obj}
    {av av' : List Obj → Obj → String → Nat → M (List Obj)}
    (he : ∀ e s, FuelLe (ev e s) (ev' e s))
    (ha : ∀ v c nm s, FuelLe (av v c nm s) (av' v c nm s))
    (vec : List Obj) (cell : Obj) (name : String) (scope : Nat) :
    FuelLe (ArgsToVectorBody ev av vec cell name scope)
      (ArgsToVectorBody ev' av' vec cell name scope) := by
  have hres : ∀ (hname : String) (tail : Obj), FuelLe
      (withHeap (fun h =>
        if !AllContains h scope hname then raise Err.NameError
        else
          match AllResolveSymbol h scope hname with
          | .error e => raise e
          | .ok v =>
              if !v.isFunction && !v.isLambdaCreator then
                av (vec ++ [v]) tail name scope
              else
                M.bind (ev (Obj.Cell (Obj.Symbol hname) tail) scope) (fun obj => pure (vec ++ [obj]))))
      (withHeap (fun h =>
        if !AllContains h scope hname then raise Err.NameError
        else
          match AllResolveSymbol h scope hname with
          | .error e => raise e
          | .ok v =>
              if !v.isFunction && !v.isLambdaCreator then
                av' (vec ++ [v]) tail name scope
              else
                M.bind (ev' (Obj.Cell (Obj.Symbol hname) tail) scope) (fun obj => pure (vec ++ [obj])))) := by
    intro hname tail
    refine withHeap_fuelLe (fun h => ?_)
    repeat' split
    all_goals first
      | exact FuelLe.refl _
      | exact ha _ _ _ _
      | exact bind_fuelLe (he _ _) (fun _ => FuelLe.refl _)
  unfold ArgsToVectorBody
  repeat' split
  all_goals first
    | exact FuelLe.refl _
    | exact hres _ _
    | (refine withHeap_fuelLe (fun h => ?_)
       repeat' split
       all_goals first
         | exact FuelLe.refl _
         | exact hres _ _)
    | (refine bind_fuelLe (ha _ _ _ _) (fun _ => ?_)
       first
         | exact FuelLe.refl _
         | exact ha _ _ _ _)

theorem Evaluate_ArgsToVector_succ (n : Nat) :
    (∀ cell scope, FuelLe (Evaluate n cell scope) (Evaluate (n + 1) cell scope)) ∧
    (∀ vec cell name scope,
      FuelLe (ArgsToVector n vec cell name scope) (ArgsToVector (n + 1) vec cell name scope)) := by
  induction n with
  | zero =>
      constructor
      · intro cell scope h; left; rfl
      · intro vec cell name scope h; left; rfl
  | succ n ih =>
      obtain ⟨ihE, ihA⟩ := ih
      constructor
      · intro cell scope
        show FuelLe (EvaluateBody (Evaluate n) (ArgsToVector n) cell scope)
          (EvaluateBody (Evaluate (n + 1)) (ArgsToVector (n + 1)) cell scope)
        exact EvaluateBody_fuelLe ihE ihA cell scope
      · intro vec cell name scope
        show FuelLe (ArgsToVectorBody (Evaluate n) (ArgsToVector n) vec cell name scope)
          (ArgsToVectorBody (Evaluate (n + 1)) (ArgsToVector (n + 1)) vec cell name scope)
        exact ArgsToVectorBody_fuelLe ihE ihA vec cell name scope


/-- A run that ended without exhausting its fuel ends the same way with more. -/
theorem Evaluate_mono {n m : Nat} (hnm : n ≤ m) (cell : Obj) (scope : Nat) (h : Heap)
    (hr : (Evaluate n cell scope h).1 ≠ .error Err.Fuel) :
    Evaluate m cell scope h = Evaluate n cell scope h := by
  induction m with
  | zero =>
      have : n = 0 := by omega
      subst this; rfl
  | succ m ih =>
      rcases Nat.lt_or_ge n (m + 1) with hlt | hge
      · have h1 := ih (by omega)
        rcases (Evaluate_ArgsToVector_succ m).1 cell scope h with h2 | h2
        · rw [h1] at h2; exact absurd h2 hr
        · rw [← h2, h1]
      · have : n = m + 1 := by omega
        subst this; rfl

/-- The same for `ArgsToVector`. -/
theorem ArgsToVector_mono {n m : Nat} (hnm : n ≤ m) (vec : List Obj) (cell : Obj)
    (name : String) (scope : Nat) (h : Heap)
    (hr : (ArgsToVector n vec cell name scope h).1 ≠ .error Err.Fuel) :
    ArgsToVector m vec cell name scope h = ArgsToVector n vec cell name scope h := by
  induction m with
  | zero =>
      have : n = 0 := by omega
      subst this; rfl
  | succ m ih =>
      rcases Nat.lt_or_ge n (m + 1) with hlt | hge
      · have h1 := ih (by omega)
        rcases (Evaluate_ArgsToVector_succ m).2 vec cell name scope h with h2 | h2
        · rw [h1] at h2; exact absurd h2 hr
        · rw [← h2, h1]
      · have : n = m + 1 := by omega
        subst this; rfl

/-! ## Short-circuit forms -/

/-- Claim C1, evaluated at the failing input.  On a new interpreter, after
`(define x 1)`, the run of `(and #f (set! x 2))` returns `#f` but has evaluated its
second argument: `x` is now 2.  In the same way `(or #t (set! x 3))` returns `#t`
and leaves `x` at 3.  `ArgsToVector` evaluates every argument of `and` / `or`
before `BooleanAnd::Apply` / `BooleanOr::Apply` look at the first one. -/
theorem and_or_evaluate_every_argument :
    (RunAll 10 ["(define x 1)", "(and #f (set! x 2))", "x", "(or #t (set! x 3))", "x"]
        Interpreter.new).1
      = [.ok "()", .ok "#f", .ok "2", .ok "#t", .ok "3"] := by
  decide!

/-- Claim C2, evaluated at the failing input.  With `x` bound to `#f` and `y` to 0,
the run of `(if x (set! y 1) 5)` returns 5, the value of the selected branch, but
the branch that was not selected has been evaluated: `y` is now 1.  When the
condition is a symbol, `ArgsToVector` takes the path for a list that starts with a
bound symbol and evaluates the next element before the test `name == "if"`. -/
theorem if_symbol_condition_evaluates_other_branch :
    (RunAll 10 ["(define x #f)", "(define y 0)", "(if x (set! y 1) 5)", "y"]
        Interpreter.new).1
      = [.ok "()", .ok "()", .ok "5", .ok "1"] := by
  decide!

/-! ## Unfolding and fuel at the level of `Run` -/

theorem Evaluate_succ (n : Nat) :
    Evaluate (n + 1) = EvaluateBody (Evaluate n) (ArgsToVector n) := rfl

theorem ArgsToVector_succ (n : Nat) :
    ArgsToVector (n + 1) = ArgsToVectorBody (Evaluate n) (ArgsToVector n) := rfl

/-- More fuel does not change a finished `Run`. -/
theorem Run_mono {n m : Nat} (hnm : n ≤ m) (input : String) (h : Heap)
    (hr : (Run n input h).1 ≠ .error Err.Fuel) : Run m input h = Run n input h := by
  unfold Run at hr ⊢
  cases hT : Tokenizer.new (streamOf input) with
  | error e => rfl
  | ok tk =>
      simp only [hT] at hr ⊢
      cases hR : Read tk with
      | error e => rfl
      | ok ast =>
          simp only [hR] at hr ⊢
          have hne : (Evaluate n ast 0 h).1 ≠ .error Err.Fuel := by
            intro hc
            apply hr
            generalize Evaluate n ast 0 h = r at hc
            rcases r with ⟨r1, r2⟩
            simp only at hc
            subst hc
            rfl
          rw [Evaluate_mono hnm ast 0 h hne]

/-- More fuel does not change a finished sequence of runs. -/
theorem RunAll_mono {n m : Nat} (hnm : n ≤ m) (inputs : List String) (h : Heap)
    (hr : ∀ r ∈ (RunAll n inputs h).1, r ≠ .error Err.Fuel) :
    RunAll m inputs h = RunAll n inputs h := by
  induction inputs generalizing h with
  | nil => rfl
  | cons input rest ih =>
      simp only [RunAll, List.mem_cons, forall_eq_or_imp] at hr ⊢
      rw [Run_mono hnm input h hr.1, ih _ hr.2]

/-! ## Closures -/

/-- Claim C4 fails on the code.  After `(define (g k) (if (= k 1) (define y 7) y))`
and `(g 1)` on a new interpreter, the run of `(g 0)` does not return 7: it raises
`NameError`, because the `y` defined during the first invocation lives in a frame
the second invocation never sees. -/
theorem closure_frame_is_not_reused :
    (RunAll 10 ["(define (g k) (if (= k 1) (define y 7) y))", "(g 1)", "(g 0)"]
        Interpreter.new).1
      = [.ok "()", .ok "()", .error Err.NameError] := by
  decide!

/-- Claim C4 as amended: the local scope of a user-defined procedure is created
anew at each invocation.  Calling through a name `f` bound to a closure factory
(`f` not one of `lambda`, `quote`, `define`, `set!`) evaluates the arguments and
then runs `EvalLambda` on a `Lambda` whose local frame is a newly allocated one:
its index is the number of frames that existed before, it has no bindings, and
its parent is the scope the factory captured. -/
theorem call_allocates_new_frame (n : Nat) (f : String) (tail : Obj) (scope : Nat)
    (h h1 : Heap) (args : List Obj) (ps : Nat) (as : List String) (es : List Obj)
    (hf : f ≠ "lambda" ∧ f ≠ "quote" ∧ f ≠ "define" ∧ f ≠ "set!")
    (hargs : ArgsToVector n [] tail f scope h = (.ok args, h1))
    (hlook : SymbolEval h1 scope f = .ok (.LambdaCreator ps as es)) :
    Evaluate (n + 1) (.Cell (.Symbol f) tail) scope h
      = EvalLambda (Evaluate n) (.Lambda h1.length as es) args
          (h1 ++ [{ parent_scope_ := some ps, scope_objects_ := [] }]) := by
  rw [Evaluate_succ]
  simp [EvaluateBody, hf.1, hf.2.1, hf.2.2.1, hf.2.2.2, M.bind, hargs, withHeap, hlook,
    CreateLambda, newLambda]

/-- Claim C4 as amended, at the second call `(g 0)` of the worked example. -/
theorem call_allocates_new_frame_witness :
    Evaluate 10 (.Cell (.Symbol "g") (.Cell (.Number 0) .null)) 0 heapAfterG
      = EvalLambda (Evaluate 9)
          (.Lambda heapAfterG.length ["k"]
            [mkChain [.Symbol "if", mkChain [.Symbol "=", .Symbol "k", .Number 1] .null,
              mkChain [.Symbol "define", .Symbol "y", .Number 7] .null, .Symbol "y"] .null])
          [.Number 0]
          (heapAfterG ++ [{ parent_scope_ := some 0, scope_objects_ := [] }]) :=
  call_allocates_new_frame 9 "g" (.Cell (.Number 0) .null) 0 heapAfterG heapAfterG [.Number 0] 0
    ["k"] _ (by decide) (by decide!) (by decide!)

/-- Claim C8: on a new interpreter, after the definition of `fact`, the run of
`(fact n)` returns the decimal text of `n!` for every `n` from 1 to 20, whenever
the depth bound of the evaluator is at least 200.  Every recursive invocation
binds its own `n`: the product is right. -/
theorem fact_returns_factorial (n : Nat) (hn : 1 ≤ n ∧ n ≤ 20) (fuel : Nat)
    (hfuel : 200 ≤ fuel) :
    (RunAll fuel ["(define (fact n) (if (<= n 1) 1 (* n (fact (- n 1)))))",
        "(fact " ++ toString n ++ ")"] Interpreter.new).1
      = [.ok "()", .ok (toString n.factorial)] := by
  have h200 : ∀ k ∈ List.range 21, 1 ≤ k →
      (RunAll 200 ["(define (fact n) (if (<= n 1) 1 (* n (fact (- n 1)))))",
        "(fact " ++ toString k ++ ")"] Interpreter.new).1
      = [.ok "()", .ok (toString k.factorial)] := by
    decide!
  have hk := h200 n (by simp; omega) hn.1
  rw [RunAll_mono hfuel _ _ (by rw [hk]; simp), hk]

/-- Claim C8 at `n = 5`: the run of `(fact 5)` returns 120. -/
theorem fact_returns_factorial_witness :
    (RunAll 200 ["(define (fact n) (if (<= n 1) 1 (* n (fact (- n 1)))))",
        "(fact " ++ toString 5 ++ ")"] Interpreter.new).1
      = [.ok "()", .ok (toString (Nat.factorial 5))] :=
  fact_returns_factorial 5 (by decide) 200 (by decide)

/-! ## The argument vector -/

/-- Where the early test accepts, the plain reading agrees. -/
theorem readLambda_of_early {tail : Obj} {p : List String × List Obj}
    (he : readLambdaEarly tail = .ok p) : readLambda tail = .ok p := by
  unfold readLambdaEarly at he
  split at he
  · simp at he
  · exact he

/-- A successful `Evaluate` had fuel. -/
theorem Evaluate_ok_fuel_pos {fuel : Nat} {a : Obj} {scope : Nat} {h h1 : Heap} {v : Obj}
    (he : Evaluate fuel a scope h = (.ok v, h1)) : ∃ k, fuel = k + 1 := by
  cases fuel with
  | zero => simp [Evaluate, raise] at he
  | succ k => exact ⟨k, rfl⟩

/-- One value per expression. -/
theorem EvalArgs_length {fuel scope : Nat} {as vs : List Obj} {h h1 : Heap}
    (he : EvalArgs fuel scope as h vs h1) : vs.length = as.length := by
  induction he with
  | nil => rfl
  | cons _ _ _ ih => simp [ih]

/-- One step of `ArgsToVector` on a list whose first element is no symbol. -/
theorem ArgsToVector_cons_step (k : Nat) (vec : List Obj) (a rest : Obj) (name : String)
    (scope : Nat) (h : Heap) (hif : name ≠ "if") (hsym : a.isSymbol = false)
    (hnull : a.isNull = false) :
    ArgsToVector (k + 2) vec (Obj.Cell a rest) name scope h
      = M.bind (ArgsToVector (k + 1) vec a name scope)
          (fun vec1 => ArgsToVector (k + 1) vec1 rest name scope) h := by
  have e2 : ArgsToVector (k + 2)
      = ArgsToVectorBody (Evaluate (k + 1)) (ArgsToVector (k + 1)) := rfl
  rw [e2]
  cases a <;> simp [Obj.isSymbol, Obj.isNull] at hsym hnull <;>
    simp [ArgsToVectorBody, Obj.isNull, hif]

/-- On plain arguments `ArgsToVector` appends their values, in order. -/
theorem ArgsToVector_EvalArgs {fuel scope : Nat} {as vs : List Obj} {h h1 : Heap}
    (name : String) (hname : name ≠ "and" ∧ name ≠ "or" ∧ name ≠ "if")
    (he : EvalArgs fuel scope as h vs h1) :
    ∃ N, ∀ m, N ≤ m → ∀ vec,
      ArgsToVector m vec (mkChain as .null) name scope h = (.ok (vec ++ vs), h1) := by
  obtain ⟨hand, hor, hif⟩ := hname
  induction he with
  | nil h =>
      refine ⟨1, fun m hm vec => ?_⟩
      obtain ⟨k, rfl⟩ : ∃ k, m = k + 1 := ⟨m - 1, by omega⟩
      simp [mkChain, ArgsToVector_succ, ArgsToVectorBody, pure]
  | @cons a as h h1 h2 v vs hp hev _ ih =>
      obtain ⟨N, hN⟩ := ih
      obtain ⟨f0, rfl⟩ := Evaluate_ok_fuel_pos hev
      refine ⟨N + f0 + 3, fun m hm vec => ?_⟩
      obtain ⟨k, rfl⟩ : ∃ k, m = k + 2 := ⟨m - 2, by omega⟩
      have hrest := hN (k + 1) (by omega)
      have hchain : mkChain (a :: as) Obj.null = Obj.Cell a (mkChain as Obj.null) := rfl
      have e1 : ArgsToVector (k + 1) = ArgsToVectorBody (Evaluate k) (ArgsToVector k) := rfl
      rw [hchain]
      cases a with
      | Number x =>
          simp [Evaluate_succ, EvaluateBody, pure] at hev
          obtain ⟨rfl, rfl⟩ := hev
          rw [ArgsToVector_cons_step k vec (Obj.Number x) _ name scope h hif rfl rfl]
          have harg : ArgsToVector (k + 1) vec (Obj.Number x) name scope h
              = (.ok (vec ++ [Obj.Number x]), h) := by
            rw [e1]; rfl
          simp [M.bind, harg, hrest]
      | Boolean x =>
          simp [Evaluate_succ, EvaluateBody, pure] at hev
          obtain ⟨rfl, rfl⟩ := hev
          rw [ArgsToVector_cons_step k vec (Obj.Boolean x) _ name scope h hif rfl rfl]
          have harg : ArgsToVector (k + 1) vec (Obj.Boolean x) name scope h
              = (.ok (vec ++ [Obj.Boolean x]), h) := by
            rw [e1]; rfl
          simp [M.bind, harg, hrest]
      | Symbol s =>
          simp only [PlainArg, boundToData, Bool.and_eq_true, decide_eq_true_eq] at hp
          obtain ⟨hs, hc, hd⟩ := hp
          simp only [Evaluate_succ, EvaluateBody, hc, if_true] at hev
          cases hres : AllResolveSymbol h scope s with
          | error e => rw [hres] at hev; simp at hev
          | ok w =>
              rw [hres] at hev hd
              simp only [Prod.mk.injEq, Except.ok.injEq] at hev
              obtain ⟨rfl, rfl⟩ := hev
              simp only [Bool.and_eq_true, Bool.not_eq_true'] at hd
              have e2 : ArgsToVector (k + 2)
                  = ArgsToVectorBody (Evaluate (k + 1)) (ArgsToVector (k + 1)) := rfl
              rw [e2]
              simp [ArgsToVectorBody, hs, hand, hor, withHeap, hc, hres, hd.1, hd.2, hrest]
      | Cell hd tl =>
          cases hd with
          | Symbol hname =>
              simp only [PlainArg, boundToProcedure, Bool.or_eq_true, decide_eq_true_eq,
                Bool.and_eq_true] at hp
              have hmono : Evaluate k (Obj.Cell (Obj.Symbol hname) tl) scope h = (.ok v, h1) := by
                have hle : f0 + 1 ≤ k := by omega
                rw [Evaluate_mono hle _ _ _ (by rw [hev]; simp), hev]
              rw [ArgsToVector_cons_step k vec (Obj.Cell (Obj.Symbol hname) tl) _ name scope h hif rfl rfl]
              have harg : ArgsToVector (k + 1) vec (Obj.Cell (Obj.Symbol hname) tl) name scope h
                  = (.ok (vec ++ [v]), h1) := by
                rw [e1]
                by_cases hl : hname = "lambda"
                · subst hl
                  simp only [Evaluate_succ, EvaluateBody, if_true] at hev
                  cases hrl : readLambdaEarly tl with
                  | error e => rw [hrl] at hev; simp [raise] at hev
                  | ok p =>
                      rw [hrl] at hev
                      simp only [pure, Prod.mk.injEq, Except.ok.injEq] at hev
                      obtain ⟨rfl, rfl⟩ := hev
                      simp [ArgsToVectorBody, readLambda_of_early hrl, pure]
                · rcases hp with hp | ⟨hc, hd⟩
                  · exact absurd hp hl
                  · cases hres : AllResolveSymbol h scope hname with
                    | error e => rw [hres] at hd; simp at hd
                    | ok w =>
                        rw [hres] at hd
                        simp only at hd
                        have hd1 : ¬(w.isFunction = false ∧ w.isLambdaCreator = false) := by
                          rcases Bool.or_eq_true _ _ |>.mp hd with h1 | h1 <;> simp [h1]
                        simp [ArgsToVectorBody, M.bind, hl, hand, hor,
                          withHeap, hc, hres, hd1, hmono, pure]
              simp [M.bind, harg, hrest]
          | _ => simp [PlainArg] at hp
      | _ => simp [PlainArg] at hp



/-- Claim C3 fails on the code, at each of the three shapes it names.  On a new
interpreter `abs` and `-5` evaluate alone to the built-in and to -5, but the
argument list `(abs -5)` of `+` gives the one-entry vector `[5]`: the list is
evaluated as a call.  With `x` bound to 5, the single argument `(x 1)` of `list`
gives the two entries `[5, 1]`.  The arguments `() 1` give the single entry `[1]`
while `()` alone raises `RuntimeError`. -/
theorem argument_vector_differs_from_values :
    ((Evaluate 10 (.Symbol "abs") 0 Interpreter.new).1 = .ok (.Function .Abs) ∧
      (Evaluate 10 (.Number (-5)) 0 Interpreter.new).1 = .ok (.Number (-5)) ∧
      (ArgsToVector 10 [] (mkChain [.Symbol "abs", .Number (-5)] .null) "+" 0
        Interpreter.new).1 = .ok [.Number 5]) ∧
    (ArgsToVector 10 [] (mkChain [mkChain [.Symbol "x", .Number 1] .null] .null) "list" 0
        (DefineSymbol Interpreter.new 0 "x" (.Number 5))).1 = .ok [.Number 5, .Number 1] ∧
    ((Evaluate 10 .null 0 Interpreter.new).1 = .error Err.RuntimeError ∧
      (ArgsToVector 10 [] (mkChain [.null, .Number 1] .null) "list" 0 Interpreter.new).1
        = .ok [.Number 1]) := by
  decide!

/-- Claim C3 as amended.  Let `f` be a symbol that is none of `lambda`, `quote`,
`define`, `set!`, `if`, `and`, `or`, and let the arguments `a1 ... an` each have a
plain shape when reached (an integer or boolean literal, a symbol other than
`lambda` bound to data, a compound whose head is `lambda` or a symbol bound to a
procedure) and evaluate alone, left to right, to `v1 ... vn`.  Then, with enough
fuel, `ArgsToVector` returns exactly `[v1, ..., vn]`, which has `n` entries, and
when `f` is bound to a built-in `F` the application `(f a1 ... an)` is
`F.Apply` on that vector. -/
theorem ArgsToVector_plain_arguments (fuel scope : Nat) (as vs : List Obj) (h h1 : Heap)
    (f : String)
    (hf : f ≠ "lambda" ∧ f ≠ "quote" ∧ f ≠ "define" ∧ f ≠ "set!" ∧
      f ≠ "and" ∧ f ≠ "or" ∧ f ≠ "if")
    (he : EvalArgs fuel scope as h vs h1) :
    vs.length = as.length ∧
    ∃ N, ∀ m, N ≤ m →
      ArgsToVector m [] (mkChain as .null) f scope h = (.ok vs, h1) ∧
      ∀ F, SymbolEval h1 scope f = .ok (.Function F) →
        Evaluate (m + 1) (.Cell (.Symbol f) (mkChain as .null)) scope h
          = Apply (Evaluate m) F scope vs h1 := by
  obtain ⟨h1', h2', h3', h4', h5', h6', h7'⟩ := hf
  refine ⟨EvalArgs_length he, ?_⟩
  obtain ⟨N, hN⟩ := ArgsToVector_EvalArgs f ⟨h5', h6', h7'⟩ he
  refine ⟨N, fun m hm => ?_⟩
  have hvec : ArgsToVector m [] (mkChain as .null) f scope h = (.ok vs, h1) := by
    simpa using hN m hm []
  refine ⟨hvec, fun F hF => ?_⟩
  rw [Evaluate_succ]
  simp [EvaluateBody, h1', h2', h3', h4', M.bind, hvec, withHeap, hF]

/-- Claim C3 as amended, at the arguments `1 (* 2 3)` of `+` on a new
interpreter: the vector is `[1, 6]`. -/
theorem ArgsToVector_plain_arguments_witness :
    [Obj.Number 1, Obj.Number 6].length
        = [Obj.Number 1, mkChain [.Symbol "*", .Number 2, .Number 3] .null].length ∧
    ∃ N, ∀ m, N ≤ m →
      ArgsToVector m [] (mkChain [Obj.Number 1, mkChain [.Symbol "*", .Number 2, .Number 3] .null]
          .null) "+" 0 Interpreter.new = (.ok [Obj.Number 1, Obj.Number 6], Interpreter.new) ∧
      ∀ F, SymbolEval Interpreter.new 0 "+" = .ok (.Function F) →
        Evaluate (m + 1) (.Cell (.Symbol "+")
            (mkChain [Obj.Number 1, mkChain [.Symbol "*", .Number 2, .Number 3] .null] .null))
            0 Interpreter.new
          = Apply (Evaluate m) F 0 [Obj.Number 1, Obj.Number 6] Interpreter.new :=
  ArgsToVector_plain_arguments 4 0 _ _ Interpreter.new Interpreter.new "+" (by decide)
    (@EvalArgs.cons 4 0 _ _ _ Interpreter.new _ _ _ (by decide!) (by decide!)
      (@EvalArgs.cons 4 0 _ _ _ Interpreter.new _ _ _ (by decide!) (by decide!)
        (EvalArgs.nil Interpreter.new)))

/-! ## Character classes -/

theorem startChar_facts : ∀ c ∈ kSymbolTokenStartChars,
    isdigit c = false ∧ isSkipped c = false ∧ c ≠ '(' ∧ c ≠ ')' ∧ c ≠ '.' ∧ c ≠ '\'' ∧
      c ≠ '+' ∧ c ≠ '-' ∧ kSymbolTokenChars.contains c = true := by
  decide!

theorem symChar_facts : ∀ c ∈ kSymbolTokenChars, c ≠ ' ' ∧ c ≠ ')' ∧ c ≠ Char.ofNat 0 := by
  decide!

theorem isdigit_facts (c : Char) (hc : isdigit c = true) :
    isSkipped c = false ∧ c ≠ '(' ∧ c ≠ ')' ∧ c ≠ '.' ∧ c ≠ '\'' ∧ c ≠ '+' ∧ c ≠ '-' ∧
      c ≠ ' ' ∧ c ≠ Char.ofNat 0 := by
  have h1 : 48 ≤ c.toNat ∧ c.toNat ≤ 57 := by
    simpa [isdigit] using hc
  have key : ∀ d : Char, (d.toNat < 48 ∨ 57 < d.toNat) → c ≠ d := by
    intro d hd he
    subst he
    omega
  refine ⟨?_, key _ (by decide), key _ (by decide), key _ (by decide), key _ (by decide),
    key _ (by decide), key _ (by decide), key _ (by decide), key _ (by decide)⟩
  have e1 := key ' ' (by decide)
  have e2 := key '\n' (by decide)
  have e3 := key '\t' (by decide)
  have e4 := key (Char.ofNat 11) (by decide)
  have e5 := key '\r' (by decide)
  have e6 := key (Char.ofNat 12) (by decide)
  simp [isSkipped, e1, e2, e3, e4, e5, e6]

theorem delimited_takeWhile_digit {rest : List Char} (hr : delimited rest = true) :
    rest.takeWhile isdigit = [] ∧ rest.dropWhile isdigit = rest := by
  cases rest with
  | nil => simp
  | cons c cs =>
      have hc : isdigit c = false := by
        simp only [delimited, Bool.or_eq_true, decide_eq_true_eq] at hr
        rcases hr with rfl | rfl <;> decide
      simp [List.takeWhile, List.dropWhile, hc]

theorem delimited_takeWhile_sym {rest : List Char} (hr : delimited rest = true) :
    rest.takeWhile (fun c => kSymbolTokenChars.contains c) = [] ∧
      rest.dropWhile (fun c => kSymbolTokenChars.contains c) = rest := by
  cases rest with
  | nil => simp
  | cons c cs =>
      have hc : kSymbolTokenChars.contains c = false := by
        simp only [delimited, Bool.or_eq_true, decide_eq_true_eq] at hr
        rcases hr with rfl | rfl <;> decide!
      exact ⟨List.takeWhile_cons_of_neg (by simp only [hc]; decide),
        List.dropWhile_cons_of_neg (by simp only [hc]; decide)⟩


/-! ## One token -/

theorem Next_nil (tok : Token) (e : Bool) :
    Next ⟨[], tok, e⟩ = .ok ⟨[], tok, true⟩ := rfl

theorem Next_blank (cs : List Char) (tok : Token) (e : Bool) :
    Next ⟨' ' :: cs, tok, e⟩ = Next ⟨cs, tok, e⟩ := by
  simp [Next, List.dropWhile, isSkipped]

theorem Next_open (cs : List Char) (tok : Token) (e : Bool) :
    Next ⟨'(' :: cs, tok, e⟩ = .ok ⟨cs, Token.BracketToken .OPEN, e⟩ := by
  have h1 : isSkipped '(' = false := by decide
  have h2 : isdigit '(' = false := by decide
  simp [Next, List.dropWhile, h1, h2]

theorem Next_close (cs : List Char) (tok : Token) (e : Bool) :
    Next ⟨')' :: cs, tok, e⟩ = .ok ⟨cs, Token.BracketToken .CLOSE, e⟩ := by
  have h1 : isSkipped ')' = false := by decide
  have h2 : isdigit ')' = false := by decide
  simp [Next, List.dropWhile, h1, h2]

theorem Next_quote (cs : List Char) (tok : Token) (e : Bool) :
    Next ⟨'\'' :: cs, tok, e⟩ = .ok ⟨cs, Token.QuoteToken, e⟩ := by
  have h1 : isSkipped '\'' = false := by decide
  have h2 : isdigit '\'' = false := by decide
  simp [Next, List.dropWhile, h1, h2]

theorem digits_takeWhile {ds rest : List Char} (hd : ds.all isdigit = true)
    (hr : delimited rest = true) :
    (ds ++ rest).takeWhile isdigit = ds ∧ (ds ++ rest).dropWhile isdigit = rest := by
  have hall : ∀ a ∈ ds, isdigit a = true := by simpa using hd
  rw [List.takeWhile_append_of_pos hall, List.dropWhile_append_of_pos hall,
    (delimited_takeWhile_digit hr).1, (delimited_takeWhile_digit hr).2]
  simp

theorem IsIntLiteral_cases {s : List Char} (hs : IsIntLiteral s = true) :
    (∃ ds, s = '-' :: ds ∧ ds ≠ [] ∧ ds.all isdigit = true) ∨
    (∃ ds, s = '+' :: ds ∧ ds ≠ [] ∧ ds.all isdigit = true) ∨
    (s ≠ [] ∧ s.all isdigit = true) := by
  unfold IsIntLiteral at hs
  split at hs
  · left; exact ⟨_, rfl, by simpa using hs⟩
  · right; left; exact ⟨_, rfl, by simpa using hs⟩
  · right; right; simpa using hs

/-- Reading an integer literal that is followed by a delimiter. -/
theorem Next_literal (s rest : List Char) (tok : Token) (e : Bool)
    (hs : IsIntLiteral s = true) (hr : delimited rest = true) :
    Next ⟨s ++ rest, tok, e⟩ =
      match stoi s with
      | .ok v => .ok ⟨rest, Token.ConstantToken v, e⟩
      | .error err => .error err := by
  rcases IsIntLiteral_cases hs with ⟨ds, rfl, hne, hd⟩ | ⟨ds, rfl, hne, hd⟩ | ⟨hne, hd⟩
  · obtain ⟨d, ds', rfl⟩ : ∃ d ds', ds = d :: ds' := by
      cases ds with
      | nil => exact absurd rfl hne
      | cons d ds' => exact ⟨d, ds', rfl⟩
    have hdd : isdigit d = true := by simp at hd; exact hd.1
    have h1 : isSkipped '-' = false := by decide
    have h2 : isdigit '-' = false := by decide
    have h3 : kSymbolTokenStartChars.contains '-' = false := by decide!
    have htw := digits_takeWhile hd hr
    have hin : (⟨'-' :: (d :: ds') ++ rest, tok, e⟩ : Tokenizer).in_.dropWhile isSkipped
        = '-' :: (d :: ds' ++ rest) := by
      simp [List.dropWhile, h1]
    unfold Next
    simp only [hin]
    simp only [h2, h3, Bool.false_eq_true, if_false, Char.reduceEq, if_true, List.cons_append, hdd,
      show ('-' : Char) = '(' ↔ False from by decide, show ('-' : Char) = ')' ↔ False from by decide,
      show ('-' : Char) = '.' ↔ False from by decide, show ('-' : Char) = '\'' ↔ False from by decide,
      show ('-' : Char) = '+' ↔ False from by decide]
    unfold ReadConstantToken
    simp only
    rw [show (d :: (ds' ++ rest)) = (d :: ds') ++ rest from rfl, htw.1, htw.2]
    rfl
  · obtain ⟨d, ds', rfl⟩ : ∃ d ds', ds = d :: ds' := by
      cases ds with
      | nil => exact absurd rfl hne
      | cons d ds' => exact ⟨d, ds', rfl⟩
    have hdd : isdigit d = true := by simp at hd; exact hd.1
    have h1 : isSkipped '+' = false := by decide
    have h2 : isdigit '+' = false := by decide
    have h3 : kSymbolTokenStartChars.contains '+' = false := by decide!
    have htw := digits_takeWhile hd hr
    have hin : (⟨'+' :: (d :: ds') ++ rest, tok, e⟩ : Tokenizer).in_.dropWhile isSkipped
        = '+' :: (d :: ds' ++ rest) := by
      simp [List.dropWhile, h1]
    unfold Next
    simp only [hin]
    simp only [h2, h3, Bool.false_eq_true, if_false, if_true, List.cons_append, hdd,
      show ('+' : Char) = '(' ↔ False from by decide, show ('+' : Char) = ')' ↔ False from by decide,
      show ('+' : Char) = '.' ↔ False from by decide, show ('+' : Char) = '\'' ↔ False from by decide]
    unfold ReadConstantToken
    simp only
    rw [show (d :: (ds' ++ rest)) = (d :: ds') ++ rest from rfl, htw.1, htw.2]
    rfl
  · obtain ⟨d, ds', rfl⟩ : ∃ d ds', s = d :: ds' := by
      cases s with
      | nil => exact absurd rfl hne
      | cons d ds' => exact ⟨d, ds', rfl⟩
    have hdd : isdigit d = true := by simp at hd; exact hd.1
    have h1 : isSkipped d = false := (isdigit_facts d hdd).1
    have htw := digits_takeWhile hd hr
    have hin : (⟨(d :: ds') ++ rest, tok, e⟩ : Tokenizer).in_.dropWhile isSkipped
        = d :: (ds' ++ rest) := by
      simp [List.dropWhile, h1]
    unfold Next
    simp only [hin]
    simp only [hdd, if_true]
    unfold ReadConstantToken
    simp only [List.nil_append]
    rw [show (d :: (ds' ++ rest)) = (d :: ds') ++ rest from rfl, htw.1, htw.2]

/-- Reading a symbol name that is followed by a delimiter. -/
theorem Next_symbol (s rest : List Char) (tok : Token) (e : Bool)
    (hs : IsSymbolName s = true) (hr : delimited rest = true) :
    Next ⟨s ++ rest, tok, e⟩ = .ok ⟨rest, Token.SymbolToken (String.mk s), e⟩ := by
  have hrd : ∀ d ds, rest = d :: ds → isdigit d = false := by
    intro d ds hrest
    subst hrest
    simp only [delimited, Bool.or_eq_true, decide_eq_true_eq] at hr
    rcases hr with rfl | rfl <;> decide
  unfold IsSymbolName at hs
  simp only [Bool.or_eq_true, decide_eq_true_eq] at hs
  rcases hs with (rfl | rfl) | hs
  · have h1 : isSkipped '+' = false := by decide
    have h2 : isdigit '+' = false := by decide
    have h3 : kSymbolTokenStartChars.contains '+' = false := by decide!
    have hin : (⟨['+'] ++ rest, tok, e⟩ : Tokenizer).in_.dropWhile isSkipped = '+' :: rest := by
      simp [List.dropWhile, h1]
    unfold Next
    simp only [hin]
    simp only [h2, h3, Bool.false_eq_true, if_false, if_true,
      show ('+' : Char) = '(' ↔ False from by decide, show ('+' : Char) = ')' ↔ False from by decide,
      show ('+' : Char) = '.' ↔ False from by decide, show ('+' : Char) = '\'' ↔ False from by decide]
    cases rest with
    | nil => rfl
    | cons d ds => simp only [hrd d ds rfl, Bool.false_eq_true, if_false]
  · have h1 : isSkipped '-' = false := by decide
    have h2 : isdigit '-' = false := by decide
    have h3 : kSymbolTokenStartChars.contains '-' = false := by decide!
    have hin : (⟨['-'] ++ rest, tok, e⟩ : Tokenizer).in_.dropWhile isSkipped = '-' :: rest := by
      simp [List.dropWhile, h1]
    unfold Next
    simp only [hin]
    simp only [h2, h3, Bool.false_eq_true, if_false, if_true,
      show ('-' : Char) = '(' ↔ False from by decide, show ('-' : Char) = ')' ↔ False from by decide,
      show ('-' : Char) = '.' ↔ False from by decide, show ('-' : Char) = '\'' ↔ False from by decide,
      show ('-' : Char) = '+' ↔ False from by decide]
    cases rest with
    | nil => rfl
    | cons d ds => simp only [hrd d ds rfl, Bool.false_eq_true, if_false]
  · cases s with
    | nil => simp at hs
    | cons c cs =>
        simp only [Bool.and_eq_true, decide_eq_true_eq] at hs
        obtain ⟨⟨⟨hstart, hall⟩, hnt⟩, hnf⟩ := hs
        have hf := startChar_facts c (by simpa using hstart)
        obtain ⟨f1, f2, f3, f4, f5, f6, f7, f8, f9⟩ := hf
        have hall' : ∀ a ∈ c :: cs, (fun d => kSymbolTokenChars.contains d) a = true := by
          intro a ha
          exact List.all_eq_true.mp hall a ha
        have hin : (⟨(c :: cs) ++ rest, tok, e⟩ : Tokenizer).in_.dropWhile isSkipped
            = c :: (cs ++ rest) := by
          simp [List.dropWhile, f2]
        unfold Next
        simp only [hin]
        simp only [f1, f3, f4, f5, f6, hstart, Bool.false_eq_true, if_false, if_true]
        unfold ReadSymbolOrBooleanToken
        simp only [List.nil_append]
        rw [show (c :: (cs ++ rest)) = (c :: cs) ++ rest from rfl,
          List.takeWhile_append_of_pos hall', List.dropWhile_append_of_pos hall',
          (delimited_takeWhile_sym hr).1, (delimited_takeWhile_sym hr).2, List.append_nil]
        simp only [hnt, hnf, if_false]

/-- Reading `#t` or `#f` followed by a delimiter. -/
theorem Next_boolean (b : Bool) (rest : List Char) (tok : Token) (e : Bool)
    (hr : delimited rest = true) :
    Next ⟨(if b then "#t" else "#f").data ++ rest, tok, e⟩
      = .ok ⟨rest, Token.BooleanToken b, e⟩ := by
  have hall : ∀ (s : List Char), s = "#t".data ∨ s = "#f".data →
      ∀ a ∈ s, (fun d => kSymbolTokenChars.contains d) a = true := by
    intro s hs
    rcases hs with rfl | rfl <;> decide!
  have h1 : isSkipped '#' = false := by decide
  have h2 : isdigit '#' = false := by decide
  have h3 : kSymbolTokenStartChars.contains '#' = true := by decide!
  cases b
  · have hin : (⟨"#f".data ++ rest, tok, e⟩ : Tokenizer).in_.dropWhile isSkipped
        = '#' :: ('f' :: rest) := by
      simp [List.dropWhile, h1]
    unfold Next
    simp only [Bool.false_eq_true, if_false, hin]
    simp only [h2, h3, Bool.false_eq_true, if_false, if_true,
      show ('#' : Char) = '(' ↔ False from by decide, show ('#' : Char) = ')' ↔ False from by decide,
      show ('#' : Char) = '.' ↔ False from by decide, show ('#' : Char) = '\'' ↔ False from by decide]
    unfold ReadSymbolOrBooleanToken
    simp only [List.nil_append]
    rw [show ('#' :: ('f' :: rest)) = "#f".data ++ rest from rfl,
      List.takeWhile_append_of_pos (hall _ (Or.inr rfl)),
      List.dropWhile_append_of_pos (hall _ (Or.inr rfl)),
      (delimited_takeWhile_sym hr).1, (delimited_takeWhile_sym hr).2, List.append_nil]
    rfl
  · have hin : (⟨"#t".data ++ rest, tok, e⟩ : Tokenizer).in_.dropWhile isSkipped
        = '#' :: ('t' :: rest) := by
      simp [List.dropWhile, h1]
    unfold Next
    simp only [if_true, hin]
    simp only [h2, h3, Bool.false_eq_true, if_false, if_true,
      show ('#' : Char) = '(' ↔ False from by decide, show ('#' : Char) = ')' ↔ False from by decide,
      show ('#' : Char) = '.' ↔ False from by decide, show ('#' : Char) = '\'' ↔ False from by decide]
    unfold ReadSymbolOrBooleanToken
    simp only [List.nil_append]
    rw [show ('#' :: ('t' :: rest)) = "#t".data ++ rest from rfl,
      List.takeWhile_append_of_pos (hall _ (Or.inl rfl)),
      List.dropWhile_append_of_pos (hall _ (Or.inl rfl)),
      (delimited_takeWhile_sym hr).1, (delimited_takeWhile_sym hr).2, List.append_nil]
    rfl

/-! ## The reader on well-spelled texts -/

/-- One unfolding of `ReadInner`. -/
theorem ReadInner_succ (n : Nat) (tk : Tokenizer) :
    ReadInner (n + 1) tk =
      if tk.is_end_ then .error Err.SyntaxError
      else
        match Next tk with
        | .error e => .error e
        | .ok tk1 =>
            match tk.token_ with
            | .ConstantToken value => .ok (Obj.Number value, tk1)
            | .SymbolToken name => .ok (Obj.Symbol name, tk1)
            | .BooleanToken b => .ok (Obj.Boolean b, tk1)
            | .BracketToken .OPEN => ReadList n tk1 []
            | .DotToken => .ok (Obj.Symbol ".", tk1)
            | .QuoteToken =>
                if tk1.is_end_ then .error Err.SyntaxError
                else
                  match ReadInner n tk1 with
                  | .error e => .error e
                  | .ok (tail, tk2) =>
                      match tail with
                      | .null => .ok (Obj.Cell (Obj.Symbol "quote") Obj.null, tk2)
                      | _ =>
                          .ok (Obj.Cell (Obj.Symbol "quote") (Obj.Cell tail Obj.null), tk2)
            | .BracketToken .CLOSE => .error Err.SyntaxError := by
  rw [ReadInner]
  try rfl

/-- One unfolding of `ReadList`. -/
theorem ReadList_succ (n : Nat) (tk : Tokenizer) (acc : List Obj) :
    ReadList (n + 1) tk acc =
      if tk.is_end_ then .error Err.SyntaxError
      else if tk.token_ = Token.BracketToken .CLOSE then
        match Next tk with
        | .error e => .error e
        | .ok tk1 => .ok (mkChain acc Obj.null, tk1)
      else
        match ReadInner n tk with
        | .error e => .error e
        | .ok (sh_ptr, tk1) =>
            if sh_ptr = Obj.Symbol "." then
              if acc.isEmpty || tk1.is_end_ then .error Err.SyntaxError
              else
                match ReadInner n tk1 with
                | .error e => .error e
                | .ok (second, tk2) =>
                    if second.isSymbol then .error Err.SyntaxError
                    else if tk2.is_end_ || tk2.token_ ≠ Token.BracketToken .CLOSE then
                      .error Err.SyntaxError
                    else
                      match Next tk2 with
                      | .error e => .error e
                      | .ok tk3 => .ok (mkChain acc second, tk3)
            else ReadList n tk1 (acc ++ [sh_ptr]) := by
  rw [ReadList]
  try rfl


/-- Linking one more element at the end of a chain. -/
theorem mkChain_snoc (acc : List Obj) (a v : Obj) :
    mkChain (acc ++ [a]) v = mkChain acc (Obj.Cell a v) := by
  simp [mkChain]

/-- No symbol token is named by a single dot. -/
theorem IsSymbolName_ne_dot {s : List Char} (hs : IsSymbolName s = true) :
    Obj.Symbol (String.mk s) ≠ Obj.Symbol "." := by
  intro he
  have h1 : s = ['.'] := by
    have := congrArg (fun o => match o with | Obj.Symbol n => n.data | _ => []) he
    simpa using this
  subst h1
  revert hs
  decide!

/-- The reader on a text that is one token. -/
theorem ReadsElem_atom (v : Obj) (s : List Char) (tokF : Token)
    (hv : v ≠ Obj.Symbol ".")
    (hclose : tokF ≠ Token.BracketToken .CLOSE)
    (hnext : ∀ rest, delimited rest = true → ∀ tok,
      Next ⟨s ++ rest, tok, false⟩ = .ok ⟨rest, tokF, false⟩)
    (hread : ∀ n rest, ReadInner (n + 1) ⟨rest, tokF, false⟩
      = match Next ⟨rest, tokF, false⟩ with
        | .ok T2 => .ok (v, T2)
        | .error e => .error e)
    (hlen : 1 ≤ s.length) : ReadsElem v s := by
  refine ⟨hv, hlen, fun rest hr =>
    ⟨rest, tokF, tokF, hclose, by omega, hnext rest hr, fun fuel hf => ?_⟩⟩
  obtain ⟨n, rfl⟩ : ∃ n, fuel = n + 1 := ⟨fuel - 1, by omega⟩
  exact hread n rest

/-- The reader inverts `TextOf`, for a datum and for the elements of a list. -/
theorem reads_of_text {b : Bool} {v : Obj} {s : List Char} (h : TextOf b v s) :
    (b = false → ReadsElem v s) ∧ (b = true → ReadsList v s) := by
  induction h with
  | @number s v hs hv =>
      refine ⟨fun _ => ?_, fun hb => by cases hb⟩
      refine ReadsElem_atom _ s (Token.ConstantToken v) (by simp) (by simp) ?_ ?_ ?_
      · intro rest hr tok
        rw [Next_literal s rest tok false hs hr, hv]
      · intro n rest
        rw [ReadInner_succ]
        simp only [Bool.false_eq_true, if_false]
        cases Next ⟨rest, Token.ConstantToken v, false⟩ <;> rfl
      · rcases IsIntLiteral_cases hs with ⟨ds, rfl, _, _⟩ | ⟨ds, rfl, _, _⟩ | ⟨hne, _⟩
        · simp
        · simp
        · cases s with
          | nil => exact absurd rfl hne
          | cons c cs => simp
  | boolean b =>
      refine ⟨fun _ => ?_, fun hb => by cases hb⟩
      refine ReadsElem_atom _ _ (Token.BooleanToken b) (by simp) (by simp) ?_ ?_ ?_
      · intro rest hr tok
        exact Next_boolean b rest tok false hr
      · intro n rest
        rw [ReadInner_succ]
        simp only [Bool.false_eq_true, if_false]
        cases Next ⟨rest, Token.BooleanToken b, false⟩ <;> rfl
      · cases b <;> decide
  | @symbol s hs =>
      refine ⟨fun _ => ?_, fun hb => by cases hb⟩
      refine ReadsElem_atom _ s (Token.SymbolToken (String.mk s)) (IsSymbolName_ne_dot hs)
        (by simp) ?_ ?_ ?_
      · intro rest hr tok
        exact Next_symbol s rest tok false hs hr
      · intro n rest
        rw [ReadInner_succ]
        simp only [Bool.false_eq_true, if_false]
        cases Next ⟨rest, Token.SymbolToken (String.mk s), false⟩ <;> rfl
      · cases s with
        | nil => simp [IsSymbolName] at hs
        | cons c cs => simp
  | null =>
      refine ⟨fun _ => ?_, fun hb => by cases hb⟩
      refine ⟨by simp, by simp, fun rest hr =>
        ⟨')' :: rest, Token.BracketToken .OPEN, Token.BracketToken .CLOSE, by simp,
          by simp; omega,
          fun tok => Next_open _ tok false, fun fuel hf => ?_⟩⟩
      obtain ⟨n, rfl⟩ : ∃ n, fuel = n + 2 := ⟨fuel - 2, by simp at hf; omega⟩
      rw [ReadInner_succ]
      simp only [Bool.false_eq_true, if_false, Next_close, ReadList_succ, if_true]
      cases Next ⟨rest, Token.BracketToken .CLOSE, false⟩ <;> rfl
  | @list v s ht ih =>
      refine ⟨fun _ => ?_, fun hb => by cases hb⟩
      have hl := ih.2 rfl
      refine ⟨by cases ht <;> simp, by simp, fun rest hr => ?_⟩
      obtain ⟨t1, tokF, hc, hnext, hread⟩ := hl rest
      refine ⟨s ++ ')' :: rest, Token.BracketToken .OPEN, Token.BracketToken .CLOSE, by simp,
        by simp; omega, fun tok => ?_, fun fuel hf => ?_⟩
      · rw [show ('(' :: (s ++ [')'])) ++ rest = '(' :: (s ++ ')' :: rest) by simp]
        exact Next_open _ tok false
      · obtain ⟨n, rfl⟩ : ∃ n, fuel = n + 1 := ⟨fuel - 1, by simp at hf; omega⟩
        rw [ReadInner_succ]
        simp only [Bool.false_eq_true, if_false, hnext]
        rw [hread n (by simp at hf; omega) []]
        rfl
  | @single a s _ ih =>
      refine ⟨fun hb => (by cases hb), fun _ => ?_⟩
      obtain ⟨hne, hlen, he⟩ := ih.1 rfl
      intro rest0
      obtain ⟨t1, tokF, tokL, hc, hlt, hnext, hread⟩ := he (')' :: rest0) rfl
      refine ⟨t1, tokF, hc, hnext, fun fuel hf acc => ?_⟩
      obtain ⟨n, rfl⟩ : ∃ n, fuel = n + 2 := ⟨fuel - 2, by omega⟩
      rw [ReadList_succ]
      simp only [Bool.false_eq_true, if_false, hc]
      rw [hread (n + 1) (by simp at hlt ⊢; omega), Next_close]
      simp only [hne, if_false]
      rw [ReadList_succ]
      simp only [Bool.false_eq_true, if_false, if_true, mkChain_snoc]
      cases Next ⟨rest0, Token.BracketToken .CLOSE, false⟩ <;> rfl
  | @cons a rest s t _ _ iha ihr =>
      refine ⟨fun hb => (by cases hb), fun _ => ?_⟩
      obtain ⟨hne, hlen, he⟩ := iha.1 rfl
      have hl := ihr.2 rfl
      intro rest0
      obtain ⟨t1', tokF', hc', hnext', hread'⟩ := hl rest0
      obtain ⟨t1, tokF, tokL, hc, hlt, hnext, hread⟩ := he (' ' :: (t ++ ')' :: rest0)) rfl
      refine ⟨t1, tokF, hc, fun tok => ?_, fun fuel hf acc => ?_⟩
      · rw [show (s ++ ' ' :: t) ++ ')' :: rest0 = s ++ (' ' :: (t ++ ')' :: rest0)) by simp]
        exact hnext tok
      · obtain ⟨n, rfl⟩ : ∃ n, fuel = n + 1 := ⟨fuel - 1, by omega⟩
        have hlen2 : (s ++ ' ' :: t).length = s.length + t.length + 1 := by simp; omega
        rw [ReadList_succ]
        simp only [Bool.false_eq_true, if_false, hc]
        rw [hread n (by simp at hlt ⊢; omega), Next_blank, hnext' tokL]
        simp only [hne, if_false]
        rw [hread' n (by omega) (acc ++ [a])]
        simp only [mkChain_snoc]


/-- The reader returns the datum of a whole text. -/
theorem Read_of_text {v : Obj} {s : List Char} (h : TextOf false v s) :
    ∃ T1, Tokenizer.new s = .ok T1 ∧ Read T1 = .ok v := by
  obtain ⟨_, _, he⟩ := (reads_of_text h).1 rfl
  obtain ⟨t1, tokF, tokL, _, _, hnext, hread⟩ := he [] rfl
  refine ⟨⟨t1, tokF, false⟩, ?_, ?_⟩
  · have := hnext (Token.ConstantToken 0)
    simpa [Tokenizer.new] using this
  · unfold Read
    simp only
    rw [hread _ (by simp; omega), Next_nil]
    rfl

/-- The reader on a quote mark followed by a whole text. -/
theorem Read_quote_of_text {v : Obj} {s : List Char} (h : TextOf false v s) :
    ∃ T1, Tokenizer.new ('\'' :: s) = .ok T1 ∧
      Read T1 = .ok (match v with
        | .null => Obj.Cell (Obj.Symbol "quote") Obj.null
        | _ => Obj.Cell (Obj.Symbol "quote") (Obj.Cell v Obj.null)) := by
  obtain ⟨_, _, he⟩ := (reads_of_text h).1 rfl
  obtain ⟨t1, tokF, tokL, _, hlt, hnext, hread⟩ := he [] rfl
  refine ⟨⟨s, Token.QuoteToken, false⟩, ?_, ?_⟩
  · simp [Tokenizer.new, Next_quote]
  · unfold Read
    simp only
    have hn := hnext Token.QuoteToken
    simp only [List.append_nil] at hn
    rw [show 2 * s.length + 4 = (2 * s.length + 3) + 1 from rfl, ReadInner_succ]
    simp only [Bool.false_eq_true, if_false, hn]
    rw [hread _ (by simp at hlt ⊢; omega), Next_nil]
    cases v <;> rfl

/-! ## Decimal texts -/

/-- The ten digit characters. -/
theorem digitChar_isdigit (d : Nat) (hd : d < 10) :
    isdigit (Nat.digitChar d) = true ∧ (Nat.digitChar d).toNat - '0'.toNat = d := by
  interval_cases d <;> decide

/-- Value of a run of digits extended by one digit. -/
theorem digitsValue_append_single (ds : List Char) (c : Char) :
    digitsValue (ds ++ [c]) = 10 * digitsValue ds + (c.toNat - '0'.toNat) := by
  simp [digitsValue, List.foldl_append]

/-- The accumulator of `Nat.toDigitsCore` is a suffix of its result. -/
theorem toDigitsCore_append (fuel n : Nat) (ds : List Char) :
    Nat.toDigitsCore 10 fuel n ds = Nat.toDigitsCore 10 fuel n [] ++ ds := by
  induction fuel generalizing n ds with
  | zero => simp [Nat.toDigitsCore]
  | succ f ih =>
      simp only [Nat.toDigitsCore]
      split
      · simp
      · rw [ih (n / 10) (Nat.digitChar (n % 10) :: ds), ih (n / 10) [Nat.digitChar (n % 10)]]
        simp

/-- The digits of a number spell it. -/
theorem toDigitsCore_spec (fuel n : Nat) (hf : n < fuel) :
    (Nat.toDigitsCore 10 fuel n []).all isdigit = true ∧
    Nat.toDigitsCore 10 fuel n [] ≠ [] ∧
    digitsValue (Nat.toDigitsCore 10 fuel n []) = n := by
  induction fuel generalizing n with
  | zero => omega
  | succ f ih =>
      have hd := digitChar_isdigit (n % 10) (Nat.mod_lt _ (by decide))
      simp only [Nat.toDigitsCore]
      split
      · rename_i h0
        refine ⟨by simp [hd.1], by simp, ?_⟩
        simp only [digitsValue, List.foldl, hd.2]
        omega
      · rename_i h0
        have hlt : n / 10 < f := by omega
        obtain ⟨h1, h2, h3⟩ := ih (n / 10) hlt
        rw [toDigitsCore_append]
        refine ⟨by simp [List.all_append, h1, hd.1], by simp, ?_⟩
        rw [digitsValue_append_single, h3, hd.2]
        omega

/-- The digits of a number spell it. -/
theorem toDigits_spec (n : Nat) :
    (Nat.toDigits 10 n).all isdigit = true ∧ Nat.toDigits 10 n ≠ [] ∧
      digitsValue (Nat.toDigits 10 n) = n :=
  toDigitsCore_spec (n + 1) n (by omega)

/-- A text that starts with no sign is a literal when it is all digits. -/
theorem IsIntLiteral_unsigned (c : Char) (cs : List Char) (hm : c ≠ '-') (hp : c ≠ '+') :
    IsIntLiteral (c :: cs) = (c :: cs).all isdigit := by
  unfold IsIntLiteral
  split
  · rename_i heq; simp at heq; exact absurd heq.1 hm
  · rename_i heq; simp at heq; exact absurd heq.1 hp
  · simp

/-- Value of a text that starts with no sign. -/
theorem literalValue_unsigned (c : Char) (cs : List Char) (hm : c ≠ '-') (hp : c ≠ '+') :
    literalValue (c :: cs) = (digitsValue (c :: cs) : Int) := by
  unfold literalValue
  split
  · rename_i heq; simp at heq; exact absurd heq.1 hm
  · rename_i heq; simp at heq; exact absurd heq.1 hp
  · rfl

/-- The decimal text of an integer is a literal of that integer. -/
theorem toString_int_literal (v : Int) :
    IsIntLiteral (toString v).data = true ∧ literalValue (toString v).data = v := by
  have key : ∀ ds : List Char, ds.all isdigit = true → ds ≠ [] →
      IsIntLiteral ds = true ∧ literalValue ds = (digitsValue ds : Int) := by
    intro ds hall hne
    cases ds with
    | nil => exact absurd rfl hne
    | cons c cs =>
        have hc : isdigit c = true := by simp at hall; exact hall.1
        have hf := isdigit_facts c hc
        have hm : c ≠ '-' := hf.2.2.2.2.2.2.1
        have hp : c ≠ '+' := hf.2.2.2.2.2.1
        rw [IsIntLiteral_unsigned c cs hm hp, literalValue_unsigned c cs hm hp]
        exact ⟨hall, rfl⟩
  cases v with
  | ofNat m =>
      obtain ⟨h1, h2, h3⟩ := toDigits_spec m
      have hs : (toString (Int.ofNat m)).data = Nat.toDigits 10 m := rfl
      rw [hs]
      obtain ⟨k1, k2⟩ := key _ h1 h2
      exact ⟨k1, by rw [k2, h3]; rfl⟩
  | negSucc m =>
      obtain ⟨h1, h2, h3⟩ := toDigits_spec (m + 1)
      have hs : (toString (Int.negSucc m)).data = '-' :: Nat.toDigits 10 (m + 1) := rfl
      rw [hs]
      refine ⟨?_, ?_⟩
      · have hne : (Nat.toDigits 10 (m + 1)).isEmpty = false := by
          cases hd : Nat.toDigits 10 (m + 1) with
          | nil => exact absurd hd h2
          | cons _ _ => rfl
        simp only [IsIntLiteral, hne, h1]
        rfl
      · simp only [literalValue, h3]
        rfl

/-! ## Whole runs on well-spelled texts -/

/-- No NUL in an integer literal. -/
theorem IsIntLiteral_no_nul {s : List Char} (hs : IsIntLiteral s = true) :
    ∀ c ∈ s, c ≠ Char.ofNat 0 := by
  have hd : ∀ ds : List Char, ds.all isdigit = true → ∀ c ∈ ds, c ≠ Char.ofNat 0 := by
    intro ds hall c hc
    exact (isdigit_facts c (List.all_eq_true.mp hall c hc)).2.2.2.2.2.2.2.2
  rcases IsIntLiteral_cases hs with ⟨ds, rfl, _, hall⟩ | ⟨ds, rfl, _, hall⟩ | ⟨_, hall⟩
  · intro c hc
    rcases List.mem_cons.mp hc with rfl | hc
    · decide
    · exact hd ds hall c hc
  · intro c hc
    rcases List.mem_cons.mp hc with rfl | hc
    · decide
    · exact hd ds hall c hc
  · exact hd s hall

/-- No NUL in a symbol name. -/
theorem IsSymbolName_no_nul {s : List Char} (hs : IsSymbolName s = true) :
    ∀ c ∈ s, c ≠ Char.ofNat 0 := by
  unfold IsSymbolName at hs
  simp only [Bool.or_eq_true, decide_eq_true_eq] at hs
  rcases hs with (rfl | rfl) | hs
  · decide
  · decide
  · cases s with
    | nil => simp at hs
    | cons c cs =>
        simp only [Bool.and_eq_true] at hs
        intro d hd
        have := List.all_eq_true.mp hs.1.1.2 d hd
        exact (symChar_facts d (by simpa using this)).2.2

/-- No NUL in a well-spelled text. -/
theorem TextOf_no_nul {b : Bool} {v : Obj} {s : List Char} (h : TextOf b v s) :
    ∀ c ∈ s, c ≠ Char.ofNat 0 := by
  induction h with
  | number hs _ => exact IsIntLiteral_no_nul hs
  | boolean b => cases b <;> decide
  | symbol hs => exact IsSymbolName_no_nul hs
  | null => decide
  | list _ ih =>
      intro c hc
      simp only [List.mem_cons, List.mem_append, List.not_mem_nil, or_false] at hc
      rcases hc with rfl | hc | rfl
      · decide
      · exact ih c hc
      · decide
  | single _ ih => exact ih
  | cons _ _ iha ihr =>
      intro c hc
      simp only [List.mem_cons, List.mem_append] at hc
      rcases hc with hc | rfl | hc
      · exact iha c hc
      · decide
      · exact ihr c hc

/-- A text without NUL reaches the tokenizer whole. -/
theorem streamOf_eq (input : String) (hn : ∀ c ∈ input.data, c ≠ Char.ofNat 0) :
    streamOf input = input.data := by
  unfold streamOf
  rw [List.takeWhile_eq_self_iff]
  intro c hc
  simpa using hn c hc

/-- A run on the text of a datum evaluates that datum and prints the value. -/
theorem Run_of_text {v : Obj} {input : String} (ht : TextOf false v input.data) (fuel : Nat)
    (h : Heap) :
    Run fuel input h =
      match Evaluate fuel v 0 h with
      | (.error e, h1) => (.error e, h1)
      | (.ok output_ast, h1) => (Serialize output_ast, h1) := by
  obtain ⟨T1, hT, hR⟩ := Read_of_text ht
  unfold Run
  rw [streamOf_eq input (TextOf_no_nul ht), hT]
  simp only [hR]
  try rfl

/-- A run on a quote mark followed by the text of a datum prints the datum. -/
theorem Run_quote_of_text {v : Obj} {s : String} (ht : TextOf false v s.data) (fuel : Nat)
    (h : Heap) : Run (fuel + 1) ("'" ++ s) h = (Serialize v, h) := by
  obtain ⟨T1, hT, hR⟩ := Read_quote_of_text ht
  have hdata : ("'" ++ s).data = '\'' :: s.data := by
    simp [String.data_append]
  have hnn : ∀ c ∈ ("'" ++ s).data, c ≠ Char.ofNat 0 := by
    rw [hdata]
    intro c hc
    rcases List.mem_cons.mp hc with rfl | hc
    · decide
    · exact TextOf_no_nul ht c hc
  unfold Run
  rw [streamOf_eq _ hnn, hdata, hT]
  simp only [hR]
  rw [Evaluate_succ]
  cases v <;> simp [EvaluateBody, pure]


/-! ## Self-evaluation -/

/-- Claim C6 fails on the code: the run of `+5` returns `5`, not `+5`; the run of
`007` returns `7`; and the run of `2147483648`, a literal of the grammar, ends in
the `std::out_of_range` of `std::stoi`. -/
theorem self_evaluation_fails_on_spelling :
    (Run 1 "+5" Interpreter.new).1 = .ok "5" ∧
    (Run 1 "007" Interpreter.new).1 = .ok "7" ∧
    (Run 1 "2147483648" Interpreter.new).1 = .error Err.OutOfRange := by
  decide!

/-- Claim C6 as amended: for every integer literal of the tokenizer grammar whose
value fits the 32-bit `int` of `ConstantToken`, the run of the literal returns the
decimal text of its value; so the run of the decimal text of every such integer
returns that same text; and the runs of `#t` and `#f` return `#t` and `#f`.  The
interpreter state is arbitrary and is left unchanged. -/
theorem literal_evaluates_to_its_value (s : String) (h : Heap) (fuel : Nat)
    (hlit : IsIntLiteral s.data = true)
    (hrange : -2147483648 ≤ literalValue s.data ∧ literalValue s.data ≤ 2147483647) :
    Run (fuel + 1) s h = (.ok (toString (literalValue s.data)), h) ∧
    (∀ v : Int, -2147483648 ≤ v ∧ v ≤ 2147483647 →
      Run (fuel + 1) (toString v) h = (.ok (toString v), h)) ∧
    Run (fuel + 1) "#t" h = (.ok "#t", h) ∧ Run (fuel + 1) "#f" h = (.ok "#f", h) := by
  have hnum : ∀ t : String, IsIntLiteral t.data = true →
      (-2147483648 ≤ literalValue t.data ∧ literalValue t.data ≤ 2147483647) →
      Run (fuel + 1) t h = (.ok (toString (literalValue t.data)), h) := by
    intro t ht hr
    have hstoi : stoi t.data = .ok (literalValue t.data) := by
      unfold stoi
      rw [if_pos hr]
    rw [Run_of_text (TextOf.number ht hstoi), Evaluate_succ]
    rfl
  refine ⟨hnum s hlit hrange, fun v hv => ?_, ?_, ?_⟩
  · have hl := toString_int_literal v
    have := hnum (toString v) hl.1 (by rw [hl.2]; exact hv)
    rw [hl.2] at this
    exact this
  · have ht : TextOf false (Obj.Boolean true) ("#t" : String).data := TextOf.boolean true
    rw [Run_of_text ht, Evaluate_succ]
    rfl
  · have ht : TextOf false (Obj.Boolean false) ("#f" : String).data := TextOf.boolean false
    rw [Run_of_text ht, Evaluate_succ]
    rfl

/-- Claim C6 as amended, at the literal `+42` on a new interpreter. -/
theorem literal_evaluates_to_its_value_witness :
    Run 1 "+42" Interpreter.new = (.ok (toString (literalValue "+42".data)), Interpreter.new) ∧
    (∀ v : Int, -2147483648 ≤ v ∧ v ≤ 2147483647 →
      Run 1 (toString v) Interpreter.new = (.ok (toString v), Interpreter.new)) ∧
    Run 1 "#t" Interpreter.new = (.ok "#t", Interpreter.new) ∧
    Run 1 "#f" Interpreter.new = (.ok "#f", Interpreter.new) :=
  literal_evaluates_to_its_value "+42" Interpreter.new 0 (by decide!) (by decide!)

/-! ## Frames -/

/-- A map returns the value just stored under a key. -/
theorem lookup_mapSet_self (m : List (String × Obj)) (name : String) (value : Obj) :
    (mapSet m name value).lookup name = some value := by
  induction m with
  | nil => simp [mapSet, List.lookup]
  | cons kv rest ih =>
      obtain ⟨k, v⟩ := kv
      unfold mapSet
      by_cases hk : k = name
      · subst hk; simp [List.lookup]
      · have hne : (name == k) = false := by
          simp only [beq_eq_false_iff_ne, ne_eq]
          exact fun h => hk h.symm
        simp [hk, List.lookup, hne, ih]

/-- Defining a symbol allocates no frame. -/
theorem length_DefineSymbol (h : Heap) (scope : Nat) (name : String) (value : Obj) :
    (DefineSymbol h scope name value).length = h.length := by
  simp [DefineSymbol]

/-- The frame binds the symbol just defined in it. -/
theorem Contains_DefineSymbol_self (h : Heap) (scope : Nat) (name : String) (value : Obj)
    (hs : scope < h.length) : Contains (DefineSymbol h scope name value) scope name = true := by
  unfold Contains DefineSymbol
  rw [List.getElem?_modify_eq, List.getElem?_eq_getElem hs]
  simp [lookup_mapSet_self]

/-- The frame returns the value just defined in it. -/
theorem ResolveSymbol_DefineSymbol_self (h : Heap) (scope : Nat) (name : String) (value : Obj)
    (hs : scope < h.length) :
    ResolveSymbol (DefineSymbol h scope name value) scope name = value := by
  unfold ResolveSymbol DefineSymbol
  rw [List.getElem?_modify_eq, List.getElem?_eq_getElem hs]
  simp [lookup_mapSet_self]

/-- Looking a name up in the frame where it was just defined. -/
theorem lookup_after_DefineSymbol (h : Heap) (scope : Nat) (name : String) (value : Obj)
    (hs : scope < h.length) :
    AllContains (DefineSymbol h scope name value) scope name = true ∧
    AllResolveSymbol (DefineSymbol h scope name value) scope name = .ok value := by
  have hpos : ∃ k, (DefineSymbol h scope name value).length = k + 1 := by
    rw [length_DefineSymbol]
    exact ⟨h.length - 1, by omega⟩
  obtain ⟨k, hk⟩ := hpos
  unfold AllContains AllResolveSymbol
  rw [hk]
  simp [AllContainsAux, AllResolveSymbolAux, Contains_DefineSymbol_self h scope name value hs,
    ResolveSymbol_DefineSymbol_self h scope name value hs]

/-- A successful lookup needs a frame. -/
theorem SymbolEval_ok_length {h : Heap} {scope : Nat} {name : String} {v : Obj}
    (he : SymbolEval h scope name = .ok v) : 0 < h.length := by
  cases hl : h.length with
  | zero => simp [SymbolEval, hl, SymbolEvalAux] at he
  | succ k => omega

/-- The argument vector of `define` and `set!` for a name and a literal. -/
theorem ArgsToVector_name_literal (n : Nat) (f name : String) (v : Obj) (scope : Nat) (h : Heap)
    (hv : v.isNumber = true ∨ v.isBoolean = true) (hf : f ≠ "if") :
    ArgsToVector (n + 2) [Obj.Symbol name] (Obj.Cell v Obj.null) f scope h
      = (.ok [Obj.Symbol name, v], h) := by
  have e2 : ArgsToVector (n + 2)
      = ArgsToVectorBody (Evaluate (n + 1)) (ArgsToVector (n + 1)) := rfl
  have e1 : ArgsToVector (n + 1) = ArgsToVectorBody (Evaluate n) (ArgsToVector n) := rfl
  rw [e2]
  cases v <;> simp [Obj.isNumber, Obj.isBoolean] at hv <;>
    simp [ArgsToVectorBody, M.bind, Obj.isNull, pure, liftE, e1, hf]

/-- The text of a three-element list of a symbol, a symbol and an integer literal. -/
theorem TextOf_form (f x n : String) (v : Int) (hf : IsSymbolName f.data = true)
    (hx : IsSymbolName x.data = true) (hn : IsIntLiteral n.data = true)
    (hv : stoi n.data = .ok v) :
    TextOf false (mkChain [.Symbol f, .Symbol x, .Number v] .null)
      ("(" ++ f ++ " " ++ x ++ " " ++ n ++ ")").data := by
  have hd : ("(" ++ f ++ " " ++ x ++ " " ++ n ++ ")").data
      = '(' :: ((f.data ++ ' ' :: (x.data ++ ' ' :: n.data)) ++ [')']) := by
    simp [String.data_append]
  rw [hd]
  exact TextOf.list (TextOf.cons (TextOf.symbol (s := f.data) hf)
    (TextOf.cons (TextOf.symbol (s := x.data) hx) (TextOf.single (TextOf.number hn hv))))


/-- Evaluating `(set! name v)` for an unbound `name` and a literal `v`. -/
theorem Evaluate_set_unbound (n : Nat) (name : String) (v : Obj) (scope : Nat)
    (h : Heap) (hv : v.isNumber = true ∨ v.isBoolean = true)
    (hset : SymbolEval h scope "set!" = .ok (.Function .Set))
    (hun : AllContains h scope name = false) :
    Evaluate (n + 3) (mkChain [.Symbol "set!", .Symbol name, v] .null) scope h
      = (.error .NameError, h) := by
  have hargs := ArgsToVector_name_literal n "set!" name v scope h hv (by decide)
  have e3 : Evaluate (n + 3) = EvaluateBody (Evaluate (n + 2)) (ArgsToVector (n + 2)) := rfl
  rw [e3]
  simp [mkChain, EvaluateBody, M.bind, hargs, withHeap, hset, Apply, ApplySet, hun]

/-! ## Definition and assignment -/

/-- Evaluating `(define name v)` for a literal `v`. -/
theorem Evaluate_define_literal (n : Nat) (name : String) (v : Obj) (scope : Nat)
    (h : Heap) (hv : v.isNumber = true ∨ v.isBoolean = true)
    (hdef : SymbolEval h scope "define" = .ok (.Function .Define)) :
    Evaluate (n + 3) (mkChain [.Symbol "define", .Symbol name, v] .null) scope h
      = (.ok .null, DefineSymbol h scope name v) := by
  have hargs := ArgsToVector_name_literal n "define" name v scope h hv (by decide)
  have e3 : Evaluate (n + 3) = EvaluateBody (Evaluate (n + 2)) (ArgsToVector (n + 2)) := rfl
  rw [e3]
  cases v <;> simp [Obj.isNumber, Obj.isBoolean] at hv <;>
    simp [mkChain, EvaluateBody, M.bind, hargs, withHeap, hdef, Apply, ApplyDefine,
      symbolShortcut]

/-- Claim C7 fails on the code: `2147483648` is an integer literal of the grammar,
but the run of `(define x 2147483648)` ends in the `std::out_of_range` of
`std::stoi`, and `x` is unbound afterwards. -/
theorem define_fails_on_wide_literal :
    (RunAll 5 ["(define x 2147483648)", "x"] Interpreter.new).1
      = [.error Err.OutOfRange, .error Err.NameError] := by
  decide!

/-- Claim C7 as amended: for every symbol name `x` and every integer literal `n`
whose value fits the 32-bit `int` of `ConstantToken`, on an interpreter whose
global frame binds `define` to the built-in, the run of `(define x n)` returns
`()` and a later run of `x` returns the decimal text of `n`. -/
theorem define_then_lookup (x n : String) (h : Heap) (fuel : Nat)
    (hx : IsSymbolName x.data = true) (hn : IsIntLiteral n.data = true)
    (hrange : -2147483648 ≤ literalValue n.data ∧ literalValue n.data ≤ 2147483647)
    (hdef : SymbolEval h 0 "define" = .ok (.Function .Define)) :
    (RunAll (fuel + 3) ["(define " ++ x ++ " " ++ n ++ ")", x] h).1
      = [.ok "()", .ok (toString (literalValue n.data))] := by
  have hstoi : stoi n.data = .ok (literalValue n.data) := by
    unfold stoi
    rw [if_pos hrange]
  have htext : "(define " ++ x ++ " " ++ n ++ ")" = "(" ++ "define" ++ " " ++ x ++ " " ++ n ++ ")" := by
    apply String.ext
    simp [String.data_append]
  have hform := TextOf_form "define" x n _ (by decide!) hx hn hstoi
  have hpos := SymbolEval_ok_length hdef
  have hlook := lookup_after_DefineSymbol h 0 x (Obj.Number (literalValue n.data)) hpos
  have hsym : TextOf false (Obj.Symbol x) x.data := TextOf.symbol (s := x.data) hx
  have e3 : Evaluate (fuel + 3) = EvaluateBody (Evaluate (fuel + 2)) (ArgsToVector (fuel + 2)) :=
    rfl
  have hrun1 : Run (fuel + 3) ("(define " ++ x ++ " " ++ n ++ ")") h
      = (.ok "()", DefineSymbol h 0 x (Obj.Number (literalValue n.data))) := by
    rw [htext, Run_of_text hform,
      Evaluate_define_literal fuel x (Obj.Number (literalValue n.data)) 0 h (Or.inl rfl) hdef]
    rfl
  have hrun2 : Run (fuel + 3) x (DefineSymbol h 0 x (Obj.Number (literalValue n.data)))
      = (.ok (toString (literalValue n.data)),
          DefineSymbol h 0 x (Obj.Number (literalValue n.data))) := by
    rw [Run_of_text hsym, e3]
    simp [EvaluateBody, hlook.1, hlook.2, Serialize, Stringify, atomStringify]
  simp [RunAll, hrun1, hrun2]

/-- Claim C7 as amended, for `x` and `42` on a new interpreter. -/
theorem define_then_lookup_witness :
    (RunAll 3 ["(define " ++ "x" ++ " " ++ "42" ++ ")", "x"] Interpreter.new).1
      = [.ok "()", .ok (toString (literalValue "42".data))] :=
  define_then_lookup "x" "42" Interpreter.new 0 (by decide!) (by decide!) (by decide!) (by decide!)

/-- Claim C9 fails on the code: on a new interpreter the run of `(set! y 1)` raises
`NameError`, not `SyntaxError`.  `Set::Apply` checks `AllContains` first, so the
`SyntaxError` of `SetDefineSymbol` is never reached. -/
theorem set_of_unbound_name_is_no_SyntaxError :
    (Run 5 "(set! y 1)" Interpreter.new).1 = .error Err.NameError ∧
    (Run 5 "(set! y 1)" Interpreter.new).1 ≠ .error Err.SyntaxError := by
  decide!

/-- Claim C9 as amended: for every symbol name `y` that no frame of the (global)
scope chain binds, on an interpreter whose global frame binds `set!` to the
built-in, the run of `(set! y 1)` raises `NameError`, and the frames stay as they
were. -/
theorem set_of_unbound_name_runs_into_NameError (y : String) (h : Heap) (fuel : Nat)
    (hy : IsSymbolName y.data = true) (hun : AllContains h 0 y = false)
    (hset : SymbolEval h 0 "set!" = .ok (.Function .Set)) :
    Run (fuel + 3) ("(set! " ++ y ++ " 1)") h = (.error Err.NameError, h) := by
  have htext : "(set! " ++ y ++ " 1)" = "(" ++ "set!" ++ " " ++ y ++ " " ++ "1" ++ ")" := by
    apply String.ext
    simp [String.data_append]
  have hform := TextOf_form "set!" y "1" 1 (by decide!) hy (by decide!) (by decide!)
  rw [htext, Run_of_text hform,
    Evaluate_set_unbound fuel y (Obj.Number 1) 0 h (Or.inl rfl) hset hun]

/-- Claim C9 as amended, for `y` on a new interpreter. -/
theorem set_of_unbound_name_runs_into_NameError_witness :
    Run 3 ("(set! " ++ "y" ++ " 1)") Interpreter.new = (.error Err.NameError, Interpreter.new) :=
  set_of_unbound_name_runs_into_NameError "y" Interpreter.new 0 (by decide!) (by decide!)
    (by decide!)



/-- Claim C10: evaluating `(set! name v)`, with `set!` denoting the built-in, a
literal `v` (integer or boolean) and `name` bound in no frame of the scope chain,
raises `NameError` and returns the heap of frames as it was: no binding is
created or modified. -/
theorem set_unbound_raises_NameError (n : Nat) (name : String) (v : Obj) (scope : Nat)
    (h : Heap) (hv : v.isNumber = true ∨ v.isBoolean = true)
    (hset : SymbolEval h scope "set!" = .ok (.Function .Set))
    (hun : AllContains h scope name = false) :
    Evaluate (n + 3) (mkChain [.Symbol "set!", .Symbol name, v] .null) scope h
      = (.error .NameError, h) :=
  Evaluate_set_unbound n name v scope h hv hset hun

/-- Claim C10 on a new interpreter, for `(set! y 1)`. -/
theorem set_unbound_raises_NameError_witness :
    Evaluate 3 (mkChain [.Symbol "set!", .Symbol "y", .Number 1] .null) 0 Interpreter.new
      = (.error .NameError, Interpreter.new) :=
  set_unbound_raises_NameError 0 "y" (.Number 1) 0 Interpreter.new (by decide) (by decide!)
    (by decide!)

/-! ## The printer on round-trip values -/

/-- One unfolding of `StringifyImpl`. -/
theorem StringifyImpl_cell (a b : Obj) (p : Bool) :
    StringifyImpl (Obj.Cell a b) p =
      joinCell p (if a.isCell then StringifyImpl a true
          else (atomStringify a).getD (.error Err.Undefined)) b (StringifyImpl b false) := by
  rw [StringifyImpl]

/-- The printer on an atom gives a text of the atom. -/
theorem atom_print {v : Obj} (hv : atomOk v = true) :
    ∃ s, atomStringify v = some (.ok s) ∧ TextOf false v s.data := by
  cases v with
  | Number x =>
      simp only [atomOk, decide_eq_true_eq] at hv
      have hl := toString_int_literal x
      refine ⟨toString x, rfl, TextOf.number hl.1 ?_⟩
      unfold stoi
      rw [hl.2, if_pos hv]
  | Boolean b => exact ⟨if b then "#t" else "#f", rfl, TextOf.boolean b⟩
  | Symbol name => exact ⟨name, rfl, TextOf.symbol (s := name.data) hv⟩
  | _ => simp [atomOk] at hv

/-- The printer on a non-empty proper list gives a text of the list, with and
without the enclosing parentheses. -/
theorem list_print : ∀ (v : Obj), listOk v = true → v.isCell = true →
    ∃ t, TextOf true v t ∧ (∃ s0, StringifyImpl v false = .ok s0 ∧ s0.data = t) ∧
      (∃ s1, StringifyImpl v true = .ok s1 ∧ s1.data = '(' :: (t ++ [')']))
  | .Cell a b, hl, _ => by
      simp only [listOk, Bool.and_eq_true, Bool.or_eq_true] at hl
      obtain ⟨ha, hb⟩ := hl
      have hhead : ∃ sa, (if a.isCell then StringifyImpl a true
            else (atomStringify a).getD (.error Err.Undefined)) = .ok sa ∧
          TextOf false a sa.data := by
        rcases ha with ha | ⟨hc, hla⟩
        · obtain ⟨s, hs, ht⟩ := atom_print ha
          refine ⟨s, ?_, ht⟩
          cases a <;> simp [atomOk] at ha <;> simp [Obj.isCell, hs]
        · obtain ⟨t, ht, _, ⟨s1, hs1, hd1⟩⟩ := list_print a hla hc
          refine ⟨s1, ?_, ?_⟩
          · simp only [hc, if_true]
            exact hs1
          · rw [hd1]
            exact TextOf.list ht
      obtain ⟨sa, hsa, hta⟩ := hhead
      cases b with
      | null =>
          refine ⟨sa.data, TextOf.single hta, ⟨"" ++ sa ++ "", ?_, ?_⟩, ⟨"(" ++ sa ++ ")", ?_, ?_⟩⟩
          · rw [StringifyImpl_cell, hsa]; rfl
          · simp [String.data_append]
          · rw [StringifyImpl_cell, hsa]; rfl
          · simp [String.data_append]
      | Cell x y =>
          obtain ⟨t, ht, ⟨s0, hs0, hd0⟩, _⟩ := list_print (.Cell x y) hb rfl
          refine ⟨sa.data ++ ' ' :: t, TextOf.cons hta ht,
            ⟨"" ++ sa ++ " " ++ s0 ++ "", ?_, ?_⟩, ⟨"(" ++ sa ++ " " ++ s0 ++ ")", ?_, ?_⟩⟩
          · rw [StringifyImpl_cell, hsa, hs0]; rfl
          · simp [String.data_append, hd0]
          · rw [StringifyImpl_cell, hsa, hs0]; rfl
          · simp [String.data_append, hd0]
      | _ => simp [listOk] at hb
  | .null, _, hc => by simp [Obj.isCell] at hc
  | .Number _, _, hc => by simp [Obj.isCell] at hc
  | .Symbol _, _, hc => by simp [Obj.isCell] at hc
  | .Boolean _, _, hc => by simp [Obj.isCell] at hc
  | .Function _, _, hc => by simp [Obj.isCell] at hc
  | .Lambda _ _ _, _, hc => by simp [Obj.isCell] at hc
  | .LambdaCreator _ _ _, _, hc => by simp [Obj.isCell] at hc

/-! ## Print-parse round trip -/

/-- Claim C5 fails on the code.  The integer 2147483648 is a signed 64-bit value
and prints as `2147483648`, but the run of `'2147483648` ends in the
`std::out_of_range` of `std::stoi`.  And the proper list of 1 and the empty list,
built from an integer, Null and cells, has no serialization at all: the printer
dereferences the empty first slot. -/
theorem round_trip_fails_on_wide_integer_and_empty_element :
    (Serialize (.Number 2147483648) = .ok "2147483648" ∧
      (Run 5 ("'" ++ "2147483648") Interpreter.new).1 = .error Err.OutOfRange) ∧
    Serialize (mkChain [.Number 1, .null] .null) = .error Err.Undefined := by
  decide!

/-- Claim C5 as amended: for every value `v` that is an integer fitting the 32-bit
`int` of `ConstantToken`, a boolean, a symbol whose name is that of a symbol
token, or a proper list (possibly empty) of such atoms and non-empty such lists,
or the cell with two empty slots, `Serialize v` is a text `s` and the run of `'s`
returns `s`, on every interpreter state, which it leaves unchanged. -/
theorem print_parse_round_trip (v : Obj) (h : Heap) (fuel : Nat)
    (hv : RoundTrips v = true) :
    ∃ s, Serialize v = .ok s ∧ Run (fuel + 1) ("'" ++ s) h = (.ok s, h) := by
  have hmain : ∀ s : String, Serialize v = .ok s → TextOf false v s.data →
      ∃ s, Serialize v = .ok s ∧ Run (fuel + 1) ("'" ++ s) h = (.ok s, h) := by
    intro s hs ht
    exact ⟨s, hs, by rw [Run_quote_of_text ht, hs]⟩
  unfold RoundTrips at hv
  simp only [Bool.or_eq_true, decide_eq_true_eq] at hv
  rcases hv with (ha | hl) | rfl
  · obtain ⟨s, hs, ht⟩ := atom_print ha
    refine hmain s ?_ ht
    cases v <;> simp [atomOk] at ha <;> simp [Serialize, Stringify, hs]
  · cases v with
    | null => exact hmain "()" rfl TextOf.null
    | Cell a b =>
        obtain ⟨t, ht, _, ⟨s1, hs1, hd1⟩⟩ := list_print (.Cell a b) hl rfl
        refine hmain s1 ?_ (by rw [hd1]; exact TextOf.list ht)
        have hne : a ≠ Obj.null := by
          rintro rfl
          simp [listOk, atomOk, Obj.isCell] at hl
        cases a <;> first | exact absurd rfl hne | exact hs1
    | _ => simp [listOk] at hl
  · exact hmain "(())" rfl (TextOf.list (TextOf.single TextOf.null))

/-- Claim C5 as amended, at the list `(a (-3 #t))` on a new interpreter. -/
theorem print_parse_round_trip_witness :
    ∃ s, Serialize (mkChain [.Symbol "a", mkChain [.Number (-3), .Boolean true] .null] .null)
        = .ok s ∧
      Run 1 ("'" ++ s) Interpreter.new = (.ok s, Interpreter.new) :=
  print_parse_round_trip _ Interpreter.new 0 (by decide!)

/-! ## The value of `if`, `and` and `or` -/

/-- Claim C11, evaluated at the failing input.  With `x` bound to `#t`, the run of
`(if x 'yes 'no)` raises `NameError` where the claim gives `yes`, and the run of
`(if x 1)` raises `SyntaxError` where the claim gives 1.  With a condition that is
a literal or a call of a built-in the value is the one the claim gives:
`(if (> 3 2) 'yes 'no)` returns `yes`, `(if #f 1)` returns the empty list.  A symbol
in the condition position sends `ArgsToVector` down the path for a list that starts
with a bound symbol, which evaluates the next element before the test
`name == "if"` and counts the elements differently. -/
theorem if_symbol_condition_value :
    (RunAll 12 ["(define x #t)", "(if x 'yes 'no)", "(if x 1)", "(if (> 3 2) 'yes 'no)",
        "(if #f 1)"] Interpreter.new).1
      = [.ok "()", .error Err.NameError, .error Err.SyntaxError, .ok "yes", .ok "()"] := by
  decide!

/-- Claim C12, evaluated at the failing input.  The run of `(and #t (cons 1 2))`
reads the name of a symbol through a null pointer (`Err.Undefined`) and the run of
`(and #t (cons 'a 2))` raises `NameError`, where the claim gives the pairs
`(1 . 2)` and `(a . 2)`; the run of `(and '#f 1)` returns 1 where the claim gives
`#f`.  The examples of the claim without a pair hold: `(and #t 'x)` returns `x`
and `(and)` returns `#t`. -/
theorem and_of_pair_value :
    (RunAll 12 ["(and #t (cons 1 2))", "(and #t (cons 'a 2))", "(and '#f 1)", "(and #t 'x)",
        "(and)"] Interpreter.new).1
      = [.error Err.Undefined, .error Err.NameError, .ok "1", .ok "x", .ok "#t"] := by
  decide!

/-- Claim C13, evaluated at the failing input.  The run of `(or #f 'x)` returns the
form `(quote x)` where the claim gives the datum `x`, and the run of
`(or #f (cons 1 2))` reads the name of a symbol through a null pointer
(`Err.Undefined`) where the claim gives `(1 . 2)`.  Without a quoted datum and
without a pair the value is the one the claim gives: `(or #f 5)` returns 5,
`(or #f #f)` and `(or)` return `#f`. -/
theorem or_of_quoted_datum :
    (RunAll 12 ["(or #f 'x)", "(or #f (cons 1 2))", "(or #f 5)", "(or #f #f)", "(or)"]
        Interpreter.new).1
      = [.ok "(quote x)", .error Err.Undefined, .ok "5", .ok "#f", .ok "#f"] := by
  decide!

/-! ## Integer arithmetic -/

theorem wrap64_of_IsInt64 {x : Int} (hx : IsInt64 x) : wrap64 x = x := by
  unfold IsInt64 at hx
  unfold wrap64
  omega

theorem wrap64_add_left (a b : Int) : wrap64 (wrap64 a + b) = wrap64 (a + b) := by
  unfold wrap64
  omega

theorem wrap64_sub_left (a b : Int) : wrap64 (wrap64 a - b) = wrap64 (a - b) := by
  unfold wrap64
  omega

theorem wrap64_mul_left (a b : Int) : wrap64 (wrap64 a * b) = wrap64 (a * b) := by
  have hk : wrap64 a = a + 2 ^ 64 * (-((a + 2 ^ 63) / 2 ^ 64)) := by
    unfold wrap64
    omega
  rw [hk]
  unfold wrap64
  have : (a + 2 ^ 64 * (-((a + 2 ^ 63) / 2 ^ 64))) * b + 2 ^ 63
      = a * b + 2 ^ 63 + 2 ^ 64 * (-((a + 2 ^ 63) / 2 ^ 64) * b) := by ring
  rw [this, Int.add_mul_emod_self_left]

theorem foldl_wrap64_add (xs : List Int) (a : Int) :
    wrap64 (xs.foldl (fun result v => wrap64 (result + v)) a) = wrap64 (a + xs.sum) := by
  induction xs generalizing a with
  | nil => simp
  | cons v vs ih =>
      simp only [List.foldl_cons, List.sum_cons]
      rw [ih, wrap64_add_left, add_assoc]

theorem foldl_wrap64_sub (xs : List Int) (a : Int) :
    wrap64 (xs.foldl (fun result v => wrap64 (result - v)) a)
      = wrap64 (xs.foldl (fun result v => result - v) a) := by
  induction xs generalizing a with
  | nil => simp
  | cons v vs ih =>
      simp only [List.foldl_cons]
      rw [ih]
      have key : ∀ (l : List Int) (c d : Int), wrap64 c = wrap64 d →
          wrap64 (l.foldl (fun result v => result - v) c)
            = wrap64 (l.foldl (fun result v => result - v) d) := by
        intro l
        induction l with
        | nil => intro c d h; simpa using h
        | cons w ws ihw =>
            intro c d h
            simp only [List.foldl_cons]
            apply ihw
            rw [← wrap64_sub_left c, ← wrap64_sub_left d, h]
      apply key
      unfold wrap64
      omega

theorem foldl_wrap64_mul (xs : List Int) (a : Int) :
    wrap64 (xs.foldl (fun result v => wrap64 (result * v)) a) = wrap64 (a * xs.prod) := by
  induction xs generalizing a with
  | nil => simp
  | cons v vs ih =>
      simp only [List.foldl_cons, List.prod_cons]
      rw [ih, wrap64_mul_left, mul_assoc]

theorem wrap64_idem (x : Int) : wrap64 (wrap64 x) = wrap64 x := by
  unfold wrap64
  omega

theorem foldl_wrap64_fixed (f : Int → Int → Int) (xs : List Int) (a : Int)
    (ha : wrap64 a = a) :
    wrap64 (xs.foldl (fun result v => wrap64 (f result v)) a)
      = xs.foldl (fun result v => wrap64 (f result v)) a := by
  induction xs generalizing a with
  | nil => simpa using ha
  | cons v vs ih =>
      simp only [List.foldl_cons]
      exact ih _ (wrap64_idem _)

theorem ASSERT_ALL_NUMBERS_map (xs : List Int) :
    ASSERT_ALL_NUMBERS (xs.map Obj.Number) = .ok xs := by
  induction xs with
  | nil => rfl
  | cons v vs ih => simp [ASSERT_ALL_NUMBERS, ih]

theorem ASSERT_ALL_NUMBERS_error (objects : List Obj)
    (h : ∃ o ∈ objects, o.isNumber = false) :
    ASSERT_ALL_NUMBERS objects = .error Err.RuntimeError := by
  induction objects with
  | nil => simp at h
  | cons o rest ih =>
      cases o with
      | Number v =>
          have h2 : ∃ o ∈ rest, o.isNumber = false := by
            rcases h with ⟨o, ho, hn⟩
            rcases List.mem_cons.mp ho with rfl | ho
            · simp [Obj.isNumber] at hn
            · exact ⟨o, ho, hn⟩
          simp [ASSERT_ALL_NUMBERS, ih h2]
      | null => simp [ASSERT_ALL_NUMBERS]
      | Symbol _ => simp [ASSERT_ALL_NUMBERS]
      | Boolean _ => simp [ASSERT_ALL_NUMBERS]
      | Cell _ _ => simp [ASSERT_ALL_NUMBERS]
      | Function _ => simp [ASSERT_ALL_NUMBERS]
      | Lambda _ _ _ => simp [ASSERT_ALL_NUMBERS]
      | LambdaCreator _ _ _ => simp [ASSERT_ALL_NUMBERS]

/-- Claim C19: for every vector `xs` of integers `Add::Apply` returns the sum of
`xs` and `Multiply::Apply` the product of `xs`, both reduced to a signed 64-bit
value (and equal to the exact sum or product when that is a signed 64-bit value),
so the empty vector gives 0 and 1; when some argument is not an integer both raise
`RuntimeError`. -/
theorem add_multiply_of_integers (xs : List Int) :
    ApplyAdd (xs.map Obj.Number) = .ok (Obj.Number (wrap64 xs.sum)) ∧
    ApplyMultiply (xs.map Obj.Number) = .ok (Obj.Number (wrap64 xs.prod)) ∧
    (IsInt64 xs.sum → ApplyAdd (xs.map Obj.Number) = .ok (Obj.Number xs.sum)) ∧
    (IsInt64 xs.prod → ApplyMultiply (xs.map Obj.Number) = .ok (Obj.Number xs.prod)) ∧
    ApplyAdd [] = .ok (Obj.Number 0) ∧
    ApplyMultiply [] = .ok (Obj.Number 1) ∧
    (∀ objects : List Obj, (∃ o ∈ objects, o.isNumber = false) →
      ApplyAdd objects = .error Err.RuntimeError ∧
      ApplyMultiply objects = .error Err.RuntimeError) := by
  have h0 : wrap64 0 = 0 := by unfold wrap64; omega
  have h1 : wrap64 1 = 1 := by unfold wrap64; omega
  have hadd : ApplyAdd (xs.map Obj.Number) = .ok (Obj.Number (wrap64 xs.sum)) := by
    simp only [ApplyAdd, ASSERT_ALL_NUMBERS_map]
    rw [← foldl_wrap64_fixed (fun a b => a + b) xs 0 h0, foldl_wrap64_add, zero_add]
  have hmul : ApplyMultiply (xs.map Obj.Number) = .ok (Obj.Number (wrap64 xs.prod)) := by
    simp only [ApplyMultiply, ASSERT_ALL_NUMBERS_map]
    rw [← foldl_wrap64_fixed (fun a b => a * b) xs 1 h1, foldl_wrap64_mul, one_mul]
  refine ⟨hadd, hmul, ?_, ?_, rfl, rfl, ?_⟩
  · intro hs
    rw [hadd, wrap64_of_IsInt64 hs]
  · intro hp
    rw [hmul, wrap64_of_IsInt64 hp]
  · intro objects hne
    simp [ApplyAdd, ApplyMultiply, ASSERT_ALL_NUMBERS_error objects hne]

/-- Claim C19 at the vectors `3 4 5` and `3 #t`: the sum is 12, the product 60, and
the Boolean makes both raise `RuntimeError`. -/
theorem add_multiply_of_integers_witness :
    ApplyAdd [Obj.Number 3, Obj.Number 4, Obj.Number 5] = .ok (Obj.Number 12) ∧
    ApplyMultiply [Obj.Number 3, Obj.Number 4, Obj.Number 5] = .ok (Obj.Number 60) ∧
    ApplyAdd [Obj.Number 3, Obj.Boolean true] = .error Err.RuntimeError ∧
    ApplyMultiply [Obj.Number 3, Obj.Boolean true] = .error Err.RuntimeError :=
  ⟨(add_multiply_of_integers [3, 4, 5]).2.2.1 (by unfold IsInt64; decide),
   (add_multiply_of_integers [3, 4, 5]).2.2.2.1 (by unfold IsInt64; decide),
   (add_multiply_of_integers []).2.2.2.2.2.2 [Obj.Number 3, Obj.Boolean true]
      ⟨Obj.Boolean true, by simp, rfl⟩⟩
theorem tdiv_keeps_above_min {r : Int} (v : Int) (hr : -(2 ^ 63) < r) (hr2 : r < 2 ^ 63) :
    -(2 ^ 63) < Int.tdiv r v ∧ Int.tdiv r v < 2 ^ 63 := by
  have habs : (Int.tdiv r v).natAbs ≤ r.natAbs := by
    rw [Int.natAbs_tdiv]
    exact Nat.div_le_self _ _
  omega

theorem divideLoop_eq_foldl (xs : List Int) (x0 : Int) (hx0 : -(2 ^ 63) < x0)
    (hx1 : x0 < 2 ^ 63) (hxs : ∀ d ∈ xs, d ≠ 0) :
    divideLoop x0 xs = .ok (xs.foldl Int.tdiv x0) := by
  induction xs generalizing x0 with
  | nil => rfl
  | cons v vs ih =>
      have hv : v ≠ 0 := hxs v (List.mem_cons_self _ _)
      have hne : x0 ≠ -(2 ^ 63) := by omega
      have hb := tdiv_keeps_above_min v hx0 hx1
      simp only [divideLoop, hv, hne, false_and, or_self, if_false, List.foldl_cons]
      exact ih _ hb.1 hb.2 (fun d hd => hxs d (List.mem_cons_of_mem _ hd))

theorem tdiv_fits {r v : Int} (hr : IsInt64 r) (hv : v ≠ 0)
    (hbad : ¬ (r = -(2 ^ 63) ∧ v = -1)) : IsInt64 (Int.tdiv r v) := by
  unfold IsInt64 at hr ⊢
  by_cases hmin : r = -(2 ^ 63)
  · have hv1 : v ≠ -1 := fun e => hbad ⟨hmin, e⟩
    have habs : (Int.tdiv r v).natAbs = r.natAbs / v.natAbs := Int.natAbs_tdiv r v
    by_cases hone : v.natAbs = 1
    · have hv2 : v = 1 := by omega
      subst hv2
      simp only [Int.tdiv_one]
      exact hr
    · have h2 : 2 ≤ v.natAbs := by omega
      have hra : r.natAbs = 2 ^ 63 := by omega
      have hle : r.natAbs / v.natAbs ≤ 2 ^ 62 := by
        rw [hra]
        calc 2 ^ 63 / v.natAbs ≤ 2 ^ 63 / 2 := Nat.div_le_div_left h2 (by decide)
          _ = 2 ^ 62 := by norm_num
      omega
  · have h1 : -(2 ^ 63) < r := by omega
    have := tdiv_keeps_above_min v h1 hr.2
    omega

/-- The loop of `Divide::Apply` returns the left fold of the truncating division when
every intermediate quotient is a 64-bit value, and traps otherwise. -/
theorem divideLoop_spec (xs : List Int) :
    ∀ (x0 : Int), IsInt64 x0 → (∀ d ∈ xs, d ≠ 0) →
      ((∀ k, IsInt64 ((xs.take k).foldl Int.tdiv x0)) →
        divideLoop x0 xs = .ok (xs.foldl Int.tdiv x0)) ∧
      (¬ (∀ k, IsInt64 ((xs.take k).foldl Int.tdiv x0)) →
        divideLoop x0 xs = .error Err.Undefined) := by
  induction xs with
  | nil =>
      intro x0 hx0 _
      refine ⟨fun _ => rfl, fun hn => absurd (fun k => ?_) hn⟩
      simpa using hx0
  | cons v vs ih =>
      intro x0 hx0 hxs
      have hv : v ≠ 0 := hxs v (List.mem_cons_self _ _)
      by_cases hbad : x0 = -(2 ^ 63) ∧ v = -1
      · constructor
        · intro hall
          have h1 := hall 1
          obtain ⟨rfl, rfl⟩ := hbad
          simp only [List.take_succ_cons, List.take_zero, List.foldl_cons, List.foldl_nil] at h1
          unfold IsInt64 at h1
          have : Int.tdiv (-(2 ^ 63)) (-1) = 2 ^ 63 := by decide!
          omega
        · intro _
          simp [divideLoop, hbad]
      · have hfit := tdiv_fits hx0 hv hbad
        have hih := ih (Int.tdiv x0 v) hfit (fun d hd => hxs d (List.mem_cons_of_mem _ hd))
        have hstep : divideLoop x0 (v :: vs) = divideLoop (Int.tdiv x0 v) vs := by
          have hb2 : ¬ (v = 0 ∨ (x0 = -(2 ^ 63) ∧ v = -1)) := by
            rintro (h | h)
            · exact hv h
            · exact hbad h
          simp only [divideLoop, hb2, if_false]
        have hiff : (∀ k, IsInt64 (((v :: vs).take k).foldl Int.tdiv x0)) ↔
            (∀ k, IsInt64 ((vs.take k).foldl Int.tdiv (Int.tdiv x0 v))) := by
          constructor
          · intro hall k
            simpa using hall (k + 1)
          · intro hall k
            cases k with
            | zero => simpa using hx0
            | succ k => simpa using hall k
        rw [hstep, hiff]
        exact hih

/-- Claim C20 fails on the code: the least 64-bit integer, which `*` produces from
three literals, and -1 are integers, the divisor is not zero, and `Divide::Apply`
traps on the division, whose quotient is no 64-bit value. -/
theorem least_integer_by_minus_one_traps :
    IsInt64 (-(2 ^ 63)) ∧ (∀ d ∈ [(-1 : Int)], d ≠ 0) ∧
    ApplyDivide [Obj.Number (-(2 ^ 63)), Obj.Number (-1)] = .error Err.Undefined ∧
    (RunAll 10 ["(* -2147483648 65536 65536)", "(/ (* -2147483648 65536 65536) -1)"]
        Interpreter.new).1 = [.ok "-9223372036854775808", .error Err.Undefined] := by
  refine ⟨by unfold IsInt64; norm_num, by decide, by decide!, by decide!⟩

/-- Claim C20 as amended: for every non-empty vector `x0 x1 ... xk` of signed 64-bit
integers `Sub::Apply` returns `x0 - x1 - ... - xk` reduced to a signed 64-bit value
(the exact difference when that is a signed 64-bit value); when every divisor is
non-zero, `Divide::Apply` returns `((x0 / x1) / ...) / xk` with the division that
truncates toward zero if every intermediate quotient is a signed 64-bit value, and
traps if one is not, which happens only when the least 64-bit integer is divided by
-1; with the single argument `x0` both return `x0`; on the empty vector both raise
`RuntimeError`. -/
theorem sub_divide_of_integers (x0 : Int) (xs : List Int) (hx0 : IsInt64 x0) :
    ApplySub ((x0 :: xs).map Obj.Number)
      = .ok (Obj.Number (wrap64 (xs.foldl (fun result v => result - v) x0))) ∧
    (IsInt64 (xs.foldl (fun result v => result - v) x0) →
      ApplySub ((x0 :: xs).map Obj.Number)
        = .ok (Obj.Number (xs.foldl (fun result v => result - v) x0))) ∧
    ((∀ d ∈ xs, d ≠ 0) →
      ((∀ k, IsInt64 ((xs.take k).foldl Int.tdiv x0)) →
        ApplyDivide ((x0 :: xs).map Obj.Number) = .ok (Obj.Number (xs.foldl Int.tdiv x0))) ∧
      (¬ (∀ k, IsInt64 ((xs.take k).foldl Int.tdiv x0)) →
        ApplyDivide ((x0 :: xs).map Obj.Number) = .error Err.Undefined) ∧
      (x0 ≠ -(2 ^ 63) →
        ApplyDivide ((x0 :: xs).map Obj.Number) = .ok (Obj.Number (xs.foldl Int.tdiv x0)))) ∧
    ApplySub [Obj.Number x0] = .ok (Obj.Number x0) ∧
    ApplyDivide [Obj.Number x0] = .ok (Obj.Number x0) ∧
    ApplySub [] = .error Err.RuntimeError ∧
    ApplyDivide [] = .error Err.RuntimeError := by
  have hsub : ApplySub ((x0 :: xs).map Obj.Number)
      = .ok (Obj.Number (wrap64 (xs.foldl (fun result v => result - v) x0))) := by
    have hm := ASSERT_ALL_NUMBERS_map (x0 :: xs)
    simp only [ApplySub, hm]
    rw [← foldl_wrap64_sub, foldl_wrap64_fixed (fun a b => a - b) xs x0 (wrap64_of_IsInt64 hx0)]
    simp
  have hm : ASSERT_ALL_NUMBERS (Obj.Number x0 :: xs.map Obj.Number) = .ok (x0 :: xs) :=
    ASSERT_ALL_NUMBERS_map (x0 :: xs)
  refine ⟨hsub, ?_, ?_, ?_, ?_, rfl, rfl⟩
  · intro hr
    rw [hsub, wrap64_of_IsInt64 hr]
  · intro hxs
    have hspec := divideLoop_spec xs x0 hx0 hxs
    refine ⟨fun hall => ?_, fun hn => ?_, fun hmin => ?_⟩
    · simp [ApplyDivide, hm, hspec.1 hall]
    · simp [ApplyDivide, hm, hspec.2 hn]
    · have hlt : -(2 ^ 63) < x0 := by
        unfold IsInt64 at hx0
        omega
      simp [ApplyDivide, hm, divideLoop_eq_foldl xs x0 hlt hx0.2 hxs]
  · simp [ApplySub, ASSERT_ALL_NUMBERS]
  · simp [ApplyDivide, ASSERT_ALL_NUMBERS, divideLoop]

/-- Claim C20 as amended, at the vector `-20 3 2`, where the difference is -25 and the
quotient is -3, the quotient -6 of -20 by 3 being truncated toward zero, and at the
least 64-bit integer divided by 2. -/
theorem sub_divide_of_integers_witness :
    IsInt64 (-20) ∧
    ApplySub [Obj.Number (-20), Obj.Number 3, Obj.Number 2] = .ok (Obj.Number (-25)) ∧
    ApplyDivide [Obj.Number (-20), Obj.Number 3, Obj.Number 2] = .ok (Obj.Number (-3)) ∧
    ApplyDivide [Obj.Number (-(2 ^ 63)), Obj.Number 2] = .ok (Obj.Number (-(2 ^ 62))) :=
  have h : IsInt64 (-20) := by unfold IsInt64; decide
  ⟨h, (sub_divide_of_integers (-20) [3, 2] h).2.1 (by unfold IsInt64; decide),
   ((sub_divide_of_integers (-20) [3, 2] h).2.2.1 (by decide)).1 (by
      intro k
      match k with
      | 0 => unfold IsInt64; decide
      | 1 => unfold IsInt64; decide
      | k + 2 => unfold IsInt64; simp; decide),
   ((sub_divide_of_integers (-(2 ^ 63)) [2] (by unfold IsInt64; norm_num)).2.2.1 (by decide)).1 (by
      intro k
      match k with
      | 0 => unfold IsInt64; norm_num
      | k + 1 =>
          have e : Int.tdiv (-(2 ^ 63)) 2 = -(2 ^ 62) := by decide!
          unfold IsInt64
          simp only [List.take_succ_cons, List.take_nil, List.foldl_cons, List.foldl_nil, e]
          norm_num)⟩

/-! ## Reading a lambda -/

theorem lambdaVariables_mkChain (names : List String) :
    lambdaVariables (mkChain (names.map Obj.Symbol) .null) = .ok names := by
  induction names with
  | nil => rfl
  | cons a as ih =>
      have ih2 : lambdaVariables (List.foldr Obj.Cell Obj.null (List.map Obj.Symbol as)) = .ok as := ih
      simp [mkChain, lambdaVariables, ih2]

theorem lambdaEvalsLoop_mkChain (es : List Obj) :
    lambdaEvalsLoop (mkChain es .null) = .ok es := by
  induction es with
  | nil => rfl
  | cons a as ih =>
      have ih2 : lambdaEvalsLoop (List.foldr Obj.Cell Obj.null as) = .ok as := ih
      simp [mkChain, lambdaEvalsLoop, ih2]

theorem lambdaVariables_result (v : Obj) :
    (∀ names, lambdaVariables v = .ok names → v = mkChain (names.map Obj.Symbol) .null) ∧
    (∀ e, lambdaVariables v = .error e → e = Err.SyntaxError) := by
  induction v using lambdaVariables.induct with
  | case1 =>
      constructor
      · intro names hn
        simp [lambdaVariables] at hn
        subst hn
        rfl
      · intro e he
        simp [lambdaVariables] at he
  | case2 name rest names hrest ih =>
      constructor
      · intro names2 hn
        simp [lambdaVariables, hrest] at hn
        subst hn
        have := ih.1 names hrest
        simp [mkChain] at this ⊢
        exact this
      · intro e he
        simp [lambdaVariables, hrest] at he
  | case3 name rest e hrest ih =>
      constructor
      · intro names2 hn
        simp [lambdaVariables, hrest] at hn
      · intro e2 he
        simp [lambdaVariables, hrest] at he
        subst he
        exact ih.2 e hrest
  | case4 v h1 h2 =>
      constructor
      · intro names hn
        unfold lambdaVariables at hn
        split at hn <;> simp_all
      · intro e he
        unfold lambdaVariables at he
        split at he <;> simp_all

theorem lambdaEvalsLoop_result (v : Obj) :
    (∀ es, lambdaEvalsLoop v = .ok es → v = mkChain es .null) ∧
    (∀ e, lambdaEvalsLoop v = .error e → e = Err.SyntaxError) := by
  induction v using lambdaEvalsLoop.induct with
  | case1 =>
      constructor
      · intro es hn
        simp [lambdaEvalsLoop] at hn
        subst hn
        rfl
      · intro e he
        simp [lambdaEvalsLoop] at he
  | case2 first rest objs hrest ih =>
      constructor
      · intro es hn
        simp [lambdaEvalsLoop, hrest] at hn
        subst hn
        have := ih.1 objs hrest
        simp [mkChain] at this ⊢
        exact this
      · intro e he
        simp [lambdaEvalsLoop, hrest] at he
  | case3 first rest e hrest ih =>
      constructor
      · intro es hn
        simp [lambdaEvalsLoop, hrest] at hn
      · intro e2 he
        simp [lambdaEvalsLoop, hrest] at he
        subst he
        exact ih.2 e hrest
  | case4 v h1 h2 =>
      constructor
      · intro es hn
        unfold lambdaEvalsLoop at hn
        split at hn <;> simp_all
      · intro e he
        unfold lambdaEvalsLoop at he
        split at he <;> simp_all

/-- The reading of a well-formed `(variables . evals)`. -/
theorem readLambda_wellFormed (names : List String) (es : List Obj) (hes : es ≠ []) :
    readLambda (.Cell (mkChain (names.map Obj.Symbol) .null) (mkChain es .null))
        = .ok (names, es) ∧
    readLambdaEarly (.Cell (mkChain (names.map Obj.Symbol) .null) (mkChain es .null))
        = .ok (names, es) := by
  cases es with
  | nil => exact absurd rfl hes
  | cons e es =>
      have h1 := lambdaVariables_mkChain names
      have h2 : lambdaEvalsLoop (Obj.Cell e (mkChain es .null)) = .ok (e :: es) :=
        lambdaEvalsLoop_mkChain (e :: es)
      have hm : mkChain (e :: es) .null = Obj.Cell e (mkChain es .null) := rfl
      constructor
      · simp [readLambda, h1, hm, h2]
      · simp [readLambdaEarly, readLambda, h1, hm, h2]

/-- Every other tail is rejected with `SyntaxError`, by both readings. -/
theorem readLambda_illFormed (tail : Obj)
    (hno : ¬ ∃ (names : List String) (es : List Obj), es ≠ [] ∧
      tail = .Cell (mkChain (names.map Obj.Symbol) .null) (mkChain es .null)) :
    readLambda tail = .error Err.SyntaxError ∧
    readLambdaEarly tail = .error Err.SyntaxError := by
  have key : readLambda tail = .error Err.SyntaxError := by
    cases tail with
    | Cell params body =>
        cases hv : lambdaVariables params with
        | error e =>
            have := (lambdaVariables_result params).2 e hv
            subst this
            simp [readLambda, hv]
        | ok names =>
            have hp := (lambdaVariables_result params).1 names hv
            cases hb : lambdaEvalsLoop body with
            | error e =>
                have := (lambdaEvalsLoop_result body).2 e hb
                subst this
                unfold readLambda
                simp only [hv, hb]
                cases body <;> rfl
            | ok es =>
                have hbody := (lambdaEvalsLoop_result body).1 es hb
                cases es with
                | nil =>
                    have : body = .null := hbody
                    subst this
                    simp [readLambda, hv]
                | cons e es =>
                    exact absurd ⟨names, e :: es, by simp, by rw [hp, hbody]⟩ hno
    | null => rfl
    | Number _ => rfl
    | Symbol _ => rfl
    | Boolean _ => rfl
    | Function _ => rfl
    | Lambda _ _ _ => rfl
    | LambdaCreator _ _ _ => rfl
  refine ⟨key, ?_⟩
  unfold readLambdaEarly
  split
  · rfl
  · exact key

/-- Claim C17 fails on the code: in `(lambda (x) 1 . 2)` and `(lambda (x) . 5)` the
tail is a cell, the parameter position is the proper list `(x)` of symbols and the
body is not empty, but the evaluation raises `SyntaxError` because the body is not
a proper list. -/
theorem lambda_with_improper_body_is_rejected :
    lambdaVariables (.Cell (.Symbol "x") .null) = .ok ["x"] ∧
    Evaluate 1 (.Cell (.Symbol "lambda")
        (.Cell (.Cell (.Symbol "x") .null) (.Cell (.Number 1) (.Number 2)))) 0 Interpreter.new
      = (.error Err.SyntaxError, Interpreter.new) ∧
    (RunAll 5 ["(lambda (x) 1 . 2)", "(lambda (x) . 5)"] Interpreter.new).1
      = [.error Err.SyntaxError, .error Err.SyntaxError] := by
  decide!

/-- Claim C17 as amended: evaluating `(lambda . tail)` raises `SyntaxError` whenever
`tail` is not a cell, the parameter position is not a proper list consisting only of
symbols, or the body is empty or not a proper list; otherwise, that is when `tail`
is `((p1 ... pk) e1 ... em)` with symbols `pi` and `m >= 1`, it returns a closure
factory holding exactly the names `p1 ... pk` and the expressions `e1 ... em` in
order and the current scope, and leaves the scopes as they are.  The same reading
is done for a lambda in an argument list, where the closure factory is pushed on the
argument vector. -/
theorem lambda_well_formedness (n : Nat) (tail : Obj) (scope : Nat) (h : Heap) :
    (∀ (names : List String) (es : List Obj), es ≠ [] →
      tail = .Cell (mkChain (names.map Obj.Symbol) .null) (mkChain es .null) →
      Evaluate (n + 1) (.Cell (.Symbol "lambda") tail) scope h
          = (.ok (.LambdaCreator scope names es), h) ∧
      ∀ vec name, ArgsToVector (n + 1) vec (.Cell (.Symbol "lambda") tail) name scope h
          = (.ok (vec ++ [.LambdaCreator scope names es]), h)) ∧
    ((¬ ∃ (names : List String) (es : List Obj), es ≠ [] ∧
        tail = .Cell (mkChain (names.map Obj.Symbol) .null) (mkChain es .null)) →
      Evaluate (n + 1) (.Cell (.Symbol "lambda") tail) scope h
          = (.error Err.SyntaxError, h) ∧
      ∀ vec name, ArgsToVector (n + 1) vec (.Cell (.Symbol "lambda") tail) name scope h
          = (.error Err.SyntaxError, h)) := by
  have e1 : Evaluate (n + 1) = EvaluateBody (Evaluate n) (ArgsToVector n) := rfl
  have a1 : ArgsToVector (n + 1) = ArgsToVectorBody (Evaluate n) (ArgsToVector n) := rfl
  constructor
  · intro names es hes ht
    have hr := readLambda_wellFormed names es hes
    rw [← ht] at hr
    constructor
    · rw [e1]
      simp [EvaluateBody, hr.2]
      rfl
    · intro vec name
      rw [a1]
      simp [ArgsToVectorBody, hr.1]
      rfl
  · intro hno
    have hr := readLambda_illFormed tail hno
    constructor
    · rw [e1]
      simp [EvaluateBody, hr.2]
      rfl
    · intro vec name
      rw [a1]
      simp [ArgsToVectorBody, hr.1]
      rfl

/-- Claim C17 as amended, at `(lambda (x y) (+ x y) x)` and at `(lambda (x 1) x)` in
the global scope of a new interpreter. -/
theorem lambda_well_formedness_witness :
    Evaluate 1 (.Cell (.Symbol "lambda")
        (.Cell (mkChain ([ "x", "y"].map Obj.Symbol) .null)
          (mkChain [mkChain [.Symbol "+", .Symbol "x", .Symbol "y"] .null, .Symbol "x"] .null)))
        0 Interpreter.new
      = (.ok (.LambdaCreator 0 ["x", "y"]
          [mkChain [.Symbol "+", .Symbol "x", .Symbol "y"] .null, .Symbol "x"]), Interpreter.new) ∧
    Evaluate 1 (.Cell (.Symbol "lambda")
        (.Cell (mkChain [.Symbol "x", .Number 1] .null) (mkChain [.Symbol "x"] .null)))
        0 Interpreter.new
      = (.error Err.SyntaxError, Interpreter.new) :=
  ⟨((lambda_well_formedness 0 _ 0 Interpreter.new).1 ["x", "y"]
      [mkChain [.Symbol "+", .Symbol "x", .Symbol "y"] .null, .Symbol "x"] (by simp) rfl).1,
   ((lambda_well_formedness 0 _ 0 Interpreter.new).2 (by
      rintro ⟨names, es, -, heq⟩
      have h1 := lambdaVariables_mkChain names
      have h2 : lambdaVariables (mkChain [.Symbol "x", .Number 1] .null) = .ok names := by
        have := congrArg (fun t => match t with | Obj.Cell p _ => lambdaVariables p | _ => .ok []) heq
        simpa [h1] using this
      simp [mkChain, lambdaVariables] at h2)).1⟩

/-! ## The sugar of `define` -/

/-- Evaluating `(define name (lambda params body...))` for a well-formed lambda. -/
theorem Evaluate_define_lambda (n : Nat) (name : String) (params body : Obj)
    (names : List String) (es : List Obj) (scope : Nat) (h : Heap)
    (hread : readLambda (.Cell params body) = .ok (names, es))
    (hdef : SymbolEval h scope "define" = .ok (.Function .Define)) :
    Evaluate (n + 3) (defineSugar (.Symbol name) params body) scope h
      = (.ok .null, DefineSymbol h scope name (.LambdaCreator scope names es)) := by
  have e3 : Evaluate (n + 3) = EvaluateBody (Evaluate (n + 2)) (ArgsToVector (n + 2)) := rfl
  have a2 : ArgsToVector (n + 2) = ArgsToVectorBody (Evaluate (n + 1)) (ArgsToVector (n + 1)) :=
    rfl
  have a1 : ArgsToVector (n + 1) = ArgsToVectorBody (Evaluate n) (ArgsToVector n) := rfl
  have hl : ∀ vec, ArgsToVector (n + 1) vec
      (.Cell (.Symbol "lambda") (.Cell params body)) "define" scope h
        = (.ok (vec ++ [.LambdaCreator scope names es]), h) := by
    intro vec
    rw [a1]
    simp [ArgsToVectorBody, hread]
    rfl
  have hn : ∀ vec, ArgsToVector (n + 1) vec .null "define" scope h = (.ok vec, h) := by
    intro vec
    rw [a1]
    rfl
  have hargs : ArgsToVector (n + 2) [.Symbol name]
      (.Cell (.Cell (.Symbol "lambda") (.Cell params body)) .null) "define" scope h
        = (.ok [.Symbol name, .LambdaCreator scope names es], h) := by
    rw [a2]
    simp [ArgsToVectorBody, M.bind, hl, hn, Obj.isNull]
  rw [e3]
  simp [defineSugar, EvaluateBody, M.bind, hargs, withHeap, hdef, Apply, ApplyDefine,
    symbolShortcut]

/-- Claim C16: for every symbol `name`, every `params` and every `body`, evaluating
`(define (name . params) . body)` in a scope gives the result and the scopes that
evaluating `(define name (lambda params . body))` in that scope gives: the first
evaluation is the second one with one unit of fuel less, so that whenever the
second finishes both finish the same, whatever fuel is added to either; and for a
well-formed lambda, with `define` denoting the built-in, both return `()` and bind
`name` in the current frame to the same closure factory. -/
theorem define_sugar_is_define_of_lambda (n : Nat) (name : String) (params body : Obj)
    (scope : Nat) (h : Heap) :
    Evaluate (n + 1) (.Cell (.Symbol "define") (.Cell (.Cell (.Symbol name) params) body))
        scope h
      = Evaluate n (.Cell (.Symbol "define") (.Cell (.Symbol name)
          (.Cell (.Cell (.Symbol "lambda") (.Cell params body)) .null))) scope h ∧
    ((Evaluate n (.Cell (.Symbol "define") (.Cell (.Symbol name)
          (.Cell (.Cell (.Symbol "lambda") (.Cell params body)) .null))) scope h).1
        ≠ .error Err.Fuel →
      ∀ m1 m2, n ≤ m1 → n ≤ m2 →
        Evaluate (m1 + 1)
            (.Cell (.Symbol "define") (.Cell (.Cell (.Symbol name) params) body)) scope h
          = Evaluate m2 (.Cell (.Symbol "define") (.Cell (.Symbol name)
              (.Cell (.Cell (.Symbol "lambda") (.Cell params body)) .null))) scope h) ∧
    (∀ (names : List String) (es : List Obj),
      readLambda (.Cell params body) = .ok (names, es) →
      SymbolEval h scope "define" = .ok (.Function .Define) →
      Evaluate (n + 4)
          (.Cell (.Symbol "define") (.Cell (.Cell (.Symbol name) params) body)) scope h
        = (.ok .null, DefineSymbol h scope name (.LambdaCreator scope names es)) ∧
      Evaluate (n + 3) (.Cell (.Symbol "define") (.Cell (.Symbol name)
          (.Cell (.Cell (.Symbol "lambda") (.Cell params body)) .null))) scope h
        = (.ok .null, DefineSymbol h scope name (.LambdaCreator scope names es))) := by
  have step : ∀ k, Evaluate (k + 1)
      (.Cell (.Symbol "define") (.Cell (.Cell (.Symbol name) params) body)) scope h
        = Evaluate k (defineSugar (.Symbol name) params body) scope h := by
    intro k
    have e1 : Evaluate (k + 1) = EvaluateBody (Evaluate k) (ArgsToVector k) := rfl
    rw [e1]
    simp [EvaluateBody]
  refine ⟨step n, ?_, ?_⟩
  · intro hfin m1 m2 h1 h2
    rw [step m1]
    have hfin2 : (Evaluate n (defineSugar (.Symbol name) params body) scope h).1
        ≠ .error Err.Fuel := hfin
    rw [Evaluate_mono h1 _ scope h hfin2]
    exact (Evaluate_mono h2 _ scope h hfin2).symm
  · intro names es hread hdef
    have hd := Evaluate_define_lambda n name params body names es scope h hread hdef
    exact ⟨by rw [step (n + 3)]; exact hd, hd⟩

/-- Claim C16 at `(define (f x) x)` in the global scope of a new interpreter: with
any fuel from 3 on, the sugared and the plain form give the same result and the same
scopes. -/
theorem define_sugar_is_define_of_lambda_witness :
    ∀ m1 m2, 3 ≤ m1 → 3 ≤ m2 →
      Evaluate (m1 + 1)
          (.Cell (.Symbol "define")
            (.Cell (.Cell (.Symbol "f") (.Cell (.Symbol "x") .null)) (.Cell (.Symbol "x") .null)))
          0 Interpreter.new
        = Evaluate m2 (.Cell (.Symbol "define") (.Cell (.Symbol "f")
            (.Cell (.Cell (.Symbol "lambda")
              (.Cell (.Cell (.Symbol "x") .null) (.Cell (.Symbol "x") .null))) .null)))
          0 Interpreter.new :=
  (define_sugar_is_define_of_lambda 3 "f" (.Cell (.Symbol "x") .null)
    (.Cell (.Symbol "x") .null) 0 Interpreter.new).2.1 (by decide!)

/-! ## Applying a closure -/

theorem lookup_mapSet_other (m : List (String × Obj)) (a b : String) (value : Obj)
    (hab : a ≠ b) : (mapSet m b value).lookup a = m.lookup a := by
  induction m with
  | nil =>
      have hne : (a == b) = false := by simpa using hab
      simp [mapSet, List.lookup, hne]
  | cons kv rest ih =>
      obtain ⟨k, v⟩ := kv
      unfold mapSet
      by_cases hk : k = b
      · subst hk
        have hne : (a == k) = false := by simpa using hab
        simp [List.lookup, hne]
      · by_cases hak : a = k
        · subst hak
          simp [hk, List.lookup]
        · have hne : (a == k) = false := by simpa using hak
          simp [hk, List.lookup, hne, ih]

/-- Defining another name leaves the lookups of a name in every frame as they are. -/
theorem lookup_DefineSymbol_other (h : Heap) (scope s : Nat) (a b : String) (value : Obj)
    (hab : a ≠ b) :
    Contains (DefineSymbol h scope b value) s a = Contains h s a ∧
    ResolveSymbol (DefineSymbol h scope b value) s a = ResolveSymbol h s a := by
  unfold Contains ResolveSymbol DefineSymbol
  by_cases hs : scope = s
  · subst hs
    rw [List.getElem?_modify_eq]
    cases hget : h[scope]? with
    | none => simp
    | some fr => simp [lookup_mapSet_other _ a b value hab]
  · rw [List.getElem?_modify_ne _ _ hs]
    simp

/-- The loop that binds the parameters does not touch other names. -/
theorem lookup_defineAll_other (a : String) (s : Nat) :
    ∀ (params : List String) (objects : List Obj) (h : Heap) (scope : Nat), a ∉ params →
      Contains (defineAll h scope params objects) s a = Contains h s a ∧
      ResolveSymbol (defineAll h scope params objects) s a = ResolveSymbol h s a
  | [], _, _, _, _ => by simp [defineAll]
  | _ :: _, [], _, _, _ => by simp [defineAll]
  | p :: ps, o :: os, h, scope, hnot => by
      have hp : a ≠ p := fun e => hnot (e ▸ List.mem_cons_self _ _)
      have hps : a ∉ ps := fun e => hnot (List.mem_cons_of_mem _ e)
      have ih := lookup_defineAll_other a s ps os (DefineSymbol h scope p o) scope hps
      have h1 := lookup_DefineSymbol_other h scope s a p o hp
      simp only [defineAll]
      exact ⟨ih.1.trans h1.1, ih.2.trans h1.2⟩

theorem length_defineAll :
    ∀ (params : List String) (objects : List Obj) (h : Heap) (scope : Nat),
      (defineAll h scope params objects).length = h.length
  | [], _, _, _ => by simp [defineAll]
  | _ :: _, [], _, _ => by simp [defineAll]
  | p :: ps, o :: os, h, scope => by
      simp only [defineAll]
      rw [length_defineAll ps os _ scope, length_DefineSymbol]

/-- After the loop, the local frame binds a parameter to the argument at its
position, when the name does not occur again further right. -/
theorem lookup_defineAll_param :
    ∀ (params : List String) (objects : List Obj) (h : Heap) (scope : Nat) (i : Nat)
      (p : String) (o : Obj), scope < h.length → params[i]? = some p → objects[i]? = some o →
      (∀ j, i < j → params[j]? ≠ some p) →
      Contains (defineAll h scope params objects) scope p = true ∧
      ResolveSymbol (defineAll h scope params objects) scope p = o
  | [], _, _, _, i, p, o, _, hp, _, _ => by simp at hp
  | _ :: _, [], _, _, i, p, o, _, _, ho, _ => by simp at ho
  | q :: ps, x :: os, h, scope, 0, p, o, hs, hp, ho, hlast => by
      simp at hp ho
      subst hp ho
      have hnot : q ∉ ps := by
        intro hmem
        obtain ⟨j, hj, hjq⟩ := List.getElem_of_mem hmem
        have := hlast (j + 1) (by omega)
        simp [List.getElem?_eq_getElem hj, hjq] at this
      have h1 := lookup_defineAll_other q scope ps os (DefineSymbol h scope q x) scope hnot
      simp only [defineAll]
      rw [h1.1, h1.2]
      exact ⟨Contains_DefineSymbol_self h scope q x hs, ResolveSymbol_DefineSymbol_self h scope q x hs⟩
  | q :: ps, x :: os, h, scope, i + 1, p, o, hs, hp, ho, hlast => by
      simp only [defineAll]
      apply lookup_defineAll_param ps os (DefineSymbol h scope q x) scope i p o
      · rw [length_DefineSymbol]; exact hs
      · simpa using hp
      · simpa using ho
      · intro j hj
        have := hlast (j + 1) (by omega)
        simpa using this

theorem evalInOrder_length (ev : Obj → M Obj) :
    ∀ (es : List Obj) (h h1 : Heap) (vs : List Obj),
      evalInOrder ev es h = (.ok vs, h1) → vs.length = es.length
  | [], h, h1, vs, he => by
      simp [evalInOrder] at he
      rw [← he.1]
      try rfl
  | e :: es, h, h1, vs, he => by
      unfold evalInOrder at he
      cases hev : ev e h with
      | mk r h2 =>
          cases r with
          | error err => simp [hev] at he
          | ok v =>
              simp only [hev] at he
              cases hrest : evalInOrder ev es h2 with
              | mk r2 h3 =>
                  cases r2 with
                  | error err => simp [hrest] at he
                  | ok ws =>
                      simp [hrest] at he
                      rw [← he.1]
                      simp [evalInOrder_length ev es h2 h3 ws hrest]

/-- The loops of `EvalLambda` over the body do what the specification says. -/
theorem evalBody_eq_lastValue (ev : Obj → M Obj) :
    ∀ (es : List Obj) (h : Heap), es ≠ [] → evalBody ev es h = lastValue (evalInOrder ev es h)
  | [], _, hne => absurd rfl hne
  | [e], h, _ => by
      simp only [evalBody, evalInOrder]
      cases hev : ev e h with
      | mk r h2 =>
          cases r with
          | error err => rfl
          | ok v => rfl
  | e :: e2 :: rest, h, _ => by
      have ih := fun h2 => evalBody_eq_lastValue ev (e2 :: rest) h2 (by simp)
      rw [evalBody, evalInOrder]
      simp only [M.bind]
      cases hev : ev e h with
      | mk r h2 =>
          cases r with
          | error err => rfl
          | ok v =>
              simp only [ih h2]
              cases hrest : evalInOrder ev (e2 :: rest) h2 with
              | mk r2 h3 =>
                  cases r2 with
                  | error err => rfl
                  | ok ws =>
                      have hl := evalInOrder_length ev (e2 :: rest) h2 h3 ws hrest
                      cases ws with
                      | nil => simp at hl
                      | cons w ws => simp [lastValue, List.getLast?_cons_cons]

/-- Claim C14: `EvalLambda` on a closure with the parameters `p1 ... pk`, a body
that is not empty and an existing local frame, applied to a vector of `m`
arguments.  When `m ≠ k` it raises `SyntaxError` and leaves the scopes as they
are, whatever the evaluator is: no body expression is evaluated.  When `m = k` the
local frame binds each parameter to the argument at its position (for a name that
occurs twice, the rightmost position), the body expressions are evaluated in order
in the local frame, and the result is the value of the last one. -/
theorem closure_application (n : Nat) (local_scope : Nat) (params : List String)
    (evals objects : List Obj) (h : Heap) (hbody : evals ≠ [])
    (hlocal : local_scope < h.length) :
    (objects.length ≠ params.length →
      ∀ ev : Obj → Nat → M Obj,
        EvalLambda ev (.Lambda local_scope params evals) objects h
          = (.error Err.SyntaxError, h)) ∧
    (objects.length = params.length →
      (∀ (i : Nat) (p : String) (o : Obj), params[i]? = some p → objects[i]? = some o →
        (∀ j, i < j → params[j]? ≠ some p) →
        Contains (defineAll h local_scope params objects) local_scope p = true ∧
        ResolveSymbol (defineAll h local_scope params objects) local_scope p = o) ∧
      EvalLambda (Evaluate n) (.Lambda local_scope params evals) objects h
        = lastValue (evalInOrder (fun e => Evaluate n e local_scope) evals
            (defineAll h local_scope params objects))) := by
  constructor
  · intro hne ev
    simp [EvalLambda, hne, raise]
  · intro heq
    constructor
    · intro i p o hp ho hlast
      exact lookup_defineAll_param params objects h local_scope i p o hlocal hp ho hlast
    · simp only [EvalLambda, heq, ne_eq, not_true_eq_false, if_false, M.bind]
      exact evalBody_eq_lastValue _ evals _ hbody

/-- Claim C14 at the closure of `(lambda (x y) (+ x y))` inside a call from the
global scope of a new interpreter: one argument raises `SyntaxError`; the arguments
3 and 4 are bound to `x` and `y` and the result is 7, which is also what the run of
`((lambda (x y) (+ x y)) 3 4)` prints. -/
theorem closure_application_witness :
    EvalLambda (Evaluate 4)
        (.Lambda 1 ["x", "y"] [mkChain [.Symbol "+", .Symbol "x", .Symbol "y"] .null])
        [.Number 3] heapInCall
      = (.error Err.SyntaxError, heapInCall) ∧
    ResolveSymbol (defineAll heapInCall 1 ["x", "y"] [.Number 3, .Number 4]) 1 "y"
      = .Number 4 ∧
    lastValue (evalInOrder (fun e => Evaluate 4 e 1)
        [mkChain [.Symbol "+", .Symbol "x", .Symbol "y"] .null]
        (defineAll heapInCall 1 ["x", "y"] [.Number 3, .Number 4]))
      = (.ok (.Number 7), defineAll heapInCall 1 ["x", "y"] [.Number 3, .Number 4]) ∧
    (Run 5 "((lambda (x y) (+ x y)) 3 4)" Interpreter.new).1 = .ok "7" :=
  have hw := closure_application 4 1 ["x", "y"]
    [mkChain [.Symbol "+", .Symbol "x", .Symbol "y"] .null]
  ⟨(hw [.Number 3] heapInCall (by simp) (by decide)).1 (by decide) (Evaluate 4),
   (((hw [.Number 3, .Number 4] heapInCall (by simp) (by decide)).2 rfl).1 1 "y" (.Number 4)
      rfl rfl (by
        intro j hj
        match j, hj with
        | j + 2, _ => simp)).2,
   by decide!, by decide!⟩

/-! ## Lexical scoping -/

theorem frame_DefineSymbol_other (h : Heap) (scope p : Nat) (name : String) (value : Obj)
    (hp : scope ≠ p) : (DefineSymbol h scope name value)[p]? = h[p]? := by
  unfold DefineSymbol
  exact List.getElem?_modify_ne _ _ hp

theorem GetParentScope_DefineSymbol (h : Heap) (scope p : Nat) (name : String) (value : Obj) :
    GetParentScope (DefineSymbol h scope name value) p = GetParentScope h p := by
  unfold GetParentScope DefineSymbol
  rw [List.getElem?_modify]
  cases h[p]? with
  | none => rfl
  | some fr => by_cases hsp : scope = p <;> simp [hsp]

theorem defineAll_frames :
    ∀ (params : List String) (objects : List Obj) (h : Heap) (scope : Nat),
      (∀ p, scope ≠ p → (defineAll h scope params objects)[p]? = h[p]?) ∧
      (∀ p, GetParentScope (defineAll h scope params objects) p = GetParentScope h p)
  | [], _, _, _ => by simp [defineAll]
  | _ :: _, [], _, _ => by simp [defineAll]
  | q :: ps, o :: os, h, scope => by
      have ih := defineAll_frames ps os (DefineSymbol h scope q o) scope
      simp only [defineAll]
      constructor
      · intro p hp
        rw [ih.1 p hp, frame_DefineSymbol_other h scope p q o hp]
      · intro p
        rw [ih.2 p, GetParentScope_DefineSymbol]

/-- Lookups along a chain that stays inside the old frames do not see what was
added or changed beyond them. -/
theorem chain_lookup_of_agree (h1 h2 : Heap) (name : String)
    (hagree : ∀ p, p < h1.length → h2[p]? = h1[p]?)
    (hwf : ∀ s ∈ h1, ∀ p, s.parent_scope_ = some p → p < h1.length) :
    ∀ (k p : Nat), p < h1.length →
      AllContainsAux h2 k p name = AllContainsAux h1 k p name ∧
      AllResolveSymbolAux h2 k p name = AllResolveSymbolAux h1 k p name
  | 0, _, _ => by simp [AllContainsAux, AllResolveSymbolAux]
  | k + 1, p, hp => by
      have hc : Contains h2 p name = Contains h1 p name := by
        unfold Contains
        rw [hagree p hp]
      have hr : ResolveSymbol h2 p name = ResolveSymbol h1 p name := by
        unfold ResolveSymbol
        rw [hagree p hp]
      have hg : GetParentScope h2 p = GetParentScope h1 p := by
        unfold GetParentScope
        rw [hagree p hp]
      simp only [AllContainsAux, AllResolveSymbolAux, hc, hr, hg]
      cases hpar : GetParentScope h1 p with
      | none => simp
      | some q =>
          have hq : q < h1.length := by
            unfold GetParentScope at hpar
            rw [List.getElem?_eq_getElem hp] at hpar
            exact hwf _ (List.getElem_mem hp) q hpar
          have ih := chain_lookup_of_agree h1 h2 name hagree hwf k q hq
          simp [ih.1, ih.2]

/-! ## Frames are only added -/

theorem keeps_same {α : Type} {x : M α} (hx : ∀ h, (x h).2 = h) : KeepsFrames x := by
  intro h
  rw [hx h]
  exact ⟨Nat.le_refl _, fun _ _ => rfl⟩

theorem keeps_raise {α : Type} (e : Err) : KeepsFrames (raise e : M α) :=
  keeps_same (fun _ => rfl)

theorem keeps_pure {α : Type} (a : α) : KeepsFrames (pure a : M α) :=
  keeps_same (fun _ => rfl)

theorem keeps_liftE {α : Type} (r : Except Err α) : KeepsFrames (liftE r) :=
  keeps_same (fun _ => rfl)

theorem keeps_bind {α β : Type} {x : M α} {f : α → M β}
    (hx : KeepsFrames x) (hf : ∀ a, KeepsFrames (f a)) : KeepsFrames (M.bind x f) := by
  intro h
  unfold M.bind
  have h1 := hx h
  generalize x h = r at h1
  rcases r with ⟨_ | a, r2⟩
  · exact h1
  · have h2 := hf a r2
    simp only at h1 ⊢
    refine ⟨Nat.le_trans h1.1 h2.1, fun p hp => ?_⟩
    rw [h2.2 p (Nat.lt_of_lt_of_le hp h1.1), h1.2 p hp]

theorem keeps_withHeap {α : Type} {f : Heap → M α} (hf : ∀ h, KeepsFrames (f h)) :
    KeepsFrames (withHeap f) := fun h => hf h h

theorem keeps_define {α : Type} (r : Heap → Except Err α) (scope : Nat) (name : String)
    (v : Heap → Obj) :
    KeepsFrames (fun h => (r h, DefineSymbol h scope name (v h))) := by
  intro h
  simp only [length_DefineSymbol, GetParentScope_DefineSymbol]
  exact ⟨Nat.le_refl _, fun _ _ => trivial⟩

theorem keeps_newLambda (scope : Nat) (args : List String) (evals : List Obj) :
    KeepsFrames (newLambda scope args evals) := by
  intro h
  simp only [newLambda, List.length_append, List.length_singleton]
  refine ⟨Nat.le_succ _, fun p hp => ?_⟩
  unfold GetParentScope
  rw [List.getElem?_append_left hp]

theorem keeps_CreateLambda (lc : Obj) : KeepsFrames (CreateLambda lc) := by
  cases lc <;> first | exact keeps_raise _ | exact keeps_newLambda _ _ _

theorem SetDefineSymbolAux_ok (h : Heap) (name : String) (v : Obj) :
    ∀ (k s : Nat) (h1 : Heap), SetDefineSymbolAux h k s name v = .ok h1 →
      ∃ f, h1 = DefineSymbol h f name v
  | 0, _, _, he => by simp [SetDefineSymbolAux] at he
  | k + 1, s, h1, he => by
      simp only [SetDefineSymbolAux] at he
      split at he
      · exact ⟨s, by injection he with he; exact he.symm⟩
      · split at he
        · cases he
        · exact SetDefineSymbolAux_ok h name v k _ h1 he

theorem keeps_evalBody {ev : Obj → M Obj} (he : ∀ e, KeepsFrames (ev e)) :
    ∀ es, KeepsFrames (evalBody ev es)
  | [] => keeps_raise _
  | [e] => by simpa [evalBody] using he e
  | e :: e2 :: rest => by
      show KeepsFrames (M.bind (ev e) _)
      exact keeps_bind (he e) (fun _ => keeps_evalBody he (e2 :: rest))

theorem keeps_EvalLambda {ev : Obj → Nat → M Obj} (he : ∀ e s, KeepsFrames (ev e s))
    (lambda : Obj) (objects : List Obj) : KeepsFrames (EvalLambda ev lambda objects) := by
  unfold EvalLambda
  split
  · split
    · exact keeps_raise _
    · refine keeps_bind ?_ (fun _ => keeps_evalBody (fun e => he e _) _)
      intro h
      simp only [length_defineAll]
      exact ⟨Nat.le_refl _, fun p _ => (defineAll_frames _ _ h _).2 p⟩
  · exact keeps_raise _

theorem keeps_ApplySet (scope : Nat) (objects : List Obj) :
    KeepsFrames (ApplySet scope objects) := by
  unfold ApplySet
  repeat' split
  all_goals first
    | exact keeps_raise _
    | skip
  intro h
  simp only
  split
  · exact ⟨Nat.le_refl _, fun _ _ => rfl⟩
  · split
    · exact ⟨Nat.le_refl _, fun _ _ => rfl⟩
    · split
      · exact ⟨Nat.le_refl _, fun _ _ => rfl⟩
      · rename_i h1 hset
        obtain ⟨f, rfl⟩ := SetDefineSymbolAux_ok h _ _ _ _ _ hset
        simp only [length_DefineSymbol, GetParentScope_DefineSymbol]
        exact ⟨Nat.le_refl _, fun _ _ => trivial⟩

theorem keeps_ApplyDefine {ev : Obj → Nat → M Obj} (he : ∀ e s, KeepsFrames (ev e s))
    (scope : Nat) (objects : List Obj) : KeepsFrames (ApplyDefine ev scope objects) := by
  unfold ApplyDefine
  repeat' split
  all_goals first
    | exact keeps_raise _
    | exact keeps_bind (keeps_EvalLambda he _ _) (fun value => keeps_define _ _ _ _)
    | skip
  intro h
  simp only
  split
  · exact ⟨Nat.le_refl _, fun _ _ => rfl⟩
  · simp only [length_DefineSymbol, GetParentScope_DefineSymbol]
    exact ⟨Nat.le_refl _, fun _ _ => trivial⟩

theorem keeps_ApplyIf {ev : Obj → Nat → M Obj} (he : ∀ e s, KeepsFrames (ev e s))
    (scope : Nat) (objects : List Obj) : KeepsFrames (ApplyIf ev scope objects) := by
  unfold ApplyIf
  repeat' split
  all_goals first | exact keeps_raise _ | exact keeps_pure _ | exact he _ _

theorem keeps_Apply {ev : Obj → Nat → M Obj} (he : ∀ e s, KeepsFrames (ev e s))
    (f : Func) (scope : Nat) (objects : List Obj) : KeepsFrames (Apply ev f scope objects) := by
  cases f <;> first
    | exact keeps_raise _
    | exact keeps_liftE _
    | exact keeps_ApplyDefine he _ _
    | exact keeps_ApplySet _ _
    | exact keeps_ApplyIf he _ _

theorem keeps_EvaluateBody {ev : Obj → Nat → M Obj}
    {av : List Obj → Obj → String → Nat → M (List Obj)}
    (he : ∀ e s, KeepsFrames (ev e s)) (ha : ∀ v c nm s, KeepsFrames (av v c nm s))
    (cell : Obj) (scope : Nat) : KeepsFrames (EvaluateBody ev av cell scope) := by
  unfold EvaluateBody
  repeat' split
  all_goals first
    | exact keeps_raise _
    | exact keeps_pure _
    | exact he _ _
    | (intro h; dsimp only; split <;> exact ⟨Nat.le_refl _, fun _ _ => rfl⟩)
    | (refine keeps_bind (ha _ _ _ _) (fun args1 => keeps_withHeap (fun h => ?_))
       repeat' split
       all_goals first
         | exact keeps_raise _
         | exact keeps_Apply he _ _ _
         | exact keeps_bind (keeps_CreateLambda _) (fun _ => keeps_EvalLambda he _ _))
    | exact keeps_bind (keeps_newLambda _ _ _)
        (fun _ => keeps_bind (ha _ _ _ _) (fun _ => keeps_EvalLambda he _ _))
    | (refine keeps_bind (he _ _) (fun lc => ?_)
       split
       · exact keeps_bind (ha _ _ _ _)
           (fun _ => keeps_bind (keeps_CreateLambda _) (fun _ => keeps_EvalLambda he _ _))
       · exact keeps_raise _)

theorem keeps_ArgsToVectorBody {ev : Obj → Nat → M Obj}
    {av : List Obj → Obj → String → Nat → M (List Obj)}
    (he : ∀ e s, KeepsFrames (ev e s)) (ha : ∀ v c nm s, KeepsFrames (av v c nm s))
    (vec : List Obj) (cell : Obj) (name : String) (scope : Nat) :
    KeepsFrames (ArgsToVectorBody ev av vec cell name scope) := by
  have hres : ∀ (hname : String) (tail : Obj), KeepsFrames
      (withHeap (fun h =>
        if !AllContains h scope hname then raise Err.NameError
        else
          match AllResolveSymbol h scope hname with
          | .error e => raise e
          | .ok v =>
              if !v.isFunction && !v.isLambdaCreator then
                av (vec ++ [v]) tail name scope
              else
                M.bind (ev (Obj.Cell (Obj.Symbol hname) tail) scope)
                  (fun obj => pure (vec ++ [obj])))) := by
    intro hname tail
    refine keeps_withHeap (fun h => ?_)
    repeat' split
    all_goals first
      | exact keeps_raise _
      | exact ha _ _ _ _
      | exact keeps_bind (he _ _) (fun _ => keeps_pure _)
  unfold ArgsToVectorBody
  repeat' split
  all_goals first
    | exact keeps_raise _
    | exact keeps_pure _
    | exact hres _ _
    | (intro h; dsimp only; split <;> (try split) <;> exact ⟨Nat.le_refl _, fun _ _ => rfl⟩)
    | (refine keeps_withHeap (fun h => ?_)
       repeat' split
       all_goals first
         | exact keeps_pure _
         | exact hres _ _)
    | (refine keeps_bind (ha _ _ _ _) (fun _ => ?_)
       first
         | exact keeps_liftE _
         | exact ha _ _ _ _)

/-- The evaluator only adds frames and never changes a parent pointer. -/
theorem keeps_Evaluate (n : Nat) :
    (∀ cell scope, KeepsFrames (Evaluate n cell scope)) ∧
    (∀ vec cell name scope, KeepsFrames (ArgsToVector n vec cell name scope)) := by
  induction n with
  | zero => exact ⟨fun _ _ => keeps_raise _, fun _ _ _ _ => keeps_raise _⟩
  | succ n ih =>
      exact ⟨fun cell scope => keeps_EvaluateBody ih.1 ih.2 cell scope,
        fun vec cell name scope => keeps_ArgsToVectorBody ih.1 ih.2 vec cell name scope⟩

/-! ## Lookups along parent pointers -/

theorem parent_lt {h : Heap} (hord : ParentsFirst h = true) {s q : Nat}
    (hp : GetParentScope h s = some q) : q < s := by
  by_cases hs : s < h.length
  · unfold ParentsFirst at hord
    rw [List.all_eq_true] at hord
    have := hord s (List.mem_range.mpr hs)
    rw [hp] at this
    simpa using this
  · unfold GetParentScope at hp
    rw [List.getElem?_eq_none (by omega)] at hp
    cases hp

/-- A lookup from the frame `s` reads no frame with a larger index. -/
theorem lookup_below (h1 h2 : Heap) (y : String) (hord : ParentsFirst h1 = true) :
    ∀ (k s : Nat), (∀ p, p ≤ s → h2[p]? = h1[p]?) →
      AllContainsAux h2 k s y = AllContainsAux h1 k s y ∧
      AllResolveSymbolAux h2 k s y = AllResolveSymbolAux h1 k s y
  | 0, _, _ => by simp [AllContainsAux, AllResolveSymbolAux]
  | k + 1, s, hag => by
      have hc : Contains h2 s y = Contains h1 s y := by
        unfold Contains
        rw [hag s (Nat.le_refl _)]
      have hr : ResolveSymbol h2 s y = ResolveSymbol h1 s y := by
        unfold ResolveSymbol
        rw [hag s (Nat.le_refl _)]
      have hg : GetParentScope h2 s = GetParentScope h1 s := by
        unfold GetParentScope
        rw [hag s (Nat.le_refl _)]
      simp only [AllContainsAux, AllResolveSymbolAux, hc, hr, hg]
      cases hpar : GetParentScope h1 s with
      | none => simp
      | some q =>
          have hq : q < s := parent_lt hord hpar
          have ih := lookup_below h1 h2 y hord k q (fun p hp => hag p (by omega))
          simp [ih.1, ih.2]

/-- Past the index of the frame the bound of a lookup plays no part. -/
theorem lookup_stable (h : Heap) (y : String) (hord : ParentsFirst h = true) :
    ∀ (s k : Nat), s < k →
      AllContainsAux h k s y = AllContainsAux h (s + 1) s y ∧
      AllResolveSymbolAux h k s y = AllResolveSymbolAux h (s + 1) s y := by
  intro s
  induction s using Nat.strong_induction_on with
  | _ s ih =>
      intro k hk
      obtain ⟨k, rfl⟩ : ∃ j, k = j + 1 := ⟨k - 1, by omega⟩
      simp only [AllContainsAux, AllResolveSymbolAux]
      cases hp : GetParentScope h s with
      | none => exact ⟨rfl, rfl⟩
      | some q =>
          have hq : q < s := parent_lt hord hp
          have h1 := ih q hq k (by omega)
          have h2 := ih q hq s hq
          simp only [h1.1, h1.2, h2.1, h2.2]
          simp

/-- The frame appended for a call of a closure factory created in `S`: its parent is
`S`, and a name that is no parameter is looked up from it as from `S`. -/
theorem appended_frame_lookup (h1 : Heap) (S : Nat) (params : List String) (args : List Obj)
    (hS : S < h1.length) (hlinked : WellLinked h1 = true) :
    GetParentScope
        (defineAll (h1 ++ [{ parent_scope_ := some S, scope_objects_ := [] }]) h1.length
          params args) h1.length = some S ∧
    ∀ y, y ∉ params →
      AllContains
          (defineAll (h1 ++ [{ parent_scope_ := some S, scope_objects_ := [] }]) h1.length
            params args) h1.length y = AllContains h1 S y ∧
      AllResolveSymbol
          (defineAll (h1 ++ [{ parent_scope_ := some S, scope_objects_ := [] }]) h1.length
            params args) h1.length y = AllResolveSymbol h1 S y := by
  have hwf : ∀ s ∈ h1, ∀ p, s.parent_scope_ = some p → p < h1.length := by
    intro s hs p hp
    have := List.all_eq_true.mp hlinked s hs
    simpa [hp] using this
  generalize hH : h1 ++ [({ parent_scope_ := some S, scope_objects_ := [] } : Scope)] = H0
  have hfr := defineAll_frames params args H0 h1.length
  have hpar0 : GetParentScope H0 h1.length = some S := by
    rw [← hH]
    simp [GetParentScope]
  have hpar : GetParentScope (defineAll H0 h1.length params args) h1.length = some S := by
    rw [hfr.2, hpar0]
  refine ⟨hpar, ?_⟩
  intro y hy
  have hlen : (defineAll H0 h1.length params args).length = h1.length + 1 := by
    rw [length_defineAll, ← hH]
    simp
  have hagree : ∀ p, p < h1.length → (defineAll H0 h1.length params args)[p]? = h1[p]? := by
    intro p hp
    rw [hfr.1 p (by omega), ← hH, List.getElem?_append_left hp]
  have hcont : Contains (defineAll H0 h1.length params args) h1.length y = false := by
    rw [(lookup_defineAll_other y h1.length params args H0 h1.length hy).1, ← hH]
    simp [Contains]
  have hchain := chain_lookup_of_agree h1 (defineAll H0 h1.length params args) y hagree hwf
    h1.length S hS
  unfold AllContains AllResolveSymbol
  rw [hlen]
  simp [AllContainsAux, AllResolveSymbolAux, hcont, hpar, hchain.1, hchain.2]

/-- The frame allocated for a lambda expression that is applied where it stands, in
the heap `h1` left by the evaluation of the arguments: its parent is still the scope
`S` of the expression, and a lookup from it reads the frame itself and then goes on
as a lookup from `S`. -/
theorem inline_frame_lookup (n : Nat) (tail : Obj) (S : Nat) (h h1 : Heap)
    (params : List String) (args : List Obj)
    (hargs : ArgsToVector n [] tail "lambda" S
      (h ++ [{ parent_scope_ := some S, scope_objects_ := [] }]) = (.ok args, h1))
    (hS : S < h.length) (hord : ParentsFirst h1 = true) :
    GetParentScope (defineAll h1 h.length params args) h.length = some S ∧
    ∀ y,
      AllContains (defineAll h1 h.length params args) h.length y
        = (Contains (defineAll h1 h.length params args) h.length y || AllContains h1 S y) ∧
      AllResolveSymbol (defineAll h1 h.length params args) h.length y
        = (if Contains (defineAll h1 h.length params args) h.length y
            then .ok (ResolveSymbol (defineAll h1 h.length params args) h.length y)
            else AllResolveSymbol h1 S y) := by
  have hk := (keeps_Evaluate n).2 [] tail "lambda" S
    (h ++ [{ parent_scope_ := some S, scope_objects_ := [] }])
  rw [hargs] at hk
  simp only [List.length_append, List.length_singleton] at hk
  obtain ⟨hlen, hpp⟩ := hk
  have hfr := defineAll_frames params args h1 h.length
  have hpar : GetParentScope (defineAll h1 h.length params args) h.length = some S := by
    rw [hfr.2, hpp h.length (by omega)]
    simp [GetParentScope]
  refine ⟨hpar, fun y => ?_⟩
  obtain ⟨k, hk1⟩ : ∃ k, h1.length = k + 1 := ⟨h1.length - 1, by omega⟩
  have hbelow := lookup_below h1 (defineAll h1 h.length params args) y hord k S
    (fun p hp => hfr.1 p (by omega))
  have hst1 := lookup_stable h1 y hord S k (by omega)
  have hst2 := lookup_stable h1 y hord S (k + 1) (by omega)
  unfold AllContains AllResolveSymbol
  rw [length_defineAll, hk1]
  simp only [AllContainsAux, AllResolveSymbolAux, hpar, hbelow.1, hbelow.2]
  rw [hst1.1, hst1.2, ← hst2.1, ← hst2.2]
  cases hc : Contains (defineAll h1 h.length params args) h.length y <;> simp [AllContainsAux, AllResolveSymbolAux]

/-- Claim C15: a closure is applied by `Evaluate` in three ways, and in each the body
runs in a local frame whose parent is the scope `S` in which the closure was created
by `lambda`, so that its free variables are resolved through that frame and then
`S`, whatever the scope `caller` of the call.  (1) A call through a name `f` bound to
a closure factory created in `S` (`f` not one of `lambda`, `quote`, `define`,
`set!`) and (2) a call whose head is a compound other than a lambda expression that
evaluates to a closure factory created in `S`: the body runs in a new frame
appended to the heap `h1` left by the arguments, the parent of that frame is `S`,
and a name that is not a parameter is looked up from it exactly as it is looked up
from `S` in `h1`; here `S` and every parent pointer of `h1` are existing frames.
(3) A lambda expression applied where it stands, which creates the closure in the
scope `caller` itself: the frame is allocated before the arguments are evaluated,
its parent is still `caller` afterwards, and a lookup from it reads the frame
itself and then goes on as the lookup from `caller`; here every frame of `h1` was
allocated after its parent. -/
theorem closure_body_resolves_lexically (n : Nat) (tail : Obj) (caller : Nat)
    (params : List String) (es : List Obj) (args : List Obj) :
    (∀ (f : String) (h h1 : Heap) (S : Nat),
      (f ≠ "lambda" ∧ f ≠ "quote" ∧ f ≠ "define" ∧ f ≠ "set!") →
      ArgsToVector n [] tail f caller h = (.ok args, h1) →
      SymbolEval h1 caller f = .ok (.LambdaCreator S params es) →
      S < h1.length → WellLinked h1 = true →
        Evaluate (n + 1) (.Cell (.Symbol f) tail) caller h
          = EvalLambda (Evaluate n) (.Lambda h1.length params es) args
              (h1 ++ [{ parent_scope_ := some S, scope_objects_ := [] }]) ∧
        GetParentScope
            (defineAll (h1 ++ [{ parent_scope_ := some S, scope_objects_ := [] }]) h1.length
              params args) h1.length = some S ∧
        ∀ y, y ∉ params →
          AllContains
              (defineAll (h1 ++ [{ parent_scope_ := some S, scope_objects_ := [] }])
                h1.length params args) h1.length y = AllContains h1 S y ∧
          AllResolveSymbol
              (defineAll (h1 ++ [{ parent_scope_ := some S, scope_objects_ := [] }])
                h1.length params args) h1.length y = AllResolveSymbol h1 S y) ∧
    (∀ (hh : String) (ltail : Obj) (h h0 h1 : Heap) (S : Nat),
      hh ≠ "lambda" →
      Evaluate n (.Cell (.Symbol hh) ltail) caller h
        = (.ok (.LambdaCreator S params es), h0) →
      ArgsToVector n [] tail "lambda" caller h0 = (.ok args, h1) →
      S < h1.length → WellLinked h1 = true →
        Evaluate (n + 1) (.Cell (.Cell (.Symbol hh) ltail) tail) caller h
          = EvalLambda (Evaluate n) (.Lambda h1.length params es) args
              (h1 ++ [{ parent_scope_ := some S, scope_objects_ := [] }]) ∧
        GetParentScope
            (defineAll (h1 ++ [{ parent_scope_ := some S, scope_objects_ := [] }]) h1.length
              params args) h1.length = some S ∧
        ∀ y, y ∉ params →
          AllContains
              (defineAll (h1 ++ [{ parent_scope_ := some S, scope_objects_ := [] }])
                h1.length params args) h1.length y = AllContains h1 S y ∧
          AllResolveSymbol
              (defineAll (h1 ++ [{ parent_scope_ := some S, scope_objects_ := [] }])
                h1.length params args) h1.length y = AllResolveSymbol h1 S y) ∧
    (∀ (ltail : Obj) (h h1 : Heap),
      readLambda ltail = .ok (params, es) →
      ArgsToVector n [] tail "lambda" caller
        (h ++ [{ parent_scope_ := some caller, scope_objects_ := [] }]) = (.ok args, h1) →
      caller < h.length → ParentsFirst h1 = true →
        Evaluate (n + 1) (.Cell (.Cell (.Symbol "lambda") ltail) tail) caller h
          = EvalLambda (Evaluate n) (.Lambda h.length params es) args h1 ∧
        GetParentScope (defineAll h1 h.length params args) h.length = some caller ∧
        (∀ y,
          AllContains (defineAll h1 h.length params args) h.length y
            = (Contains (defineAll h1 h.length params args) h.length y
                || AllContains h1 caller y) ∧
          AllResolveSymbol (defineAll h1 h.length params args) h.length y
            = (if Contains (defineAll h1 h.length params args) h.length y
                then .ok (ResolveSymbol (defineAll h1 h.length params args) h.length y)
                else AllResolveSymbol h1 caller y)) ∧
        (∀ y, y ∉ params → Contains h1 h.length y = false →
          AllContains (defineAll h1 h.length params args) h.length y
            = AllContains h1 caller y ∧
          AllResolveSymbol (defineAll h1 h.length params args) h.length y
            = AllResolveSymbol h1 caller y)) := by
  refine ⟨?_, ?_, ?_⟩
  · intro f h h1 S hf hargs hlook hS hlinked
    have hcall : Evaluate (n + 1) (.Cell (.Symbol f) tail) caller h
        = EvalLambda (Evaluate n) (.Lambda h1.length params es) args
            (h1 ++ [{ parent_scope_ := some S, scope_objects_ := [] }]) := by
      rw [Evaluate_succ]
      simp [EvaluateBody, hf.1, hf.2.1, hf.2.2.1, hf.2.2.2, M.bind, hargs, withHeap, hlook,
        CreateLambda, newLambda]
    have hl := appended_frame_lookup h1 S params args hS hlinked
    exact ⟨hcall, hl.1, hl.2⟩
  · intro hh ltail h h0 h1 S hhh hhead hargs hS hlinked
    have hcall : Evaluate (n + 1) (.Cell (.Cell (.Symbol hh) ltail) tail) caller h
        = EvalLambda (Evaluate n) (.Lambda h1.length params es) args
            (h1 ++ [{ parent_scope_ := some S, scope_objects_ := [] }]) := by
      rw [Evaluate_succ]
      simp [EvaluateBody, hhh, M.bind, hhead, hargs, CreateLambda, newLambda]
    have hl := appended_frame_lookup h1 S params args hS hlinked
    exact ⟨hcall, hl.1, hl.2⟩
  · intro ltail h h1 hread hargs hS hord
    have hcall : Evaluate (n + 1) (.Cell (.Cell (.Symbol "lambda") ltail) tail) caller h
        = EvalLambda (Evaluate n) (.Lambda h.length params es) args h1 := by
      rw [Evaluate_succ]
      simp [EvaluateBody, hread, M.bind, newLambda, hargs]
    have hl := inline_frame_lookup n tail caller h h1 params args hargs hS hord
    refine ⟨hcall, hl.1, hl.2, ?_⟩
    intro y hy hempty
    have hc : Contains (defineAll h1 h.length params args) h.length y = false := by
      rw [(lookup_defineAll_other y h.length params args h1 h.length hy).1, hempty]
    have := hl.2 y
    rw [hc] at this
    simpa using this

/-- Claim C15 in the three kinds of call, each made from the body of `g` during
`(g 5)`, where the frame of the caller binds `x` to 5 and the global frame binds it
to 1.  The call `(f)` after `(define (f) x)`: `x` is looked up as from the global
scope and `(g 5)` returns 1.  The call `((mk))` after
`(define (mk) (lambda () x))`: the closure was created in the frame of `(mk)`, whose
parent is the global frame, and `(g 5)` returns 1.  The call `((lambda () x))`: the
closure is created in the frame of `g` and `(g 5)` returns 5. -/
theorem closure_body_resolves_lexically_witness :
    (AllResolveSymbol
        (defineAll (heapInG ++ [{ parent_scope_ := some 0, scope_objects_ := [] }])
          heapInG.length [] []) heapInG.length "x" = AllResolveSymbol heapInG 0 "x" ∧
      AllResolveSymbol heapInG 0 "x" = .ok (.Number 1) ∧
      AllResolveSymbol heapInG 1 "x" = .ok (.Number 5) ∧
      (RunAll 8 ["(define x 1)", "(define (f) x)", "(define (g x) (f))", "(g 5)"]
          Interpreter.new).1 = [.ok "()", .ok "()", .ok "()", .ok "1"]) ∧
    (AllResolveSymbol
        (defineAll
          (heapAfterMk ++ [{ parent_scope_ := some 2, scope_objects_ := [] }])
          heapAfterMk.length [] []) heapAfterMk.length "x"
        = AllResolveSymbol heapAfterMk 2 "x" ∧
      AllResolveSymbol heapAfterMk 2 "x" = .ok (.Number 1) ∧
      AllResolveSymbol heapAfterMk 1 "x" = .ok (.Number 5) ∧
      (RunAll 8 ["(define x 1)", "(define (mk) (lambda () x))", "(define (g x) ((mk)))",
          "(g 5)"] Interpreter.new).1 = [.ok "()", .ok "()", .ok "()", .ok "1"]) ∧
    (AllResolveSymbol
        (defineAll (heapInG ++ [{ parent_scope_ := some 1, scope_objects_ := [] }])
          heapInG.length [] []) heapInG.length "x"
        = AllResolveSymbol (heapInG ++ [{ parent_scope_ := some 1, scope_objects_ := [] }])
            1 "x" ∧
      AllResolveSymbol (heapInG ++ [{ parent_scope_ := some 1, scope_objects_ := [] }]) 1 "x"
        = .ok (.Number 5) ∧
      (RunAll 8 ["(define x 1)", "(define (g x) ((lambda () x)))", "(g 5)"]
          Interpreter.new).1 = [.ok "()", .ok "()", .ok "5"]) :=
  ⟨⟨(((closure_body_resolves_lexically 1 .null 1 [] [.Symbol "x"] []).1 "f" heapInG heapInG 0
        (by decide) (by decide!) (by decide!) (by decide!) (by decide!)).2.2 "x" (by simp)).2,
      by decide!, by decide!, by decide!⟩,
   ⟨(((closure_body_resolves_lexically 2 .null 1 [] [.Symbol "x"] []).2.1 "mk" .null heapInMk
        heapAfterMk heapAfterMk 2
        (by decide) (by decide!) (by decide!) (by decide!) (by decide!)).2.2 "x" (by simp)).2,
      by decide!, by decide!, by decide!⟩,
   ⟨(((closure_body_resolves_lexically 1 .null 1 [] [.Symbol "x"] []).2.2
        (.Cell .null (.Cell (.Symbol "x") .null)) heapInG
        (heapInG ++ [({ parent_scope_ := some 1, scope_objects_ := [] } : Scope)])
        (by decide!) (by decide!) (by decide!) (by decide!)).2.2.2 "x" (by simp)
        (by decide!)).2,
      by decide!, by decide!⟩⟩

/-! ## Quoting a parsed text -/

theorem ReadConstantToken_fresh (inp : List Char) (tok tok2 : Token) (e : Bool)
    (pre : List Char) (T : Tokenizer) (hN : ReadConstantToken ⟨inp, tok, e⟩ pre = .ok T) :
    ReadConstantToken ⟨inp, tok2, e⟩ pre = .ok T ∧ T.in_.length ≤ inp.length ∧
      (∀ c r, inp = c :: r → isdigit c = true → T.in_.length < inp.length) := by
  unfold ReadConstantToken at hN ⊢
  simp only at hN ⊢
  cases hst : stoi (pre ++ inp.takeWhile isdigit) with
  | error err => simp [hst] at hN
  | ok v =>
      simp only [hst] at hN ⊢
      injection hN with hN
      subst hN
      refine ⟨rfl, (List.dropWhile_sublist isdigit).length_le, ?_⟩
      intro c r hcr hc
      subst hcr
      have : (r.dropWhile isdigit).length ≤ r.length := (List.dropWhile_sublist isdigit).length_le
      simp [List.dropWhile, hc]
      omega

theorem ReadSymbolOrBooleanToken_fresh (inp : List Char) (tok tok2 : Token) (e : Bool)
    (pre : List Char) :
    ReadSymbolOrBooleanToken ⟨inp, tok, e⟩ pre = ReadSymbolOrBooleanToken ⟨inp, tok2, e⟩ pre ∧
    (ReadSymbolOrBooleanToken ⟨inp, tok, e⟩ pre).in_
      = inp.dropWhile (fun c => kSymbolTokenChars.contains c) := by
  unfold ReadSymbolOrBooleanToken
  simp only
  split <;> (try split) <;> simp

/-- A token that was read depends on the input only: the token held before does
not matter, and the input got shorter. -/
theorem Next_fresh (cs : List Char) (tok tok2 : Token) (e : Bool) (T : Tokenizer)
    (hN : Next ⟨cs, tok, e⟩ = .ok T) (hne : T.is_end_ = false) :
    Next ⟨cs, tok2, e⟩ = .ok T ∧ T.in_.length < cs.length := by
  have hle : (cs.dropWhile isSkipped).length ≤ cs.length :=
    (List.dropWhile_sublist isSkipped).length_le
  unfold Next at hN ⊢
  simp only at hN ⊢
  cases hds : cs.dropWhile isSkipped with
  | nil =>
      simp only [hds] at hN
      injection hN with hN
      subst hN
      simp at hne
  | cons c rest =>
      rw [hds] at hle
      simp only [List.length_cons] at hle
      simp only [hds] at hN ⊢
      have plain : ∀ (tk : Token → Tokenizer), (∀ t, (tk t).in_ = rest) → tk tok = tk tok2 →
          (Except.ok (tk tok) : Except Err Tokenizer) = Except.ok T →
          (Except.ok (tk tok2) : Except Err Tokenizer) = Except.ok T ∧
            T.in_.length < cs.length := by
        intro tk hin heq hT
        injection hT with hT
        subst hT
        exact ⟨by rw [heq], by rw [hin]; omega⟩
      by_cases h1 : isdigit c = true
      · simp only [h1, if_true] at hN ⊢
        have := ReadConstantToken_fresh (c :: rest) tok tok2 e [] T hN
        exact ⟨this.1, by have := this.2.2 c rest rfl h1; simp at this; omega⟩
      simp only [h1, Bool.false_eq_true, if_false] at hN ⊢
      by_cases h2 : c = '('
      · simp only [h2, if_true] at hN ⊢
        exact plain (fun _ => ⟨rest, Token.BracketToken .OPEN, e⟩) (fun _ => rfl) rfl hN
      simp only [h2, if_false] at hN ⊢
      by_cases h3 : c = ')'
      · simp only [h3, if_true] at hN ⊢
        exact plain (fun _ => ⟨rest, Token.BracketToken .CLOSE, e⟩) (fun _ => rfl) rfl hN
      simp only [h3, if_false] at hN ⊢
      by_cases h4 : c = '.'
      · simp only [h4, if_true] at hN ⊢
        exact plain (fun _ => ⟨rest, Token.DotToken, e⟩) (fun _ => rfl) rfl hN
      simp only [h4, if_false] at hN ⊢
      by_cases h5 : c = '\''
      · simp only [h5, if_true] at hN ⊢
        exact plain (fun _ => ⟨rest, Token.QuoteToken, e⟩) (fun _ => rfl) rfl hN
      simp only [h5, if_false] at hN ⊢
      by_cases h6 : kSymbolTokenStartChars.contains c = true
      · simp only [h6, if_true] at hN ⊢
        injection hN with hN
        have hf := ReadSymbolOrBooleanToken_fresh (c :: rest) tok tok2 e []
        have hsym : kSymbolTokenChars.contains c = true :=
          (startChar_facts c (by simpa using h6)).2.2.2.2.2.2.2.2
        rw [← hf.1, hN]
        refine ⟨rfl, ?_⟩
        rw [← hN, hf.2]
        have : (rest.dropWhile (fun c => kSymbolTokenChars.contains c)).length ≤ rest.length :=
          (List.dropWhile_sublist _).length_le
        simp only [List.dropWhile, hsym]
        omega
      simp only [h6, Bool.false_eq_true, if_false] at hN ⊢
      cases rest with
      | nil =>
          by_cases h7 : c = '+'
          · simp only [h7, if_true] at hN ⊢
            exact plain (fun _ => ⟨[], Token.SymbolToken "+", e⟩) (fun _ => rfl) rfl hN
          simp only [h7, if_false] at hN ⊢
          by_cases h8 : c = '-'
          · simp only [h8, if_true] at hN ⊢
            exact plain (fun _ => ⟨[], Token.SymbolToken "-", e⟩) (fun _ => rfl) rfl hN
          simp [h8] at hN
      | cons d ds =>
          have signed : ∀ (sg : Char) (nm : String),
              (if isdigit d = true then ReadConstantToken ⟨d :: ds, tok, e⟩ [sg]
                else .ok ⟨d :: ds, Token.SymbolToken nm, e⟩) = (Except.ok T : Except Err Tokenizer) →
              (if isdigit d = true then ReadConstantToken ⟨d :: ds, tok2, e⟩ [sg]
                else .ok ⟨d :: ds, Token.SymbolToken nm, e⟩) = (Except.ok T : Except Err Tokenizer) ∧
              T.in_.length < cs.length := by
            intro sg nm hT
            by_cases hd : isdigit d = true
            · simp only [hd, if_true] at hT ⊢
              have := ReadConstantToken_fresh (d :: ds) tok tok2 e [sg] T hT
              exact ⟨this.1, by have := this.2.1; omega⟩
            · simp only [hd, Bool.false_eq_true, if_false] at hT ⊢
              exact plain (fun _ => ⟨d :: ds, Token.SymbolToken nm, e⟩) (fun _ => rfl) rfl hT
          by_cases h7 : c = '+'
          · simp only [h7, if_true] at hN ⊢
            exact signed '+' "+" hN
          simp only [h7, if_false] at hN ⊢
          by_cases h8 : c = '-'
          · simp only [h8, if_true] at hN ⊢
            exact signed '-' "-" hN
          simp [h8] at hN

/-- A finished reading finishes the same with one more unit of fuel. -/
theorem Read_fuel_succ : ∀ n : Nat,
    (∀ tk r, ReadInner n tk = .ok r → ReadInner (n + 1) tk = .ok r) ∧
    (∀ tk acc r, ReadList n tk acc = .ok r → ReadList (n + 1) tk acc = .ok r)
  | 0 => by
      constructor
      · intro tk r hr
        simp [ReadInner] at hr
      · intro tk acc r hr
        simp [ReadList] at hr
  | n + 1 => by
      have ih := Read_fuel_succ n
      constructor
      · intro tk r hr
        rw [ReadInner_succ] at hr ⊢
        cases he : tk.is_end_ with
        | true => simp [he] at hr
        | false =>
            simp only [he, Bool.false_eq_true, if_false] at hr ⊢
            cases hN : Next tk with
            | error err => simp [hN] at hr
            | ok tk1 =>
                simp only [hN] at hr ⊢
                cases htok : tk.token_ with
                | ConstantToken v => simpa [htok] using hr
                | SymbolToken s => simpa [htok] using hr
                | BooleanToken b => simpa [htok] using hr
                | DotToken => simpa [htok] using hr
                | BracketToken b =>
                    cases b with
                    | OPEN =>
                        simp only [htok] at hr ⊢
                        exact ih.2 _ _ _ hr
                    | CLOSE => simp [htok] at hr
                | QuoteToken =>
                    simp only [htok] at hr ⊢
                    cases he1 : tk1.is_end_ with
                    | true => simp [he1] at hr
                    | false =>
                        simp only [he1, Bool.false_eq_true, if_false] at hr ⊢
                        cases hR : ReadInner n tk1 with
                        | error err => simp [hR] at hr
                        | ok p =>
                            rw [ih.1 tk1 p hR]
                            simp only [hR] at hr
                            exact hr
      · intro tk acc r hr
        rw [ReadList_succ] at hr ⊢
        cases he : tk.is_end_ with
        | true => simp [he] at hr
        | false =>
            simp only [he, Bool.false_eq_true, if_false] at hr ⊢
            by_cases hc : tk.token_ = Token.BracketToken .CLOSE
            · simp only [hc, if_true] at hr ⊢
              exact hr
            · simp only [hc, if_false] at hr ⊢
              cases hR : ReadInner n tk with
              | error err => simp [hR] at hr
              | ok p =>
                  have hR1 := ih.1 tk p hR
                  obtain ⟨sh_ptr, tk1⟩ := p
                  rw [hR1]
                  simp only [hR] at hr
                  simp only
                  by_cases hdot : sh_ptr = Obj.Symbol "."
                  · simp only [hdot, if_true] at hr ⊢
                    by_cases hcond : (acc.isEmpty || tk1.is_end_) = true
                    · simp [hcond] at hr
                    · simp only [hcond, Bool.false_eq_true, if_false] at hr ⊢
                      cases hR2 : ReadInner n tk1 with
                      | error err => simp [hR2] at hr
                      | ok p2 =>
                          rw [ih.1 tk1 p2 hR2]
                          simp only [hR2] at hr
                          exact hr
                  · simp only [hdot, if_false] at hr ⊢
                    exact ih.2 _ _ _ hr

theorem ReadInner_fuel_mono {n m : Nat} (hnm : n ≤ m) (tk : Tokenizer) (r : Obj × Tokenizer)
    (hr : ReadInner n tk = .ok r) : ReadInner m tk = .ok r := by
  induction m with
  | zero =>
      have : n = 0 := by omega
      subst this
      exact hr
  | succ m ih =>
      rcases Nat.lt_or_ge n (m + 1) with hlt | hge
      · exact (Read_fuel_succ m).1 tk r (ih (by omega))
      · have : n = m + 1 := by omega
        subst this
        exact hr

theorem streamOf_quote (t : String) : streamOf ("'" ++ t) = '\'' :: streamOf t := by
  have h0 : ('\'' : Char) ≠ Char.ofNat 0 := by decide
  simp [streamOf, String.data_append, List.takeWhile, h0]

/-- Reading a quote mark followed by a text that the reader parses. -/
theorem Read_quoted (cs : List Char) (T : Tokenizer) (d : Obj)
    (hT : Tokenizer.new cs = .ok T) (hR : Read T = .ok d) :
    Tokenizer.new ('\'' :: cs) = .ok ⟨cs, Token.QuoteToken, false⟩ ∧
    Read ⟨cs, Token.QuoteToken, false⟩
      = .ok (quoteForm d) := by
  refine ⟨Next_quote cs _ false, ?_⟩
  unfold Read at hR
  cases hRI : ReadInner (2 * T.in_.length + 4) T with
  | error err => simp [hRI] at hR
  | ok p =>
      obtain ⟨obj, tk⟩ := p
      simp only [hRI] at hR
      have hend : tk.is_end_ = true := by
        by_cases he : tk.is_end_ = true
        · exact he
        · simp [he] at hR
      have hobj : obj = d := by simpa [hend] using hR
      subst hobj
      have hne : T.is_end_ = false := by
        by_cases he : T.is_end_ = true
        · rw [show 2 * T.in_.length + 4 = (2 * T.in_.length + 3) + 1 from rfl, ReadInner_succ] at hRI
          simp [he] at hRI
        · simpa using he
      have hfresh := Next_fresh cs (Token.ConstantToken 0) Token.QuoteToken false T hT hne
      have hmono := ReadInner_fuel_mono (show 2 * T.in_.length + 4 ≤ 2 * cs.length + 3 by
        have := hfresh.2; omega) T (obj, tk) hRI
      unfold Read
      simp only
      rw [show 2 * cs.length + 4 = (2 * cs.length + 3) + 1 from rfl, ReadInner_succ]
      simp only [Bool.false_eq_true, if_false, hfresh.1, hne, hmono]
      cases obj <;> simp [hend, quoteForm]

/-- Claim C18: for every text `t` that the reader parses to a datum `d` (the
tokenizer starts on the stream of `t` and `Read` returns `d`), the text made of a
quote mark followed by `t` is parsed too, and evaluating what was read, in any scope
of any interpreter state, returns exactly `d` and leaves the scopes as they are:
`d` is not evaluated; so the run of that text prints `d`.  Evaluating `(quote)`,
whose tail is empty, returns the empty list. -/
theorem quote_returns_parsed_datum (t : String) (T : Tokenizer) (d : Obj)
    (hT : Tokenizer.new (streamOf t) = .ok T) (hR : Read T = .ok d) :
    (∃ T2 ast, Tokenizer.new (streamOf ("'" ++ t)) = .ok T2 ∧ Read T2 = .ok ast ∧
      ∀ n scope h, Evaluate (n + 1) ast scope h = (.ok d, h)) ∧
    (∀ n h, Run (n + 1) ("'" ++ t) h = (Serialize d, h)) ∧
    (∀ n scope h, Evaluate (n + 1) (.Cell (.Symbol "quote") .null) scope h = (.ok .null, h)) := by
  have hq := Read_quoted (streamOf t) T d hT hR
  have hev : ∀ n scope h, Evaluate (n + 1) (quoteForm d) scope h = (.ok d, h) := by
    intro n scope h
    have e1 : Evaluate (n + 1) = EvaluateBody (Evaluate n) (ArgsToVector n) := rfl
    rw [e1]
    cases d <;> simp [quoteForm, EvaluateBody] <;> rfl
  refine ⟨⟨_, _, ?_, hq.2, hev⟩, ?_, ?_⟩
  · rw [streamOf_quote]
    exact hq.1
  · intro n h
    unfold Run
    rw [streamOf_quote, hq.1]
    simp only [hq.2, hev]
  · intro n scope h
    have e1 : Evaluate (n + 1) = EvaluateBody (Evaluate n) (ArgsToVector n) := rfl
    rw [e1]
    simp [EvaluateBody]
    rfl

/-- Claim C18 at the text `()`, which the reader parses to the empty list: the text
`'()` is read, and evaluating it returns the empty list; the runs of `'()`, of
`'(a . 2)` and of `(quote)` print `()`, `(a . 2)` and `()`. -/
theorem quote_returns_parsed_datum_witness :
    (∃ T2 ast, Tokenizer.new (streamOf ("'" ++ "()")) = .ok T2 ∧ Read T2 = .ok ast ∧
      ∀ n scope h, Evaluate (n + 1) ast scope h = (.ok .null, h)) ∧
    (RunAll 2 ["'()", "'(a . 2)", "(quote)"] Interpreter.new).1
      = [.ok "()", .ok "(a . 2)", .ok "()"] :=
  ⟨(quote_returns_parsed_datum "()" ⟨[')'], Token.BracketToken .OPEN, false⟩ .null
      (by rfl) (by decide!)).1, by decide!⟩

/-! ## Comparisons -/

theorem adjacentAll_iff_chain (r : Int → Int → Bool) :
    ∀ xs : List Int, adjacentAll r xs = true ↔ List.Chain' (fun a b => r a b = true) xs
  | [] => by simp [adjacentAll]
  | [a] => by simp [adjacentAll]
  | a :: b :: rest => by
      have ih := adjacentAll_iff_chain r (b :: rest)
      simp only [adjacentAll, Bool.and_eq_true, List.chain'_cons, ih]

theorem ApplyCompare_map (r : Int → Int → Bool) (xs : List Int) :
    ApplyCompare r (xs.map Obj.Number) = .ok (Obj.Boolean (adjacentAll r xs)) := by
  simp [ApplyCompare, ASSERT_ALL_NUMBERS_map]

theorem ApplyCompare_error (r : Int → Int → Bool) (objects : List Obj)
    (h : ∃ o ∈ objects, o.isNumber = false) :
    ApplyCompare r objects = .error Err.RuntimeError := by
  simp [ApplyCompare, ASSERT_ALL_NUMBERS_error objects h]

/-- Claim C21: for each of the built-ins `=`, `<`, `>`, `<=`, `>=` and every vector
`xs` of integers, `Apply` returns a Boolean that is `#t` if and only if the relation
holds for every adjacent pair of `xs` (so it is `#t` on no argument and on one
argument); when some argument is not an integer it raises `RuntimeError`, whatever
the other arguments are. -/
theorem comparison_of_integers (ev : Obj → Nat → M Obj) (scope : Nat) (h : Heap)
    (xs : List Int) :
    (∃ b, Apply ev .Equal scope (xs.map Obj.Number) h = (.ok (.Boolean b), h) ∧
      (b = true ↔ List.Chain' (fun x y => x = y) xs)) ∧
    (∃ b, Apply ev .Less scope (xs.map Obj.Number) h = (.ok (.Boolean b), h) ∧
      (b = true ↔ List.Chain' (fun x y => x < y) xs)) ∧
    (∃ b, Apply ev .Greater scope (xs.map Obj.Number) h = (.ok (.Boolean b), h) ∧
      (b = true ↔ List.Chain' (fun x y => x > y) xs)) ∧
    (∃ b, Apply ev .LessOrEqual scope (xs.map Obj.Number) h = (.ok (.Boolean b), h) ∧
      (b = true ↔ List.Chain' (fun x y => x ≤ y) xs)) ∧
    (∃ b, Apply ev .GreaterOrEqual scope (xs.map Obj.Number) h = (.ok (.Boolean b), h) ∧
      (b = true ↔ List.Chain' (fun x y => x ≥ y) xs)) ∧
    (∀ f ∈ [Func.Equal, Func.Less, Func.Greater, Func.LessOrEqual, Func.GreaterOrEqual],
      Apply ev f scope [] h = (.ok (.Boolean true), h) ∧
      (∀ x : Int, Apply ev f scope [.Number x] h = (.ok (.Boolean true), h)) ∧
      ∀ objects : List Obj, (∃ o ∈ objects, o.isNumber = false) →
        Apply ev f scope objects h = (.error Err.RuntimeError, h)) := by
  have key : ∀ r : Int → Int → Bool,
      ∃ b, liftE (ApplyCompare r (xs.map Obj.Number)) h = (.ok (.Boolean b), h) ∧
        (b = true ↔ List.Chain' (fun x y => r x y = true) xs) := by
    intro r
    exact ⟨adjacentAll r xs, by rw [ApplyCompare_map]; rfl, adjacentAll_iff_chain r xs⟩
  refine ⟨?_, ?_, ?_, ?_, ?_, ?_⟩
  · simpa [Apply] using key (fun a b => decide (a = b))
  · simpa [Apply] using key (fun a b => decide (a < b))
  · simpa [Apply] using key (fun a b => decide (a > b))
  · simpa [Apply] using key (fun a b => decide (a ≤ b))
  · simpa [Apply] using key (fun a b => decide (a ≥ b))
  · intro f hf
    simp only [List.mem_cons, List.mem_singleton, List.not_mem_nil, or_false] at hf
    rcases hf with rfl | rfl | rfl | rfl | rfl <;>
      refine ⟨rfl, fun x => rfl, fun objects hne => ?_⟩ <;>
      simp [Apply, liftE, ApplyCompare_error _ objects hne]

/-- Claim C21 at the vectors `1 2 3`, `1 3 2` and `2 1 #t` of `<`. -/
theorem comparison_of_integers_witness :
    Apply (Evaluate 0) .Less 0 [.Number 1, .Number 2, .Number 3] Interpreter.new
      = (.ok (.Boolean true), Interpreter.new) ∧
    Apply (Evaluate 0) .Less 0 [.Number 1, .Number 3, .Number 2] Interpreter.new
      = (.ok (.Boolean false), Interpreter.new) ∧
    Apply (Evaluate 0) .Less 0 [.Number 2, .Number 1, .Boolean true] Interpreter.new
      = (.error Err.RuntimeError, Interpreter.new) :=
  ⟨by decide!, by decide!,
   ((comparison_of_integers (Evaluate 0) 0 Interpreter.new []).2.2.2.2.2 Func.Less
      (by simp)).2.2 [.Number 2, .Number 1, .Boolean true] ⟨.Boolean true, by simp, rfl⟩⟩

/-! ## Pairs -/

/-- Claim C22: for all values `a` and `b`, `cons` on the vector `a b` returns a cell
on which `car` returns `a` and `cdr` returns `b`; `car` and `cdr` on the empty list
or on any value that is not a cell raise `RuntimeError`; `cons` on a vector whose
length is not 2 raises `RuntimeError`. -/
theorem cons_car_cdr (ev : Obj → Nat → M Obj) (scope : Nat) (h : Heap) :
    (∀ a b : Obj, ∃ c, Apply ev .Cons scope [a, b] h = (.ok c, h) ∧
      Apply ev .Car scope [c] h = (.ok a, h) ∧ Apply ev .Cdr scope [c] h = (.ok b, h)) ∧
    (∀ v : Obj, v.isCell = false →
      Apply ev .Car scope [v] h = (.error Err.RuntimeError, h) ∧
      Apply ev .Cdr scope [v] h = (.error Err.RuntimeError, h)) ∧
    (∀ objects : List Obj, objects.length ≠ 2 →
      Apply ev .Cons scope objects h = (.error Err.RuntimeError, h)) := by
  refine ⟨fun a b => ⟨.Cell a b, rfl, rfl, rfl⟩, ?_, ?_⟩
  · intro v hv
    cases v <;> simp [Obj.isCell] at hv <;> exact ⟨rfl, rfl⟩
  · intro objects hlen
    match objects, hlen with
    | [], _ => rfl
    | [_], _ => rfl
    | [_, _], hl => simp at hl
    | _ :: _ :: _ :: _, _ => rfl

/-- Claim C22 at `(cons 1 2)`, at `car` of the empty list and of 5, and at `cons` of
one argument. -/
theorem cons_car_cdr_witness :
    Apply (Evaluate 0) .Car 0 [.null] Interpreter.new
      = (.error Err.RuntimeError, Interpreter.new) ∧
    Apply (Evaluate 0) .Cdr 0 [.Number 5] Interpreter.new
      = (.error Err.RuntimeError, Interpreter.new) ∧
    Apply (Evaluate 0) .Cons 0 [.Number 1] Interpreter.new
      = (.error Err.RuntimeError, Interpreter.new) ∧
    (RunAll 10 ["(car (cons 1 2))", "(cdr (cons 1 2))"] Interpreter.new).1
      = [.ok "1", .ok "2"] :=
  ⟨((cons_car_cdr (Evaluate 0) 0 Interpreter.new).2.1 .null rfl).1,
   ((cons_car_cdr (Evaluate 0) 0 Interpreter.new).2.1 (.Number 5) rfl).2,
   (cons_car_cdr (Evaluate 0) 0 Interpreter.new).2.2 [.Number 1] (by simp), by decide!⟩
/-! ## Positions in a list -/

theorem toSizeT_of_nonneg {k : Int} (hk0 : 0 ≤ k) (hk : IsInt64 k) : toSizeT k = k.toNat := by
  unfold IsInt64 at hk
  unfold toSizeT
  congr 1
  omega

theorem toSizeT_of_neg {k : Int} (hk0 : k < 0) (hk : IsInt64 k) : 2 ^ 63 ≤ toSizeT k := by
  unfold IsInt64 at hk
  unfold toSizeT
  have h1 : k % 2 ^ 64 = k + 2 ^ 64 := by omega
  rw [h1]
  omega

theorem ListTailLoop_mkChain : ∀ (k : Nat) (xs : List Obj),
    ListTailLoop (mkChain xs .null) k
      = if k ≤ xs.length then .ok (mkChain (xs.drop k) .null) else .error Err.RuntimeError
  | 0, xs => by simp [ListTailLoop]
  | k + 1, [] => by simp [mkChain, ListTailLoop]
  | k + 1, x :: xs => by
      have ih := ListTailLoop_mkChain k xs
      have hm : mkChain (x :: xs) .null = .Cell x (mkChain xs .null) := rfl
      rw [hm, ListTailLoop, ih]
      simp

theorem ListRefLoop_mkChain : ∀ (k : Nat) (x : Obj) (xs : List Obj),
    ListRefLoop (mkChain (x :: xs) .null) k
      = match (x :: xs)[k]? with
        | some e => .ok e
        | none => .error Err.RuntimeError
  | 0, x, xs => by
      have hm : mkChain (x :: xs) .null = .Cell x (mkChain xs .null) := rfl
      rw [hm, ListRefLoop]
      simp
  | k + 1, x, [] => by
      have hm : mkChain [x] .null = .Cell x .null := rfl
      rw [hm, ListRefLoop]
      simp
  | k + 1, x, y :: ys => by
      have ih := ListRefLoop_mkChain k y ys
      have hm : mkChain (x :: y :: ys) .null = .Cell x (.Cell y (mkChain ys .null)) := rfl
      have hm2 : mkChain (y :: ys) .null = .Cell y (mkChain ys .null) := rfl
      rw [hm2] at ih
      rw [hm, ListRefLoop, ih]
      · simp
      · intro hcontra
        cases hcontra

/-- Claim C23, evaluated at the failing input.  On the empty list and the index 0
`ListRef::Apply` skips its loop and reads the first slot through a null pointer
(`Err.Undefined`), where the claim gives `RuntimeError`; so does the run of
`(list-ref (list) 0)`.  On every non-empty proper list `l` of length `n` (less than
2^63) and every 64-bit integer `i` the claim holds: the element at position `i` is
returned when `0 <= i < n`, and `RuntimeError` is raised when `i` is negative or
`i >= n`; it is also raised on the empty list for every `i` other than 0. -/
theorem list_ref_of_empty_list :
    ApplyListRef [.null, .Number 0] = .error Err.Undefined ∧
    (Run 6 "(list-ref (list) 0)" Interpreter.new).1 = .error Err.Undefined ∧
    (∀ (x : Obj) (xs : List Obj) (i : Int), IsInt64 i → (x :: xs).length < 2 ^ 63 →
      (∀ e, 0 ≤ i → (x :: xs)[i.toNat]? = some e →
        ApplyListRef [mkChain (x :: xs) .null, .Number i] = .ok e) ∧
      ((i < 0 ∨ ((x :: xs).length : Int) ≤ i) →
        ApplyListRef [mkChain (x :: xs) .null, .Number i] = .error Err.RuntimeError)) ∧
    (∀ i : Int, IsInt64 i → i ≠ 0 →
      ApplyListRef [.null, .Number i] = .error Err.RuntimeError) := by
  refine ⟨rfl, by decide!, ?_, ?_⟩
  · intro x xs i hi hlen
    constructor
    · intro e h0 he
      simp only [ApplyListRef]
      rw [toSizeT_of_nonneg h0 hi, ListRefLoop_mkChain, he]
    · intro hout
      simp only [ApplyListRef]
      rw [ListRefLoop_mkChain]
      have hnone : (x :: xs)[toSizeT i]? = none := by
        rw [List.getElem?_eq_none_iff]
        rcases hout with hneg | hge
        · have := toSizeT_of_neg hneg hi
          omega
        · have h0 : 0 ≤ i := by omega
          rw [toSizeT_of_nonneg h0 hi]
          omega
      rw [hnone]
  · intro i hi hne
    simp only [ApplyListRef]
    have hpos : ∃ k, toSizeT i = k + 1 := by
      rcases lt_or_gt_of_ne hne with hneg | hpos
      · have := toSizeT_of_neg hneg hi
        exact ⟨toSizeT i - 1, by omega⟩
      · have h0 : 0 ≤ i := by omega
        rw [toSizeT_of_nonneg h0 hi]
        exact ⟨i.toNat - 1, by omega⟩
    obtain ⟨k, hk⟩ := hpos
    rw [hk]
    rfl

/-- Claim C24: for every proper list `l` of length `n` and every 64-bit integer `k`
with `0 <= k <= n`, `ListTail::Apply` returns the list of the elements of `l` after
the first `k`, which is the empty list when `k = n`; for every `k > n` it raises
`RuntimeError`. -/
theorem list_tail_of_proper_list (xs : List Obj) (k : Int) (hk0 : 0 ≤ k) (hk : IsInt64 k) :
    (k ≤ xs.length →
      ApplyListTail [mkChain xs .null, .Number k] = .ok (mkChain (xs.drop k.toNat) .null)) ∧
    (k = xs.length → ApplyListTail [mkChain xs .null, .Number k] = .ok .null) ∧
    ((xs.length : Int) < k →
      ApplyListTail [mkChain xs .null, .Number k] = .error Err.RuntimeError) := by
  have hloop : ApplyListTail [mkChain xs .null, .Number k]
      = if k.toNat ≤ xs.length then .ok (mkChain (xs.drop k.toNat) .null)
        else .error Err.RuntimeError := by
    simp only [ApplyListTail]
    rw [toSizeT_of_nonneg hk0 hk, ListTailLoop_mkChain]
  refine ⟨?_, ?_, ?_⟩
  · intro hle
    rw [hloop, if_pos (by omega)]
  · intro heq
    have h1 : k.toNat = xs.length := by omega
    rw [hloop, if_pos (by omega), h1, List.drop_length]
    rfl
  · intro hgt
    rw [hloop, if_neg (by omega)]

/-- Claim C24 at the list `(1 2 3)`: dropping 1 gives `(2 3)`, dropping 3 gives the
empty list, dropping 4 raises `RuntimeError`. -/
theorem list_tail_of_proper_list_witness :
    ApplyListTail [mkChain [.Number 1, .Number 2, .Number 3] .null, .Number 1]
      = .ok (mkChain [.Number 2, .Number 3] .null) ∧
    ApplyListTail [mkChain [.Number 1, .Number 2, .Number 3] .null, .Number 3] = .ok .null ∧
    ApplyListTail [mkChain [.Number 1, .Number 2, .Number 3] .null, .Number 4]
      = .error Err.RuntimeError :=
  ⟨(list_tail_of_proper_list [.Number 1, .Number 2, .Number 3] 1 (by decide)
      (by unfold IsInt64; decide)).1 (by decide),
   (list_tail_of_proper_list [.Number 1, .Number 2, .Number 3] 3 (by decide)
      (by unfold IsInt64; decide)).2.1 (by decide),
   (list_tail_of_proper_list [.Number 1, .Number 2, .Number 3] 4 (by decide)
      (by unfold IsInt64; decide)).2.2 (by decide)⟩
/-! ## The predicate `pair?` -/

theorem IsPairLoop_mkChain : ∀ (xs : List Obj) (size : Nat), (∀ e ∈ xs, e ≠ Obj.null) →
    IsPairLoop (mkChain xs .null) size = .ok (size + xs.length)
  | [], size, _ => by simp [mkChain, IsPairLoop]
  | x :: xs, size, hx => by
      have hm : mkChain (x :: xs) .null = .Cell x (mkChain xs .null) := rfl
      have hx0 : x.isNull = false := by
        have := hx x (List.mem_cons_self _ _)
        cases x <;> simp [Obj.isNull] at this ⊢
      rw [hm, IsPairLoop, hx0]
      simp only [Bool.false_eq_true, if_false]
      rw [IsPairLoop_mkChain xs (size + 1) (fun e he => hx e (List.mem_cons_of_mem _ he))]
      simp only [List.length_cons]
      congr 1
      omega

/-- Claim C25 fails on the code: the dotted pair `(() . 1)`, whose second slot is an
integer, reports false, because a first slot that is empty is not counted; so does
the run of `(pair? (cons (list) 1))`. -/
theorem pair_with_empty_car_is_no_pair :
    ApplyIsPair [.Cell .null (.Number 1)] = .ok (.Boolean false) ∧
    (Run 10 "(pair? (cons (list) 1))" Interpreter.new).1 = .ok "#f" := by
  decide!

/-- Claim C25 as amended: `pair?` counts elements along the chain of second slots.
For every proper list `l` whose elements are not the empty list, `pair?` of `l` is
`#t` if and only if `l` has exactly 2 elements; for every dotted pair `(a . b)` with
`a` not the empty list and `b` an integer or a Boolean, `pair?` is `#t`.  So `(a b)`
and `(a . b)` report true while `()`, `(a)` and `(a b c)` report false. -/
theorem pair_counts_elements (ev : Obj → Nat → M Obj) (scope : Nat) (h : Heap) :
    (∀ xs : List Obj, (∀ e ∈ xs, e ≠ Obj.null) →
      ∃ r, Apply ev .IsPair scope [mkChain xs .null] h = (.ok (.Boolean r), h) ∧
        (r = true ↔ xs.length = 2)) ∧
    (∀ a b : Obj, a ≠ Obj.null → (b.isNumber = true ∨ b.isBoolean = true) →
      Apply ev .IsPair scope [.Cell a b] h = (.ok (.Boolean true), h)) := by
  constructor
  · intro xs hxs
    refine ⟨decide (xs.length = 2), ?_, by simp⟩
    simp [Apply, liftE, ApplyIsPair, IsPairLoop_mkChain xs 0 hxs]
  · intro a b ha hb
    have ha0 : a.isNull = false := by
      cases a <;> simp [Obj.isNull] at ha ⊢
    cases b <;> simp [Obj.isNumber, Obj.isBoolean] at hb <;>
      simp [Apply, liftE, ApplyIsPair, IsPairLoop, ha0]

/-- Claim C25 as amended, at the values `(1 2)`, `(1 . 2)`, `()`, `(1)` and
`(1 2 3)`. -/
theorem pair_counts_elements_witness :
    Apply (Evaluate 0) .IsPair 0 [.Cell (.Number 1) (.Number 2)] Interpreter.new
      = (.ok (.Boolean true), Interpreter.new) ∧
    (RunAll 6 ["(pair? '(1 2))", "(pair? '(1 . 2))", "(pair? '())", "(pair? '(1))",
        "(pair? '(1 2 3))"] Interpreter.new).1
      = [.ok "#t", .ok "#t", .ok "#f", .ok "#f", .ok "#f"] :=
  ⟨(pair_counts_elements (Evaluate 0) 0 Interpreter.new).2 (.Number 1) (.Number 2)
      (by simp) (Or.inl rfl), by decide!⟩
/-! ## The format of the printer -/

/-- The printer succeeds on every printable chain, with and without parentheses. -/
theorem printable_prints : ∀ (v : Obj), printable v = true →
    ∀ p, ∃ s, StringifyImpl v p = .ok s
  | .Cell a b, hv, p => by
      simp only [printable, Bool.and_eq_true, Bool.or_eq_true, Bool.not_eq_true'] at hv
      obtain ⟨ha, hb⟩ := hv
      have hhead : ∃ sa, (if a.isCell then StringifyImpl a true
            else (atomStringify a).getD (.error Err.Undefined)) = .ok sa := by
        rcases ha with ((ha | ha) | ha) | ⟨hc, hpa⟩
        · cases a <;> simp [Obj.isNumber] at ha
          simp [Obj.isCell, atomStringify]
        · cases a <;> simp [Obj.isBoolean] at ha
          simp [Obj.isCell, atomStringify]
        · cases a <;> simp [Obj.isSymbol] at ha
          simp [Obj.isCell, atomStringify]
        · obtain ⟨s, hs⟩ := printable_prints a hpa true
          exact ⟨s, by simp [hc, hs]⟩
      obtain ⟨sa, hsa⟩ := hhead
      rw [StringifyImpl_cell, hsa]
      cases b with
      | Cell x y =>
          have hpb : printable (.Cell x y) = true := by
            rcases hb with hb | hb
            · simp [Obj.isCell] at hb
            · exact hb
          obtain ⟨sb, hsb⟩ := printable_prints (.Cell x y) hpb false
          simp [joinCell, hsb]
      | null => simp [joinCell]
      | Number _ => simp [joinCell]
      | Boolean _ => simp [joinCell]
      | Symbol _ => simp [joinCell]
      | Function _ => simp [joinCell]
      | Lambda _ _ _ => simp [joinCell]
      | LambdaCreator _ _ _ => simp [joinCell]

/-- Inside a chain an element is printed as `Serialize` prints it. -/
theorem element_prints (e : Obj) (he : printableElement e = true) :
    (if e.isCell then StringifyImpl e true
      else (atomStringify e).getD (.error Err.Undefined)) = Serialize e ∧
    ∃ s, Serialize e = .ok s := by
  simp only [printableElement, Bool.or_eq_true] at he
  rcases he with ((he | he) | he) | he
  · cases e <;> simp [Obj.isNumber] at he
    exact ⟨rfl, _, rfl⟩
  · cases e <;> simp [Obj.isBoolean] at he
    exact ⟨rfl, _, rfl⟩
  · cases e <;> simp [Obj.isSymbol] at he
    exact ⟨rfl, _, rfl⟩
  · cases e with
    | Cell a b =>
        have hnn : a ≠ Obj.null := by
          intro h0
          subst h0
          simp [printable, Obj.isNumber, Obj.isBoolean, Obj.isSymbol, Obj.isCell] at he
        have hser : Serialize (.Cell a b) = StringifyImpl (.Cell a b) true := by
          cases a with
          | null => exact absurd rfl hnn
          | _ => rfl
        obtain ⟨s, hs⟩ := printable_prints (.Cell a b) he true
        exact ⟨by simp [Obj.isCell, hser], s, by rw [hser, hs]⟩
    | _ => simp [printable] at he

/-- The text of a chain, with and without the enclosing parentheses, from the texts
of its elements. -/
theorem chain_prints (t : Obj) (ht : t.isCell = false) :
    ∀ (es : List Obj) (strs : List String), es ≠ [] →
      List.Forall₂ (fun e s => (if e.isCell then StringifyImpl e true
        else (atomStringify e).getD (.error Err.Undefined)) = .ok s) es strs →
      ∀ p, StringifyImpl (mkChain es t) p
        = .ok ((if p then "(" else "") ++ (joinWithSpaces strs ++ printedTerminal t)
            ++ (if p then ")" else ""))
  | [], _, hne, _, _ => absurd rfl hne
  | [e], strs, _, hf, p => by
      cases hf with
      | cons hs hrest =>
          cases hrest
          have hm : mkChain [e] t = .Cell e t := rfl
          rw [hm, StringifyImpl_cell, hs]
          cases t <;> simp [Obj.isCell] at ht <;>
            simp [joinCell, joinWithSpaces, printedTerminal, Serialize, Stringify,
              atomStringify, String.append_assoc]
  | e :: e2 :: rest, strs, _, hf, p => by
      cases hf with
      | cons hs hrest =>
          rename_i s strs2
          have ih := chain_prints t ht (e2 :: rest) strs2 (by simp) hrest false
          have hm : mkChain (e :: e2 :: rest) t = .Cell e (.Cell e2 (mkChain rest t)) := rfl
          have hm2 : mkChain (e2 :: rest) t = .Cell e2 (mkChain rest t) := rfl
          rw [hm2] at ih
          rw [hm, StringifyImpl_cell, hs, ih]
          cases hrest with
          | cons hs2 hrest2 =>
              simp [joinCell, joinWithSpaces, String.append_assoc]

/-- On printable elements the printer has the format of the specification: every
element is printed by `Serialize`, and the chain is printed as `(`, the texts of
the elements joined by single spaces, the suffix and `)`. -/
theorem printable_chain_format (es : List Obj) (t : Obj) (hes : es ≠ []) (ht : t.isCell = false)
    (hel : ∀ e ∈ es, printableElement e = true) :
    ∃ strs, List.Forall₂ (fun e s => Serialize e = .ok s) es strs ∧
      Serialize (mkChain es t)
        = .ok ("(" ++ (joinWithSpaces strs ++ printedTerminal t) ++ ")") := by
  have hstrs : ∃ strs, List.Forall₂ (fun e s => Serialize e = .ok s) es strs := by
    clear hes
    induction es with
    | nil => exact ⟨[], List.Forall₂.nil⟩
    | cons e es ih =>
        obtain ⟨strs, hs⟩ := ih (fun x hx => hel x (List.mem_cons_of_mem _ hx))
        obtain ⟨s, he⟩ := (element_prints e (hel e (List.mem_cons_self _ _))).2
        exact ⟨s :: strs, List.Forall₂.cons he hs⟩
  obtain ⟨strs, hs⟩ := hstrs
  refine ⟨strs, hs, ?_⟩
  have hs2 : List.Forall₂ (fun e s => (if e.isCell then StringifyImpl e true
      else (atomStringify e).getD (.error Err.Undefined)) = .ok s) es strs := by
    clear hes
    induction hs with
    | nil => exact List.Forall₂.nil
    | cons he _ ih =>
        rename_i e s es2 strs2 _
        refine List.Forall₂.cons ?_ (ih (fun x hx => hel x (List.mem_cons_of_mem _ hx)))
        rw [(element_prints e (hel e (List.mem_cons_self _ _))).1]
        exact he
  have hp := chain_prints t ht es strs hes hs2 true
  cases es with
  | nil => exact absurd rfl hes
  | cons e es =>
      have hnn : e ≠ Obj.null := by
        intro h0
        have := hel e (List.mem_cons_self _ _)
        subst h0
        simp [printableElement, printable, Obj.isNumber, Obj.isBoolean, Obj.isSymbol] at this
      have hm : mkChain (e :: es) t = .Cell e (mkChain es t) := rfl
      rw [hm] at hp ⊢
      have hser : Serialize (.Cell e (mkChain es t)) = StringifyImpl (.Cell e (mkChain es t)) true := by
        cases e with
        | null => exact absurd rfl hnn
        | _ => rfl
      rw [hser, hp]
      rfl

/-- Inside a chain the list of one empty list stops the printer: its empty first slot
is dereferenced. -/
theorem StringifyImpl_nested_empty (t : Obj) (ht : t.isCell = false) :
    ∀ (es : List Obj) (p : Bool),
      (∀ e ∈ es, printableElement e = true ∨ e = Obj.Cell .null .null) →
      Obj.Cell .null .null ∈ es →
      StringifyImpl (mkChain es t) p = .error Err.Undefined
  | [], _, _, hmem => by simp at hmem
  | e :: es, p, hall, hmem => by
      have hm : mkChain (e :: es) t = .Cell e (mkChain es t) := rfl
      rw [hm, StringifyImpl_cell]
      by_cases he : e = Obj.Cell .null .null
      · subst he
        simp [Obj.isCell, StringifyImpl_cell, atomStringify, joinCell]
      · have hpe : printableElement e = true := by
          rcases hall e (List.mem_cons_self _ _) with h0 | h0
          · exact h0
          · exact absurd h0 he
        have hmem2 : Obj.Cell .null .null ∈ es := by
          rcases List.mem_cons.mp hmem with h0 | h0
          · exact absurd h0.symm he
          · exact h0
        obtain ⟨hhead, s, hs⟩ := element_prints e hpe
        rw [hhead, hs]
        have ih := StringifyImpl_nested_empty t ht es false
          (fun x hx => hall x (List.mem_cons_of_mem _ hx)) hmem2
        cases es with
        | nil => simp at hmem2
        | cons y ys =>
            have hm2 : mkChain (y :: ys) t = .Cell y (mkChain ys t) := rfl
            rw [hm2] at ih ⊢
            simp [joinCell, ih]

/-- Claim C26, evaluated at the failing input.  The list of one empty list is a
non-empty nested list and is printed alone as `(())`, but the chain whose one
element it is, built by `(list (list (list)))`, is not printed `((()))`:
`StringifyImpl` calls `Stringify` through the empty first slot of the element
(`Err.Undefined`); so does every chain that has this element among elements of the
claim, whatever the terminal.  On chains with at least one element, each an
integer, a Boolean, a symbol or a nested list that holds no empty list at any
depth, every element is printed by `Serialize` and `Serialize` of the chain returns
`(`, the texts of the elements joined by single spaces, the suffix and `)`, where
the suffix is ` . ` and the text of the terminal for an integer or a Boolean and is
empty for every other terminal, the empty list included; `(list 1 2 3)` prints
`(1 2 3)` and `(cons 1 2)` prints `(1 . 2)`. -/
theorem nested_empty_list_is_not_printed :
    Serialize (mkChain [.null] .null) = .ok "(())" ∧
    Serialize (mkChain [mkChain [.null] .null] .null) = .error Err.Undefined ∧
    (RunAll 10 ["(list (list))", "(list (list (list)))", "(list 1 (list (list)) 2)",
        "(list 1 2 3)", "(cons 1 2)"] Interpreter.new).1
      = [.ok "(())", .error Err.Undefined, .error Err.Undefined, .ok "(1 2 3)",
         .ok "(1 . 2)"] ∧
    (∀ (es : List Obj) (t : Obj), t.isCell = false →
      (∀ e ∈ es, printableElement e = true ∨ e = mkChain [.null] .null) →
      mkChain [.null] .null ∈ es → Serialize (mkChain es t) = .error Err.Undefined) ∧
    (∀ (es : List Obj) (t : Obj), es ≠ [] → t.isCell = false →
      (∀ e ∈ es, printableElement e = true) →
      ∃ strs, List.Forall₂ (fun e s => Serialize e = .ok s) es strs ∧
        Serialize (mkChain es t)
          = .ok ("(" ++ (joinWithSpaces strs ++ printedTerminal t) ++ ")")) := by
  refine ⟨rfl, by decide!, by decide!, ?_, ?_⟩
  · intro es t ht hall hmem
    have hs := StringifyImpl_nested_empty t ht es true hall hmem
    cases es with
    | nil => simp at hmem
    | cons e es =>
        have hm : mkChain (e :: es) t = .Cell e (mkChain es t) := rfl
        rw [hm] at hs ⊢
        have hnn : e ≠ Obj.null := by
          intro h0
          subst h0
          rcases hall Obj.null (List.mem_cons_self _ _) with h1 | h1
          · simp [printableElement, printable, Obj.isNumber, Obj.isBoolean, Obj.isSymbol] at h1
          · simp [mkChain] at h1
        have hser : Serialize (.Cell e (mkChain es t))
            = StringifyImpl (.Cell e (mkChain es t)) true := by
          cases e with
          | null => exact absurd rfl hnn
          | _ => rfl
        rw [hser, hs]
  · intro es t hes ht hel
    exact printable_chain_format es t hes ht hel

/-! ## The reader on any input -/

/-- A call of `Next` shortens what remains. -/
theorem Next_remaining {tk tk1 : Tokenizer} (he : tk.is_end_ = false)
    (hN : Next tk = .ok tk1) : remaining tk1 < remaining tk := by
  unfold remaining
  rw [he]
  cases h1 : tk1.is_end_ with
  | true => simp
  | false =>
      have hf := Next_fresh tk.in_ tk.token_ tk.token_ tk.is_end_ tk1 hN h1
      simp only [Bool.false_eq_true, if_false]
      omega

theorem tokensFrom_Tokens : ∀ (n : Nat) (tk : Tokenizer) (ts : List Token),
    tokensFrom n tk = .ok ts → Tokens tk ts
  | 0, _, _, h => by simp [tokensFrom] at h
  | n + 1, tk, ts, h => by
      unfold tokensFrom at h
      cases he : tk.is_end_ with
      | true =>
          simp [he] at h
          subst h
          exact Tokens.done he
      | false =>
          simp only [he, Bool.false_eq_true, if_false] at h
          cases hN : Next tk with
          | error e => simp [hN] at h
          | ok tk1 =>
              simp only [hN] at h
              cases hrest : tokensFrom n tk1 with
              | error e => simp [hrest] at h
              | ok ts1 =>
                  simp [hrest] at h
                  subst h
                  exact Tokens.step he hN (tokensFrom_Tokens n tk1 ts1 hrest)

theorem ReadConstantToken_error {t : Tokenizer} {pre : List Char} {e : Err}
    (h : ReadConstantToken t pre = .error e) : e = Err.OutOfRange := by
  unfold ReadConstantToken at h
  cases hst : stoi (pre ++ t.in_.takeWhile isdigit) with
  | ok v => simp [hst] at h
  | error e2 =>
      simp only [hst] at h
      injection h with h
      subst h
      unfold stoi at hst
      split at hst
      · simp at hst
      · injection hst with hst
        exact hst.symm

/-- The tokenizer fails on a character that starts no token (`SyntaxError`) or on a
literal that does not fit (`std::out_of_range`). -/
theorem Next_error_kind {t : Tokenizer} {e : Err} (h : Next t = .error e) :
    e = Err.SyntaxError ∨ e = Err.OutOfRange := by
  unfold Next at h
  simp only at h
  repeat' split at h
  all_goals first
    | (simp at h; done)
    | exact Or.inr (ReadConstantToken_error h)
    | (injection h with h; exact Or.inl h.symm)

/-- The bound of `tokenize` is never reached. -/
theorem tokensFrom_no_fuel : ∀ (n : Nat) (tk : Tokenizer), remaining tk + 1 ≤ n →
    tokensFrom n tk ≠ .error Err.Fuel
  | 0, _, h => by omega
  | n + 1, tk, h => by
      unfold tokensFrom
      cases he : tk.is_end_ with
      | true => simp
      | false =>
          simp only [Bool.false_eq_true, if_false]
          cases hN : Next tk with
          | error e =>
              simp only
              intro hc
              injection hc with hc
              subst hc
              rcases Next_error_kind hN with h1 | h1 <;> cases h1
          | ok tk1 =>
              simp only
              have hlt := Next_remaining he hN
              have ih := tokensFrom_no_fuel n tk1 (by omega)
              cases hrest : tokensFrom n tk1 with
              | error e =>
                  simp only
                  intro hc
                  injection hc with hc
                  subst hc
                  exact ih hrest
              | ok ts1 => simp

theorem balanced_skip (depth : Nat) (tok : Token) (ts : List Token)
    (h1 : tok ≠ Token.BracketToken .OPEN) (h2 : tok ≠ Token.BracketToken .CLOSE) :
    balanced depth (tok :: ts) = balanced depth ts := by
  cases tok with
  | BracketToken b => cases b <;> simp at h1 h2
  | ConstantToken v => cases depth <;> simp [balanced]
  | SymbolToken s => cases depth <;> simp [balanced]
  | QuoteToken => cases depth <;> simp [balanced]
  | DotToken => cases depth <;> simp [balanced]
  | BooleanToken b => cases depth <;> simp [balanced]

/-- On a valid token sequence `ReadInner` and `ReadList` return after a balanced
piece of it, or raise `SyntaxError`. -/
theorem Read_on_tokens : ∀ n : Nat,
    (∀ tk ts, Tokens tk ts → OutcomeOnTokens 0 ts (ReadInner n tk)) ∧
    (∀ tk acc ts, Tokens tk ts → OutcomeOnTokens 1 ts (ReadList n tk acc))
  | 0 => by
      constructor
      · intro tk ts _
        simp [ReadInner, OutcomeOnTokens]
      · intro tk acc ts _
        simp [ReadList, OutcomeOnTokens]
  | n + 1 => by
      have ih := Read_on_tokens n
      constructor
      · intro tk ts hts
        rw [ReadInner_succ]
        cases hts with
        | done he => simp [he, OutcomeOnTokens]
        | step he hN hrest =>
            rename_i tk1 ts1
            simp only [he, Bool.false_eq_true, if_false, hN]
            cases htok : tk.token_ with
            | ConstantToken v => exact ⟨ts1, hrest, fun d => balanced_skip d _ _ (by simp) (by simp)⟩
            | SymbolToken s => exact ⟨ts1, hrest, fun d => balanced_skip d _ _ (by simp) (by simp)⟩
            | BooleanToken b => exact ⟨ts1, hrest, fun d => balanced_skip d _ _ (by simp) (by simp)⟩
            | DotToken => exact ⟨ts1, hrest, fun d => balanced_skip d _ _ (by simp) (by simp)⟩
            | BracketToken b =>
                cases b with
                | CLOSE => simp [OutcomeOnTokens]
                | OPEN =>
                    simp only
                    have h1 := ih.2 tk1 [] ts1 hrest
                    cases hr : ReadList n tk1 [] with
                    | error e => rw [hr] at h1; exact h1
                    | ok r =>
                        rw [hr] at h1
                        obtain ⟨ts2, ht2, hb⟩ := h1
                        exact ⟨ts2, ht2, fun d => by rw [← hb d]; simp [balanced]⟩
            | QuoteToken =>
                simp only
                cases he1 : tk1.is_end_ with
                | true => simp [OutcomeOnTokens]
                | false =>
                    simp only [Bool.false_eq_true, if_false]
                    have h1 := ih.1 tk1 ts1 hrest
                    cases hr : ReadInner n tk1 with
                    | error e => rw [hr] at h1; exact h1
                    | ok r =>
                        rw [hr] at h1
                        obtain ⟨obj, tk2⟩ := r
                        obtain ⟨ts2, ht2, hb⟩ := h1
                        have hres : ∀ o : Obj, OutcomeOnTokens 0 (Token.QuoteToken :: ts1)
                            (.ok (o, tk2)) :=
                          fun o => ⟨ts2, ht2, fun d => by
                            rw [← hb d]; exact balanced_skip d _ _ (by simp) (by simp)⟩
                        cases obj <;> exact hres _
      · intro tk acc ts hts
        rw [ReadList_succ]
        cases hts with
        | done he => simp [he, OutcomeOnTokens]
        | step he hN hrest =>
            rename_i tk1 ts1
            simp only [he, Bool.false_eq_true, if_false]
            by_cases hc : tk.token_ = Token.BracketToken .CLOSE
            · simp only [hc, if_true, hN]
              exact ⟨ts1, hrest, fun d => by simp [balanced]⟩
            · simp only [hc, if_false]
              have h1 := ih.1 tk (tk.token_ :: ts1) (Tokens.step he hN hrest)
              cases hr : ReadInner n tk with
              | error e => rw [hr] at h1; exact h1
              | ok r =>
                  rw [hr] at h1
                  obtain ⟨sh_ptr, tk2⟩ := r
                  obtain ⟨ts2, ht2, hb⟩ := h1
                  simp only
                  by_cases hdot : sh_ptr = Obj.Symbol "."
                  · simp only [hdot, if_true]
                    by_cases hcond : (acc.isEmpty || tk2.is_end_) = true
                    · simp [hcond, OutcomeOnTokens]
                    · simp only [hcond, Bool.false_eq_true, if_false]
                      have h2 := ih.1 tk2 ts2 ht2
                      cases hr2 : ReadInner n tk2 with
                      | error e => rw [hr2] at h2; exact h2
                      | ok r2 =>
                          rw [hr2] at h2
                          obtain ⟨second, tk3⟩ := r2
                          obtain ⟨ts3, ht3, hb3⟩ := h2
                          simp only
                          by_cases hsym : second.isSymbol = true
                          · simp [hsym, OutcomeOnTokens]
                          · simp only [hsym, Bool.false_eq_true, if_false]
                            by_cases hcl : tk3.is_end_ = true ∨
                                tk3.token_ ≠ Token.BracketToken .CLOSE
                            · have hcl2 : (tk3.is_end_ ||
                                  decide (tk3.token_ ≠ Token.BracketToken .CLOSE)) = true := by
                                simpa using hcl
                              rw [if_pos hcl2]
                              exact Or.inl rfl
                            · have hcl2 : ¬ (tk3.is_end_ ||
                                  decide (tk3.token_ ≠ Token.BracketToken .CLOSE)) = true := by
                                simpa using hcl
                              rw [if_neg hcl2]
                              simp only [not_or, Bool.not_eq_true, ne_eq, not_not] at hcl
                              cases ht3 with
                              | done he3 => rw [hcl.1] at he3; cases he3
                              | step he3 hN3 hrest3 =>
                                  rename_i tk4 ts4
                                  simp only [hN3]
                                  refine ⟨ts4, hrest3, fun d => ?_⟩
                                  have e1 := hb (d + 1)
                                  have e2 := hb3 (d + 1)
                                  simp only [Nat.add_zero] at e1 e2
                                  rw [e1, e2, hcl.2]
                                  simp [balanced]
                  · simp only [hdot, if_false]
                    have h2 := ih.2 tk2 (acc ++ [sh_ptr]) ts2 ht2
                    cases hr2 : ReadList n tk2 (acc ++ [sh_ptr]) with
                    | error e => rw [hr2] at h2; exact h2
                    | ok r2 =>
                        rw [hr2] at h2
                        obtain ⟨ts3, ht3, hb3⟩ := h2
                        refine ⟨ts3, ht3, fun d => ?_⟩
                        have e1 := hb (d + 1)
                        simp only [Nat.add_zero] at e1
                        rw [e1, hb3 d]

/-- A datum that was read took at least one token. -/
theorem Read_remaining : ∀ n : Nat,
    (∀ tk r, ReadInner n tk = .ok r → remaining r.2 < remaining tk) ∧
    (∀ tk acc r, ReadList n tk acc = .ok r → remaining r.2 < remaining tk)
  | 0 => by
      constructor
      · intro tk r hr
        simp [ReadInner] at hr
      · intro tk acc r hr
        simp [ReadList] at hr
  | n + 1 => by
      have ih := Read_remaining n
      constructor
      · intro tk r hr
        rw [ReadInner_succ] at hr
        cases he : tk.is_end_ with
        | true => simp [he] at hr
        | false =>
            simp only [he, Bool.false_eq_true, if_false] at hr
            cases hN : Next tk with
            | error err => simp [hN] at hr
            | ok tk1 =>
                have hlt := Next_remaining he hN
                simp only [hN] at hr
                have atom : ∀ o : Obj, (Except.ok (o, tk1) : Except Err (Obj × Tokenizer)) = .ok r →
                    remaining r.2 < remaining tk := by
                  intro o ho
                  injection ho with ho
                  subst ho
                  exact hlt
                cases htok : tk.token_ with
                | ConstantToken v => rw [htok] at hr; exact atom _ hr
                | SymbolToken s => rw [htok] at hr; exact atom _ hr
                | BooleanToken b => rw [htok] at hr; exact atom _ hr
                | DotToken => rw [htok] at hr; exact atom _ hr
                | BracketToken b =>
                    cases b with
                    | OPEN =>
                        simp only [htok] at hr
                        have := ih.2 _ _ _ hr
                        omega
                    | CLOSE => simp [htok] at hr
                | QuoteToken =>
                    simp only [htok] at hr
                    cases he1 : tk1.is_end_ with
                    | true => simp [he1] at hr
                    | false =>
                        simp only [he1, Bool.false_eq_true, if_false] at hr
                        cases hR : ReadInner n tk1 with
                        | error err => simp [hR] at hr
                        | ok p =>
                            have hp := ih.1 tk1 p hR
                            obtain ⟨obj, tk2⟩ := p
                            simp only [hR] at hr
                            have : remaining r.2 = remaining tk2 := by
                              cases obj <;> (injection hr with hr; subst hr; rfl)
                            simp only at hp
                            omega
      · intro tk acc r hr
        rw [ReadList_succ] at hr
        cases he : tk.is_end_ with
        | true => simp [he] at hr
        | false =>
            simp only [he, Bool.false_eq_true, if_false] at hr
            by_cases hc : tk.token_ = Token.BracketToken .CLOSE
            · simp only [hc, if_true] at hr
              cases hN : Next tk with
              | error err => simp [hN] at hr
              | ok tk1 =>
                  simp only [hN] at hr
                  injection hr with hr
                  subst hr
                  exact Next_remaining he hN
            · simp only [hc, if_false] at hr
              cases hR : ReadInner n tk with
              | error err => simp [hR] at hr
              | ok p =>
                  have hp := ih.1 tk p hR
                  obtain ⟨sh_ptr, tk1⟩ := p
                  simp only [hR] at hr
                  simp only at hp
                  by_cases hdot : sh_ptr = Obj.Symbol "."
                  · simp only [hdot, if_true] at hr
                    by_cases hcond : (acc.isEmpty || tk1.is_end_) = true
                    · simp [hcond] at hr
                    · simp only [hcond, Bool.false_eq_true, if_false] at hr
                      cases hR2 : ReadInner n tk1 with
                      | error err => simp [hR2] at hr
                      | ok p2 =>
                          have hp2 := ih.1 tk1 p2 hR2
                          obtain ⟨second, tk2⟩ := p2
                          simp only [hR2] at hr
                          simp only at hp2
                          split at hr
                          · simp at hr
                          · split at hr
                            · simp at hr
                            · rename_i hcl
                              simp only [Bool.or_eq_true, decide_eq_true_eq, not_or,
                                Bool.not_eq_true] at hcl
                              cases hN2 : Next tk2 with
                              | error err => simp [hN2] at hr
                              | ok tk3 =>
                                  simp only [hN2] at hr
                                  injection hr with hr
                                  subst hr
                                  have := Next_remaining hcl.1 hN2
                                  simp only
                                  omega
                  · simp only [hdot, if_false] at hr
                    have := ih.2 _ _ _ hr
                    omega

/-- The bound that `Read` gives to `ReadInner` is never reached. -/
theorem Read_no_fuel : ∀ n : Nat,
    (∀ tk, 2 * remaining tk + 1 ≤ n → ReadInner n tk ≠ .error Err.Fuel) ∧
    (∀ tk acc, 2 * remaining tk + 2 ≤ n → ReadList n tk acc ≠ .error Err.Fuel)
  | 0 => by
      constructor
      · intro tk h; omega
      · intro tk acc h; omega
  | n + 1 => by
      have ih := Read_no_fuel n
      have hnext : ∀ (tk : Tokenizer) (e : Err), Next tk = .error e → e ≠ Err.Fuel := by
        intro tk e h
        rcases Next_error_kind h with h1 | h1 <;> rw [h1] <;> decide
      constructor
      · intro tk hb
        rw [ReadInner_succ]
        cases he : tk.is_end_ with
        | true => simp
        | false =>
            simp only [Bool.false_eq_true, if_false]
            cases hN : Next tk with
            | error err =>
                simp only
                intro hc
                injection hc with hc
                exact hnext tk err hN hc
            | ok tk1 =>
                have hlt := Next_remaining he hN
                simp only
                cases htok : tk.token_ with
                | ConstantToken v => simp
                | SymbolToken s => simp
                | BooleanToken b => simp
                | DotToken => simp
                | BracketToken b =>
                    cases b with
                    | OPEN => exact ih.2 tk1 [] (by omega)
                    | CLOSE => simp
                | QuoteToken =>
                    simp only
                    cases he1 : tk1.is_end_ with
                    | true => simp
                    | false =>
                        simp only [Bool.false_eq_true, if_false]
                        have h1 := ih.1 tk1 (by omega)
                        cases hR : ReadInner n tk1 with
                        | error err =>
                            simp only
                            rw [hR] at h1
                            exact h1
                        | ok p =>
                            obtain ⟨obj, tk2⟩ := p
                            cases obj <;> simp
      · intro tk acc hb
        rw [ReadList_succ]
        cases he : tk.is_end_ with
        | true => simp
        | false =>
            simp only [Bool.false_eq_true, if_false]
            by_cases hc : tk.token_ = Token.BracketToken .CLOSE
            · simp only [hc, if_true]
              cases hN : Next tk with
              | error err =>
                  simp only
                  intro hc2
                  injection hc2 with hc2
                  exact hnext tk err hN hc2
              | ok tk1 => simp
            · simp only [hc, if_false]
              have h1 := ih.1 tk (by omega)
              cases hR : ReadInner n tk with
              | error err =>
                  simp only
                  rw [hR] at h1
                  exact h1
              | ok p =>
                  have hp := (Read_remaining n).1 tk p hR
                  obtain ⟨sh_ptr, tk1⟩ := p
                  simp only at hp ⊢
                  by_cases hdot : sh_ptr = Obj.Symbol "."
                  · simp only [hdot, if_true]
                    by_cases hcond : (acc.isEmpty || tk1.is_end_) = true
                    · simp [hcond]
                    · simp only [hcond, Bool.false_eq_true, if_false]
                      have h2 := ih.1 tk1 (by omega)
                      cases hR2 : ReadInner n tk1 with
                      | error err =>
                          simp only
                          rw [hR2] at h2
                          exact h2
                      | ok p2 =>
                          obtain ⟨second, tk2⟩ := p2
                          simp only
                          split
                          · simp
                          · split
                            · simp
                            · cases hN2 : Next tk2 with
                              | error err =>
                                  simp only
                                  intro hc2
                                  injection hc2 with hc2
                                  exact hnext tk2 err hN2 hc2
                              | ok tk3 => simp
                  · simp only [hdot, if_false]
                    exact ih.2 tk1 _ (by omega)

/-- A reading that did not reach the bound is the same with one more unit. -/
theorem Read_fuel_succ_full : ∀ n : Nat,
    (∀ tk, ReadInner n tk ≠ .error Err.Fuel → ReadInner (n + 1) tk = ReadInner n tk) ∧
    (∀ tk acc, ReadList n tk acc ≠ .error Err.Fuel →
      ReadList (n + 1) tk acc = ReadList n tk acc)
  | 0 => by
      constructor
      · intro tk hr
        exact absurd (by simp [ReadInner]) hr
      · intro tk acc hr
        exact absurd (by simp [ReadList]) hr
  | n + 1 => by
      have ih := Read_fuel_succ_full n
      constructor
      · intro tk hr
        rw [ReadInner_succ (n + 1), ReadInner_succ n]
        rw [ReadInner_succ n] at hr
        cases he : tk.is_end_ with
        | true => simp
        | false =>
            simp only [he, Bool.false_eq_true, if_false] at hr ⊢
            cases hN : Next tk with
            | error err => rfl
            | ok tk1 =>
                simp only [hN] at hr ⊢
                cases htok : tk.token_ with
                | ConstantToken v => rfl
                | SymbolToken s => rfl
                | BooleanToken b => rfl
                | DotToken => rfl
                | BracketToken b =>
                    cases b with
                    | OPEN =>
                        simp only [htok] at hr ⊢
                        exact ih.2 _ _ hr
                    | CLOSE => rfl
                | QuoteToken =>
                    simp only [htok] at hr ⊢
                    cases he1 : tk1.is_end_ with
                    | true => simp
                    | false =>
                        simp only [he1, Bool.false_eq_true, if_false] at hr ⊢
                        have hF : ReadInner n tk1 ≠ .error Err.Fuel := by
                          intro hF
                          simp [hF] at hr
                        rw [ih.1 tk1 hF]
      · intro tk acc hr
        rw [ReadList_succ (n + 1), ReadList_succ n]
        rw [ReadList_succ n] at hr
        cases he : tk.is_end_ with
        | true => simp
        | false =>
            simp only [he, Bool.false_eq_true, if_false] at hr ⊢
            by_cases hc : tk.token_ = Token.BracketToken .CLOSE
            · simp only [hc, if_true]
            · simp only [hc, if_false] at hr ⊢
              have hF : ReadInner n tk ≠ .error Err.Fuel := by
                intro hF
                simp [hF] at hr
              rw [ih.1 tk hF]
              cases hR : ReadInner n tk with
              | error err => rfl
              | ok p =>
                  obtain ⟨sh_ptr, tk1⟩ := p
                  simp only [hR] at hr
                  simp only
                  by_cases hdot : sh_ptr = Obj.Symbol "."
                  · simp only [hdot, if_true] at hr ⊢
                    by_cases hcond : (acc.isEmpty || tk1.is_end_) = true
                    · simp [hcond]
                    · simp only [hcond, Bool.false_eq_true, if_false] at hr ⊢
                      have hF2 : ReadInner n tk1 ≠ .error Err.Fuel := by
                        intro hF2
                        simp [hF2] at hr
                      rw [ih.1 tk1 hF2]
                  · simp only [hdot, if_false] at hr ⊢
                    exact ih.2 _ _ hr

theorem ReadInner_fuel_mono_full {n m : Nat} (hnm : n ≤ m) (tk : Tokenizer)
    (hr : ReadInner n tk ≠ .error Err.Fuel) : ReadInner m tk = ReadInner n tk := by
  induction m with
  | zero =>
      have : n = 0 := by omega
      subst this
      rfl
  | succ m ih =>
      rcases Nat.lt_or_ge n (m + 1) with hlt | hge
      · have h1 := ih (by omega)
        rw [← h1] at hr
        rw [(Read_fuel_succ_full m).1 tk hr, h1]
      · have : n = m + 1 := by omega
        subst this
        rfl

/-- What `ReadInner` returns with some bound it returns with every bound from the
one of `Read` on. -/
theorem ReadInner_stable {n m : Nat} {tk : Tokenizer} {r : Obj × Tokenizer}
    (hr : ReadInner n tk = .ok r) (hm : 2 * remaining tk + 1 ≤ m) :
    ReadInner m tk = .ok r := by
  rcases Nat.le_total n m with hnm | hmn
  · exact ReadInner_fuel_mono hnm tk r hr
  · have hF := (Read_no_fuel m).1 tk hm
    have := ReadInner_fuel_mono_full hmn tk hF
    rw [← this, hr]

theorem Read_bound (tk : Tokenizer) : 2 * remaining tk + 1 ≤ 2 * tk.in_.length + 4 := by
  unfold remaining
  split <;> omega

theorem Tokens_end {tk : Tokenizer} {ts : List Token} (hts : Tokens tk ts)
    (he : tk.is_end_ = true) : ts = [] := by
  cases hts with
  | done _ => rfl
  | step he2 _ _ => rw [he] at he2; cases he2

theorem tokenize_Tokens {input : List Char} {toks : List Token}
    (htok : tokenize input = .ok toks) : ∃ T, Tokenizer.new input = .ok T ∧ Tokens T toks := by
  unfold tokenize at htok
  cases hT : Tokenizer.new input with
  | error e => simp [hT] at htok
  | ok T =>
      simp only [hT] at htok
      exact ⟨T, rfl, tokensFrom_Tokens _ T toks htok⟩

/-- The bound of `tokenize` is never reached: it fails only on an invalid token. -/
theorem tokenize_no_fuel (input : List Char) : tokenize input ≠ .error Err.Fuel := by
  unfold tokenize
  cases hT : Tokenizer.new input with
  | error e =>
      simp only
      intro hc
      injection hc with hc
      subst hc
      rcases Next_error_kind hT with h1 | h1 <;> cases h1
  | ok T =>
      simp only
      apply tokensFrom_no_fuel
      have h1 := @Next_remaining ⟨input, Token.ConstantToken 0, false⟩ T rfl hT
      have h2 : remaining ⟨input, Token.ConstantToken 0, false⟩ = input.length + 1 := rfl
      rw [h2] at h1
      omega

/-- On a valid token sequence `Read` returns a datum only when the parentheses are
balanced, and otherwise raises `SyntaxError`. -/
theorem Read_on_tokens_top {T : Tokenizer} {toks : List Token} (hts : Tokens T toks) :
    (∀ d, Read T = .ok d → balanced 0 toks = true) ∧
    (∀ e, Read T = .error e → e = Err.SyntaxError) := by
  have hP := (Read_on_tokens (2 * T.in_.length + 4)).1 T toks hts
  have hF := (Read_no_fuel (2 * T.in_.length + 4)).1 T (Read_bound T)
  have hread : Read T = match ReadInner (2 * T.in_.length + 4) T with
      | .error e => .error e
      | .ok (obj, tk) => if tk.is_end_ then .ok obj else .error Err.SyntaxError := rfl
  cases hR : ReadInner (2 * T.in_.length + 4) T with
  | error e =>
      rw [hR] at hP hF hread
      constructor
      · intro d hd
        rw [hread] at hd
        cases hd
      · intro e2 he2
        rw [hread] at he2
        injection he2 with he2
        subst he2
        rcases hP with h1 | h1
        · exact h1
        · exact absurd (by rw [h1]) hF
  | ok r =>
      obtain ⟨obj, tk1⟩ := r
      rw [hR] at hP hread
      obtain ⟨ts1, ht1, hb⟩ := hP
      cases he : tk1.is_end_ with
      | true =>
          constructor
          · intro d _
            have := hb 0
            rw [Tokens_end ht1 he] at this
            simpa [balanced] using this
          · intro e he2
            rw [hread] at he2
            simp [he] at he2
      | false =>
          constructor
          · intro d hd
            rw [hread] at hd
            simp [he] at hd
          · intro e he2
            rw [hread] at he2
            simp [he] at he2
            exact he2.symm

/-- Claim C29: for every input on which the tokenizer starts and `ReadInner` returns
one complete datum while a further token follows (the tokenizer is not at its end),
`Read` raises `SyntaxError`, and so does `Run`, which leaves the scopes as they
are: nothing is evaluated. -/
theorem one_expression_per_run (input : String) (T T1 : Tokenizer) (d : Obj) (n : Nat)
    (hT : Tokenizer.new (streamOf input) = .ok T) (hd : ReadInner n T = .ok (d, T1))
    (hmore : T1.is_end_ = false) :
    Read T = .error Err.SyntaxError ∧
    ∀ fuel h, Run fuel input h = (.error Err.SyntaxError, h) := by
  have hR : Read T = .error Err.SyntaxError := by
    unfold Read
    rw [ReadInner_stable hd (Read_bound T)]
    simp [hmore]
  refine ⟨hR, fun fuel h => ?_⟩
  unfold Run
  simp only [hT, hR]

/-- Claim C29 at the input `(+ 1 2) 3`: the datum `(+ 1 2)` is read and the token 3
follows.  The runs of `1 2` and of `(define x 1) x` raise `SyntaxError`, and `x` is
not bound afterwards. -/
theorem one_expression_per_run_witness :
    (∀ fuel h, Run fuel "(+ 1 2) 3" h = (.error Err.SyntaxError, h)) ∧
    (RunAll 5 ["1 2", "(define x 1) x", "x"] Interpreter.new).1
      = [.error Err.SyntaxError, .error Err.SyntaxError, .error Err.NameError] :=
  ⟨(one_expression_per_run "(+ 1 2) 3"
      ⟨['+', ' ', '1', ' ', '2', ')', ' ', '3'], Token.BracketToken .OPEN, false⟩
      ⟨[], Token.ConstantToken 3, false⟩
      (mkChain [.Symbol "+", .Number 1, .Number 2] .null) 10 rfl rfl rfl).2,
   by decide!⟩

/-- Claim C30: for every input whose tokens are all valid and in which some opening
parenthesis is never closed, or a closing parenthesis has no matching opening one,
`Read` raises `SyntaxError`, and so does `Run`, leaving the scopes as they are. -/
theorem unbalanced_parentheses (input : String) (toks : List Token)
    (htok : tokenize (streamOf input) = .ok toks) (hunb : balanced 0 toks = false) :
    (∃ T, Tokenizer.new (streamOf input) = .ok T ∧ Read T = .error Err.SyntaxError) ∧
    ∀ fuel h, Run fuel input h = (.error Err.SyntaxError, h) := by
  obtain ⟨T, hT, hts⟩ := tokenize_Tokens htok
  have htop := Read_on_tokens_top hts
  have hR : Read T = .error Err.SyntaxError := by
    cases hr : Read T with
    | ok d =>
        have := htop.1 d hr
        rw [hunb] at this
        cases this
    | error e => rw [htop.2 e hr]
  refine ⟨⟨T, hT, hR⟩, fun fuel h => ?_⟩
  unfold Run
  simp only [hT, hR]

/-- Claim C30 at the inputs `((1) 2`, with an opening parenthesis that is never
closed, and `(1))`, with a closing parenthesis that matches none. -/
theorem unbalanced_parentheses_witness :
    (∀ fuel h, Run fuel "((1) 2" h = (.error Err.SyntaxError, h)) ∧
    (∀ fuel h, Run fuel "(1))" h = (.error Err.SyntaxError, h)) :=
  ⟨(unbalanced_parentheses "((1) 2"
      [.BracketToken .OPEN, .BracketToken .OPEN, .ConstantToken 1, .BracketToken .CLOSE,
        .ConstantToken 2] (by decide!) (by decide!)).2,
   (unbalanced_parentheses "(1))"
      [.BracketToken .OPEN, .ConstantToken 1, .BracketToken .CLOSE, .BracketToken .CLOSE]
      (by decide!) (by decide!)).2⟩

/-- Claim C28 fails on the code: in the token sequence `( ' . )` the dot is inside a
list and has no element before it, but the reader returns the list `((quote .))`:
the dot that follows a quote mark is read by `ReadInner` as the symbol `.` and
`ReadList` never sees it. -/
theorem quoted_dot_is_read :
    tokenize "('.)".data
      = .ok [.BracketToken .OPEN, .QuoteToken, .DotToken, .BracketToken .CLOSE] ∧
    (match Tokenizer.new "('.)".data with
      | .ok T => Read T
      | .error e => .error e)
      = .ok (mkChain [mkChain [.Symbol "quote", .Symbol "."] .null] .null) := by
  decide!

/-- Claim C28 as amended: `ReadList` stands at a dot that it meets as an element of
its list (not the datum of a quote mark), the tokens from there on being valid.
When the list has no element before the dot, or when no datum can be read after the
dot, or when the datum read after the dot is not immediately followed by a closing
parenthesis, `ReadList` raises `SyntaxError`; whatever exception it raises is
`SyntaxError`; and it returns only when one datum follows the dot and the closing
parenthesis follows that datum. -/
theorem dot_misuse_is_SyntaxError (m : Nat) (tk tk1 : Tokenizer) (acc : List Obj)
    (ts : List Token) (hts : Tokens tk ts) (hend : tk.is_end_ = false)
    (hdot : tk.token_ = Token.DotToken) (hN : Next tk = .ok tk1)
    (hfuel : 2 * remaining tk ≤ m) :
    (acc = [] → ReadList (m + 2) tk acc = .error Err.SyntaxError) ∧
    ((∀ r, ReadInner (m + 1) tk1 ≠ .ok r) →
      ReadList (m + 2) tk acc = .error Err.SyntaxError) ∧
    (∀ second tk2, ReadInner (m + 1) tk1 = .ok (second, tk2) →
      (tk2.is_end_ = true ∨ tk2.token_ ≠ Token.BracketToken .CLOSE) →
      ReadList (m + 2) tk acc = .error Err.SyntaxError) ∧
    (∀ e, ReadList (m + 2) tk acc = .error e → e = Err.SyntaxError) ∧
    (∀ r, ReadList (m + 2) tk acc = .ok r →
      acc ≠ [] ∧ ∃ second tk2, ReadInner (m + 1) tk1 = .ok (second, tk2) ∧
        tk2.is_end_ = false ∧ tk2.token_ = Token.BracketToken .CLOSE ∧
        r.1 = mkChain acc second) := by
  have hlt := Next_remaining hend hN
  have hts1 : ∃ ts1, Tokens tk1 ts1 := by
    cases hts with
    | done he => rw [hend] at he; cases he
    | step _ hN2 hrest =>
        rw [hN] at hN2
        injection hN2 with hN2
        subst hN2
        exact ⟨_, hrest⟩
  obtain ⟨ts1, hts1⟩ := hts1
  have hinner : ReadInner (m + 1) tk = .ok (Obj.Symbol ".", tk1) := by
    rw [ReadInner_succ]
    simp [hend, hN, hdot]
  have hP := (Read_on_tokens (m + 1)).1 tk1 ts1 hts1
  have hF := (Read_no_fuel (m + 1)).1 tk1 (by omega)
  have hunf : ReadList (m + 2) tk acc =
      if acc.isEmpty || tk1.is_end_ then .error Err.SyntaxError
      else
        match ReadInner (m + 1) tk1 with
        | .error e => .error e
        | .ok (second, tk2) =>
            if second.isSymbol then .error Err.SyntaxError
            else if tk2.is_end_ || tk2.token_ ≠ Token.BracketToken .CLOSE then
              .error Err.SyntaxError
            else
              match Next tk2 with
              | .error e => .error e
              | .ok tk3 => .ok (mkChain acc second, tk3) := by
    rw [ReadList_succ]
    simp only [hend, hdot, hinner, Bool.false_eq_true, if_false, reduceCtorEq, if_true]
    try rfl
  have herr : ∀ e, ReadInner (m + 1) tk1 = .error e → e = Err.SyntaxError := by
    intro e he
    rw [he] at hP hF
    rcases hP with h1 | h1
    · exact h1
    · exact absurd (by rw [h1]) hF
  refine ⟨?_, ?_, ?_, ?_, ?_⟩
  · intro hacc
    rw [hunf, hacc]
    rfl
  · intro hno
    rw [hunf]
    split
    · rfl
    · cases hR : ReadInner (m + 1) tk1 with
      | error e => rw [herr e hR]
      | ok r => exact absurd hR (hno r)
  · intro second tk2 hR hbad
    rw [hunf, hR]
    simp only
    split
    · rfl
    · split
      · rfl
      · have hb2 : (tk2.is_end_ || decide (tk2.token_ ≠ Token.BracketToken .CLOSE)) = true := by
          simpa using hbad
        rw [if_pos hb2]
  · intro e he
    rw [hunf] at he
    split at he
    · injection he with he; exact he.symm
    · cases hR : ReadInner (m + 1) tk1 with
      | error e2 =>
          rw [hR] at he
          injection he with he
          rw [← he]
          exact herr e2 hR
      | ok r =>
          obtain ⟨second, tk2⟩ := r
          rw [hR] at he hP
          simp only at he
          split at he
          · injection he with he; exact he.symm
          · split at he
            · injection he with he; exact he.symm
            · rename_i hcl
              simp only [Bool.or_eq_true, decide_eq_true_eq, not_or, Bool.not_eq_true,
                ne_eq, not_not] at hcl
              obtain ⟨ts2, ht2, _⟩ := hP
              cases ht2 with
              | done he2 => rw [hcl.1] at he2; cases he2
              | step _ hN2 _ => simp [hN2] at he
  · intro r hr
    rw [hunf] at hr
    split at hr
    · cases hr
    · rename_i hcond
      simp only [Bool.or_eq_true, not_or, Bool.not_eq_true, List.isEmpty_eq_true] at hcond
      refine ⟨hcond.1, ?_⟩
      cases hR : ReadInner (m + 1) tk1 with
      | error e2 => rw [hR] at hr; cases hr
      | ok r2 =>
          obtain ⟨second, tk2⟩ := r2
          rw [hR] at hr
          simp only at hr
          split at hr
          · cases hr
          · split at hr
            · cases hr
            · rename_i hcl
              simp only [Bool.or_eq_true, decide_eq_true_eq, not_or, Bool.not_eq_true,
                ne_eq, not_not] at hcl
              cases hN2 : Next tk2 with
              | error e3 => rw [hN2] at hr; cases hr
              | ok tk3 =>
                  rw [hN2] at hr
                  injection hr with hr
                  exact ⟨second, tk2, rfl, hcl.1, hcl.2, by rw [← hr]⟩

/-- Claim C28 as amended, where `ReadList` stands at the dot of `( . 1)` with no
element read; the runs of `'( . 1)`, `'(1 . )`, `'(1 . 2 3)` and `'(1 .` raise
`SyntaxError`. -/
theorem dot_misuse_is_SyntaxError_witness :
    ReadList 10 ⟨[' ', '1', ')'], Token.DotToken, false⟩ [] = .error Err.SyntaxError ∧
    (RunAll 3 ["'( . 1)", "'(1 . )", "'(1 . 2 3)", "'(1 ."] Interpreter.new).1
      = [.error Err.SyntaxError, .error Err.SyntaxError, .error Err.SyntaxError,
          .error Err.SyntaxError] :=
  ⟨(dot_misuse_is_SyntaxError 8 ⟨[' ', '1', ')'], Token.DotToken, false⟩
      ⟨[')'], Token.ConstantToken 1, false⟩ []
      [Token.DotToken, Token.ConstantToken 1, Token.BracketToken .CLOSE]
      (tokensFrom_Tokens 5 _ _ (by decide!)) rfl rfl rfl (by decide)).1 rfl,
   by decide!⟩

/-! ## Reading a text that is followed by more input -/

theorem takeWhile_append_stop (p : Char → Bool) (c : Char) (s : List Char) (hc : p c = false) :
    ∀ l : List Char, (l ++ c :: s).takeWhile p = l.takeWhile p ∧
      (l ++ c :: s).dropWhile p = l.dropWhile p ++ c :: s
  | [] => by simp [List.takeWhile, List.dropWhile, hc]
  | a :: l => by
      have ih := takeWhile_append_stop p c s hc l
      by_cases ha : p a = true
      · simp [List.takeWhile, List.dropWhile, ha, ih.1, ih.2]
      · simp [List.takeWhile, List.dropWhile, ha]

theorem dropWhile_append_cases (p : Char → Bool) (l2 : List Char) :
    ∀ l1 : List Char,
      (l1.dropWhile p = [] → (l1 ++ l2).dropWhile p = l2.dropWhile p) ∧
      (l1.dropWhile p ≠ [] → (l1 ++ l2).dropWhile p = l1.dropWhile p ++ l2)
  | [] => by simp
  | a :: l => by
      have ih := dropWhile_append_cases p l2 l
      by_cases ha : p a = true
      · simp only [List.cons_append, List.dropWhile, ha]
        exact ih
      · simp [List.dropWhile, ha]

/-- `Next` looks at the input after the skipped characters only. -/
theorem Next_skip (l1 l2 : List Char) (tok : Token) (e : Bool)
    (h : l1.dropWhile isSkipped = l2.dropWhile isSkipped) :
    Next ⟨l1, tok, e⟩ = Next ⟨l2, tok, e⟩ := by
  unfold Next
  simp only [h]

theorem dropWhile_idem (p : Char → Bool) : ∀ l : List Char,
    (l.dropWhile p).dropWhile p = l.dropWhile p
  | [] => rfl
  | a :: l => by
      by_cases ha : p a = true
      · simp only [List.dropWhile, ha]
        exact dropWhile_idem p l
      · simp [List.dropWhile, ha]

theorem ReadConstantToken_frame (c0 : Char) (s0 : List Char) (hc0 : c0 = ' ' ∨ c0 = ')')
    (l pre : List Char) (tok : Token) (T1 : Tokenizer)
    (h : ReadConstantToken ⟨l, tok, false⟩ pre = .ok T1) :
    ReadConstantToken ⟨l ++ c0 :: s0, tok, false⟩ pre
      = .ok ⟨T1.in_ ++ c0 :: s0, T1.token_, false⟩ ∧ T1.is_end_ = false := by
  have hd : isdigit c0 = false := by rcases hc0 with rfl | rfl <;> decide
  have hs := takeWhile_append_stop isdigit c0 s0 hd l
  unfold ReadConstantToken at h ⊢
  simp only at h ⊢
  rw [hs.1, hs.2]
  cases hst : stoi (pre ++ l.takeWhile isdigit) with
  | error e => simp [hst] at h
  | ok v =>
      simp only [hst] at h ⊢
      injection h with h
      subst h
      exact ⟨rfl, rfl⟩

theorem ReadSymbolOrBooleanToken_frame (c0 : Char) (s0 : List Char)
    (hc0 : c0 = ' ' ∨ c0 = ')') (l pre : List Char) (tok : Token) :
    ReadSymbolOrBooleanToken ⟨l ++ c0 :: s0, tok, false⟩ pre
      = ⟨(ReadSymbolOrBooleanToken ⟨l, tok, false⟩ pre).in_ ++ c0 :: s0,
          (ReadSymbolOrBooleanToken ⟨l, tok, false⟩ pre).token_, false⟩ ∧
    (ReadSymbolOrBooleanToken ⟨l, tok, false⟩ pre).is_end_ = false := by
  have hd : (fun c => kSymbolTokenChars.contains c) c0 = false := by
    rcases hc0 with rfl | rfl <;> decide!
  have hs := takeWhile_append_stop (fun c => kSymbolTokenChars.contains c) c0 s0 hd l
  unfold ReadSymbolOrBooleanToken
  simp only
  rw [hs.1, hs.2]
  split <;> (try split) <;> exact ⟨rfl, rfl⟩

/-- A token read from an input is read from the input extended behind a blank or a
closing parenthesis; where the input gave no token, the first token of the extension
is read. -/
theorem Next_frame (c0 : Char) (s0 : List Char) (hc0 : c0 = ' ' ∨ c0 = ')') (S : Tokenizer)
    (hS : ∀ tok, Next ⟨c0 :: s0, tok, false⟩ = .ok S)
    (cs : List Char) (tok : Token) (T1 : Tokenizer)
    (h : Next ⟨cs, tok, false⟩ = .ok T1) :
    Next ⟨cs ++ c0 :: s0, tok, false⟩ = .ok (frameOf (c0 :: s0) S T1) := by
  have hdig0 : isdigit c0 = false := by rcases hc0 with rfl | rfl <;> decide
  have hcases := dropWhile_append_cases isSkipped (c0 :: s0) cs
  cases hds : cs.dropWhile isSkipped with
  | nil =>
      have hT1 : T1 = ⟨[], tok, true⟩ := by
        unfold Next at h
        simp only [hds] at h
        injection h with h
        exact h.symm
      subst hT1
      rw [Next_skip (cs ++ c0 :: s0) (c0 :: s0) tok false (hcases.1 hds)]
      rw [hS tok]
      rfl
  | cons c rest =>
      have hne : cs.dropWhile isSkipped ≠ [] := by rw [hds]; simp
      have hfr : (cs ++ c0 :: s0).dropWhile isSkipped = c :: (rest ++ c0 :: s0) := by
        rw [hcases.2 hne, hds]
        rfl
      have plain : ∀ t2 : Token,
          frameOf (c0 :: s0) S ⟨rest, t2, false⟩ = ⟨rest ++ c0 :: s0, t2, false⟩ := fun _ => rfl
      unfold Next at h ⊢
      simp only [hds, hfr] at h ⊢
      by_cases h1 : isdigit c = true
      · simp only [h1, if_true] at h ⊢
        have := ReadConstantToken_frame c0 s0 hc0 (c :: rest) [] tok T1 h
        rw [show c :: (rest ++ c0 :: s0) = (c :: rest) ++ c0 :: s0 from rfl, this.1]
        simp [frameOf, this.2]
      simp only [h1, Bool.false_eq_true, if_false] at h ⊢
      by_cases h2 : c = '('
      · simp only [h2, if_true] at h ⊢
        injection h with h; subst h; rfl
      simp only [h2, if_false] at h ⊢
      by_cases h3 : c = ')'
      · simp only [h3, if_true] at h ⊢
        injection h with h; subst h; rfl
      simp only [h3, if_false] at h ⊢
      by_cases h4 : c = '.'
      · simp only [h4, if_true] at h ⊢
        injection h with h; subst h; rfl
      simp only [h4, if_false] at h ⊢
      by_cases h5 : c = '\''
      · simp only [h5, if_true] at h ⊢
        injection h with h; subst h; rfl
      simp only [h5, if_false] at h ⊢
      by_cases h6 : kSymbolTokenStartChars.contains c = true
      · simp only [h6, if_true] at h ⊢
        injection h with h
        have hf := ReadSymbolOrBooleanToken_frame c0 s0 hc0 (c :: rest) [] tok
        rw [show c :: (rest ++ c0 :: s0) = (c :: rest) ++ c0 :: s0 from rfl, hf.1, h]
        have he : T1.is_end_ = false := by rw [← h]; exact hf.2
        simp [frameOf, he]
      simp only [h6, Bool.false_eq_true, if_false] at h ⊢
      cases rest with
      | nil =>
          simp only [List.nil_append, hdig0, Bool.false_eq_true, if_false] at h ⊢
          by_cases h7 : c = '+'
          · simp only [h7, if_true] at h ⊢
            injection h with h; subst h; rfl
          simp only [h7, if_false] at h ⊢
          by_cases h8 : c = '-'
          · simp only [h8, if_true] at h ⊢
            injection h with h; subst h; rfl
          simp [h8] at h
      | cons d ds =>
          simp only [List.cons_append] at h ⊢
          have signed : ∀ (sg : Char) (nm : String),
              (if isdigit d = true then ReadConstantToken ⟨d :: ds, tok, false⟩ [sg]
                else .ok ⟨d :: ds, Token.SymbolToken nm, false⟩)
                = (Except.ok T1 : Except Err Tokenizer) →
              (if isdigit d = true then
                  ReadConstantToken ⟨d :: (ds ++ c0 :: s0), tok, false⟩ [sg]
                else .ok ⟨d :: (ds ++ c0 :: s0), Token.SymbolToken nm, false⟩)
                = (Except.ok (frameOf (c0 :: s0) S T1) : Except Err Tokenizer) := by
            intro sg nm hT
            by_cases hd : isdigit d = true
            · simp only [hd, if_true] at hT ⊢
              have := ReadConstantToken_frame c0 s0 hc0 (d :: ds) [sg] tok T1 hT
              rw [show d :: (ds ++ c0 :: s0) = (d :: ds) ++ c0 :: s0 from rfl, this.1]
              simp [frameOf, this.2]
            · simp only [hd, Bool.false_eq_true, if_false] at hT ⊢
              injection hT with hT; subst hT; rfl
          by_cases h7 : c = '+'
          · simp only [h7, if_true] at h ⊢
            exact signed '+' "+" h
          simp only [h7, if_false] at h ⊢
          by_cases h8 : c = '-'
          · simp only [h8, if_true] at h ⊢
            exact signed '-' "-" h
          simp [h8] at h

theorem frameOf_live (suffix : List Char) (S : Tokenizer) (hSe : S.is_end_ = false)
    (T : Tokenizer) : (frameOf suffix S T).is_end_ = false := by
  unfold frameOf
  split
  · exact hSe
  · rfl

/-- What the reader returns on an input it returns on the input extended behind a
blank or a closing parenthesis, and it stands at the corresponding state. -/
theorem Read_frame (c0 : Char) (s0 : List Char) (hc0 : c0 = ' ' ∨ c0 = ')') (S : Tokenizer)
    (hS : ∀ tok, Next ⟨c0 :: s0, tok, false⟩ = .ok S) (hSe : S.is_end_ = false) :
    ∀ n : Nat,
      (∀ tk r, tk.is_end_ = false → ReadInner n tk = .ok r →
        ReadInner n (frameOf (c0 :: s0) S tk) = .ok (r.1, frameOf (c0 :: s0) S r.2)) ∧
      (∀ tk acc r, tk.is_end_ = false → ReadList n tk acc = .ok r →
        ReadList n (frameOf (c0 :: s0) S tk) acc = .ok (r.1, frameOf (c0 :: s0) S r.2))
  | 0 => by
      constructor
      · intro tk r _ hr
        simp [ReadInner] at hr
      · intro tk acc r _ hr
        simp [ReadList] at hr
  | n + 1 => by
      have ih := Read_frame c0 s0 hc0 S hS hSe n
      have hnext : ∀ tk tk1 : Tokenizer, tk.is_end_ = false → Next tk = .ok tk1 →
          Next (frameOf (c0 :: s0) S tk) = .ok (frameOf (c0 :: s0) S tk1) := by
        intro tk tk1 he hN
        obtain ⟨inp, tok, e⟩ := tk
        simp only at he
        subst he
        exact Next_frame c0 s0 hc0 S hS inp tok tk1 hN
      have hlive : ∀ tk : Tokenizer, tk.is_end_ = false →
          (frameOf (c0 :: s0) S tk).is_end_ = false ∧
          (frameOf (c0 :: s0) S tk).token_ = tk.token_ := by
        intro tk he
        simp [frameOf, he]
      constructor
      · intro tk r he hr
        rw [ReadInner_succ] at hr ⊢
        simp only [he, (hlive tk he).1, (hlive tk he).2, Bool.false_eq_true, if_false] at hr ⊢
        cases hN : Next tk with
        | error err => simp [hN] at hr
        | ok tk1 =>
            simp only [hN, hnext tk tk1 he hN] at hr ⊢
            cases htok : tk.token_ with
            | ConstantToken v =>
                simp only [htok] at hr ⊢
                injection hr with hr; subst hr; rfl
            | SymbolToken s =>
                simp only [htok] at hr ⊢
                injection hr with hr; subst hr; rfl
            | BooleanToken b =>
                simp only [htok] at hr ⊢
                injection hr with hr; subst hr; rfl
            | DotToken =>
                simp only [htok] at hr ⊢
                injection hr with hr; subst hr; rfl
            | BracketToken b =>
                cases b with
                | CLOSE => simp [htok] at hr
                | OPEN =>
                    simp only [htok] at hr ⊢
                    have he1 : tk1.is_end_ = false := by
                      cases he1 : tk1.is_end_ with
                      | false => rfl
                      | true =>
                          cases n with
                          | zero => simp [ReadList] at hr
                          | succ k =>
                              rw [ReadList_succ] at hr
                              simp [he1] at hr
                    exact ih.2 tk1 [] r he1 hr
            | QuoteToken =>
                simp only [htok] at hr ⊢
                cases he1 : tk1.is_end_ with
                | true => simp [he1] at hr
                | false =>
                    simp only [he1, (hlive tk1 he1).1, Bool.false_eq_true, if_false] at hr ⊢
                    cases hR : ReadInner n tk1 with
                    | error err => simp [hR] at hr
                    | ok p =>
                        rw [ih.1 tk1 p he1 hR]
                        obtain ⟨obj, tk2⟩ := p
                        simp only [hR] at hr
                        simp only
                        cases obj <;> (injection hr with hr; subst hr; rfl)
      · intro tk acc r he hr
        rw [ReadList_succ] at hr ⊢
        simp only [he, (hlive tk he).1, (hlive tk he).2, Bool.false_eq_true, if_false] at hr ⊢
        by_cases hc : tk.token_ = Token.BracketToken .CLOSE
        · simp only [hc, if_true] at hr ⊢
          cases hN : Next tk with
          | error err => simp [hN] at hr
          | ok tk1 =>
              simp only [hN, hnext tk tk1 he hN] at hr ⊢
              injection hr with hr; subst hr; rfl
        · simp only [hc, if_false] at hr ⊢
          cases hR : ReadInner n tk with
          | error err => simp [hR] at hr
          | ok p =>
              rw [ih.1 tk p he hR]
              obtain ⟨sh_ptr, tk1⟩ := p
              simp only [hR] at hr
              simp only
              by_cases hdot : sh_ptr = Obj.Symbol "."
              · simp only [hdot, if_true] at hr ⊢
                cases he1 : tk1.is_end_ with
                | true => simp [he1] at hr
                | false =>
                    simp only [he1, (hlive tk1 he1).1, Bool.or_false] at hr ⊢
                    cases hacc : acc.isEmpty with
                    | true => simp [hacc] at hr
                    | false =>
                        simp only [hacc, Bool.false_eq_true, if_false] at hr ⊢
                        cases hR2 : ReadInner n tk1 with
                        | error err => simp [hR2] at hr
                        | ok p2 =>
                            rw [ih.1 tk1 p2 he1 hR2]
                            obtain ⟨second, tk2⟩ := p2
                            simp only [hR2] at hr
                            simp only
                            cases hsym : second.isSymbol with
                            | true => simp [hsym] at hr
                            | false =>
                                simp only [hsym, Bool.false_eq_true, if_false] at hr ⊢
                                cases he2 : tk2.is_end_ with
                                | true => simp [he2] at hr
                                | false =>
                                    simp only [he2, (hlive tk2 he2).1, (hlive tk2 he2).2,
                                      Bool.false_or] at hr ⊢
                                    by_cases hcl : tk2.token_ = Token.BracketToken .CLOSE
                                    · simp only [hcl, ne_eq, not_true_eq_false, decide_False,
                                        Bool.false_eq_true, if_false] at hr ⊢
                                      cases hN2 : Next tk2 with
                                      | error err => simp [hN2] at hr
                                      | ok tk3 =>
                                          simp only [hN2, hnext tk2 tk3 he2 hN2] at hr ⊢
                                          injection hr with hr; subst hr; rfl
                                    · simp [hcl] at hr
              · simp only [hdot, if_false] at hr ⊢
                have he1 : tk1.is_end_ = false := by
                  cases he1 : tk1.is_end_ with
                  | false => rfl
                  | true =>
                      cases n with
                      | zero => simp [ReadList] at hr
                      | succ k =>
                          rw [ReadList_succ] at hr
                          simp [he1] at hr
                exact ih.2 tk1 _ r he1 hr

theorem Next_dot (cs : List Char) (tok : Token) (e : Bool) :
    Next ⟨'.' :: cs, tok, e⟩ = .ok ⟨cs, Token.DotToken, e⟩ := by
  have h1 : isSkipped '.' = false := by decide
  have h2 : isdigit '.' = false := by decide
  simp [Next, List.dropWhile, h1, h2]

/-- What a successful `Read` says about its call of `ReadInner`. -/
theorem Read_ok_inv {T : Tokenizer} {d : Obj} (hR : Read T = .ok d) :
    T.is_end_ = false ∧ T.token_ ≠ Token.BracketToken .CLOSE ∧
    ∃ tk, ReadInner (2 * T.in_.length + 4) T = .ok (d, tk) ∧ tk.is_end_ = true := by
  unfold Read at hR
  cases hRI : ReadInner (2 * T.in_.length + 4) T with
  | error err => simp [hRI] at hR
  | ok p =>
      obtain ⟨obj, tk⟩ := p
      simp only [hRI] at hR
      have hend : tk.is_end_ = true := by
        by_cases he : tk.is_end_ = true
        · exact he
        · simp [he] at hR
      have hobj : obj = d := by simpa [hend] using hR
      subst hobj
      have hunf := hRI
      rw [show 2 * T.in_.length + 4 = (2 * T.in_.length + 3) + 1 from rfl, ReadInner_succ] at hunf
      refine ⟨?_, ?_, tk, rfl, hend⟩
      · by_cases he : T.is_end_ = true
        · simp [he] at hunf
        · simpa using he
      · intro hc
        split at hunf
        · cases hunf
        · split at hunf
          · cases hunf
          · simp [hc] at hunf

/-- Claim C27 fails on the code: the texts `1` and `a` are parsed to the integer 1
and the symbol `a`, but the reader raises `SyntaxError` on `(1 . a)`: `ReadList`
rejects a symbol after the dot.  The text `.` is parsed to the symbol `.`, and the
reader raises `SyntaxError` on `(. . 1)`: that symbol is what `ReadList` takes for
the dot of a pair. -/
theorem dotted_pair_with_symbol_is_rejected :
    (match Tokenizer.new "1".data with
      | .ok T => Read T
      | .error e => .error e) = .ok (.Number 1) ∧
    (match Tokenizer.new "a".data with
      | .ok T => Read T
      | .error e => .error e) = .ok (.Symbol "a") ∧
    (match Tokenizer.new "(1 . a)".data with
      | .ok T => Read T
      | .error e => .error e) = .error Err.SyntaxError ∧
    (match Tokenizer.new ".".data with
      | .ok T => Read T
      | .error e => .error e) = .ok (.Symbol ".") ∧
    (match Tokenizer.new "(. . 1)".data with
      | .ok T => Read T
      | .error e => .error e) = .error Err.SyntaxError := by
  decide!

/-- Claim C27 as amended: for every two texts `ta` and `tb` that the reader parses to
the datums `a` and `b`, where `a` is not the symbol `.` that a lone dot is read as
and `b` is not a symbol, the reader parses `(` + `ta` + ` . ` + `tb` + `)` to the
cell whose first slot is `a` and whose second slot is `b`. -/
theorem dotted_pair_is_read (ta tb : String) (Ta Tb : Tokenizer) (a b : Obj)
    (hTa : Tokenizer.new ta.data = .ok Ta) (hRa : Read Ta = .ok a)
    (hTb : Tokenizer.new tb.data = .ok Tb) (hRb : Read Tb = .ok b)
    (ha : a ≠ Obj.Symbol ".") (hb : b.isSymbol = false) :
    ∃ T, Tokenizer.new ("(" ++ ta ++ " . " ++ tb ++ ")").data = .ok T ∧
      Read T = .ok (.Cell a b) := by
  obtain ⟨hea, hca, ta_end, hIa, hta_end⟩ := Read_ok_inv hRa
  obtain ⟨heb, _, tb_end, hIb, htb_end⟩ := Read_ok_inv hRb
  -- the pieces of the input
  have hdata : ("(" ++ ta ++ " . " ++ tb ++ ")").data
      = '(' :: (ta.data ++ ' ' :: ('.' :: ' ' :: (tb.data ++ [')']))) := by
    simp [String.data_append]
  -- the states at the first token of each extension
  have hSB : ∀ tok, Next ⟨')' :: [], tok, false⟩ = .ok ⟨[], Token.BracketToken .CLOSE, false⟩ :=
    fun tok => Next_close [] tok false
  have hSA : ∀ tok, Next ⟨' ' :: ('.' :: ' ' :: (tb.data ++ [')'])), tok, false⟩
      = .ok ⟨' ' :: (tb.data ++ [')']), Token.DotToken, false⟩ := by
    intro tok
    rw [Next_blank, Next_dot]
  -- the first tokens of `ta` and `tb` inside the longer input
  have hNa := (Next_fresh ta.data (Token.ConstantToken 0) (Token.BracketToken .OPEN) false Ta
    hTa hea).1
  have hlena := (Next_fresh ta.data (Token.ConstantToken 0) (Token.BracketToken .OPEN) false Ta
    hTa hea).2
  have hNb := (Next_fresh tb.data (Token.ConstantToken 0) Token.DotToken false Tb hTb heb).1
  have hlenb := (Next_fresh tb.data (Token.ConstantToken 0) Token.DotToken false Tb hTb heb).2
  have hNa2 := Next_frame ' ' ('.' :: ' ' :: (tb.data ++ [')'])) (Or.inl rfl) _ hSA
    ta.data _ Ta hNa
  have hNb2 := Next_frame ')' [] (Or.inr rfl) _ hSB tb.data _ Tb hNb
  have hNb3 : Next ⟨' ' :: (tb.data ++ [')']), Token.DotToken, false⟩
      = .ok (frameOf [')'] ⟨[], Token.BracketToken .CLOSE, false⟩ Tb) := by
    rw [Next_blank]
    exact hNb2
  -- the two datums inside the longer input
  have hfa := (Read_frame ' ' ('.' :: ' ' :: (tb.data ++ [')'])) (Or.inl rfl) _ hSA rfl
    (2 * Ta.in_.length + 4)).1 Ta (a, ta_end) hea hIa
  have hfb := (Read_frame ')' [] (Or.inr rfl) _ hSB rfl
    (2 * Tb.in_.length + 4)).1 Tb (b, tb_end) heb hIb
  have hfa_end : frameOf (' ' :: ('.' :: ' ' :: (tb.data ++ [')'])))
      ⟨' ' :: (tb.data ++ [')']), Token.DotToken, false⟩ ta_end
        = ⟨' ' :: (tb.data ++ [')']), Token.DotToken, false⟩ := by
    simp [frameOf, hta_end]
  have hfb_end : frameOf [')'] ⟨[], Token.BracketToken .CLOSE, false⟩ tb_end
      = ⟨[], Token.BracketToken .CLOSE, false⟩ := by
    simp [frameOf, htb_end]
  simp only [hfa_end] at hfa
  simp only [hfb_end] at hfb
  generalize hTa1 : frameOf (' ' :: ('.' :: ' ' :: (tb.data ++ [')'])))
      ⟨' ' :: (tb.data ++ [')']), Token.DotToken, false⟩ Ta = Ta1 at hfa hNa2
  generalize hTb1 : frameOf [')'] ⟨[], Token.BracketToken .CLOSE, false⟩ Tb = Tb1
    at hfb hNb2 hNb3
  have hTa1e : Ta1.is_end_ = false ∧ Ta1.token_ = Ta.token_ := by
    rw [← hTa1]
    simp [frameOf, hea]
  have hTb1e : Tb1.is_end_ = false := by
    rw [← hTb1]
    simp [frameOf, heb]
  -- the bound of `Read` on the longer input
  generalize hL : (ta.data ++ ' ' :: ('.' :: ' ' :: (tb.data ++ [')']))).length = L
  have hLval : L = ta.data.length + (tb.data.length + 4) := by
    rw [← hL]
    simp only [List.length_append, List.length_cons, List.length_nil]
  have h1 : ReadInner (2 * L + 2) Ta1
      = .ok (a, ⟨' ' :: (tb.data ++ [')']), Token.DotToken, false⟩) :=
    ReadInner_fuel_mono (by omega) _ _ hfa
  have h2 : ReadInner (2 * L + 1) Tb1 = .ok (b, ⟨[], Token.BracketToken .CLOSE, false⟩) :=
    ReadInner_fuel_mono (by omega) _ _ hfb
  have h3 : ReadInner (2 * L + 1) ⟨' ' :: (tb.data ++ [')']), Token.DotToken, false⟩
      = .ok (Obj.Symbol ".", Tb1) := by
    rw [ReadInner_succ]
    simp [hNb3]
  have h4 : ReadList (2 * L + 2) ⟨' ' :: (tb.data ++ [')']), Token.DotToken, false⟩ [a]
      = .ok (Obj.Cell a b, ⟨[], Token.BracketToken .CLOSE, true⟩) := by
    rw [show 2 * L + 2 = (2 * L + 1) + 1 from rfl, ReadList_succ]
    simp [h3, h2, hTb1e, hb, Next_nil, mkChain]
  have h5 : ReadList (2 * L + 3) Ta1 []
      = .ok (Obj.Cell a b, ⟨[], Token.BracketToken .CLOSE, true⟩) := by
    rw [show 2 * L + 3 = (2 * L + 2) + 1 from rfl, ReadList_succ]
    simp [hTa1e.1, hTa1e.2, hca, h1, ha, h4]
  have h6 : ReadInner (2 * L + 4)
      ⟨ta.data ++ ' ' :: ('.' :: ' ' :: (tb.data ++ [')'])), Token.BracketToken .OPEN, false⟩
      = .ok (Obj.Cell a b, ⟨[], Token.BracketToken .CLOSE, true⟩) := by
    rw [show 2 * L + 4 = (2 * L + 3) + 1 from rfl, ReadInner_succ]
    simp [hNa2, h5]
  refine ⟨⟨ta.data ++ ' ' :: ('.' :: ' ' :: (tb.data ++ [')'])), Token.BracketToken .OPEN,
    false⟩, ?_, ?_⟩
  · rw [hdata]
    exact Next_open _ _ false
  · unfold Read
    simp only [hL, h6]
    try rfl

/-- Claim C27 as amended, at the texts `(x)` and `(2 3)`: the reader parses
`((x) . (2 3))` to the cell of `(x)` and `(2 3)`; the run of `'(1 . 2)` prints
`(1 . 2)`. -/
theorem dotted_pair_is_read_witness :
    (∃ T, Tokenizer.new ("(" ++ "(x)" ++ " . " ++ "(2 3)" ++ ")").data = .ok T ∧
      Read T = .ok (.Cell (mkChain [.Symbol "x"] .null)
        (mkChain [.Number 2, .Number 3] .null))) ∧
    (Run 3 "'(1 . 2)" Interpreter.new).1 = .ok "(1 . 2)" :=
  ⟨dotted_pair_is_read "(x)" "(2 3)" ⟨['x', ')'], Token.BracketToken .OPEN, false⟩
      ⟨['2', ' ', '3', ')'], Token.BracketToken .OPEN, false⟩ _ _ rfl (by decide!) rfl
      (by decide!) (by decide) rfl, by decide!⟩

/-! ## Arity of the unary built-ins -/

/-- Claim C35, evaluated at the failing input.  `car`, `cdr`, `pair?`, `null?` and
`list?` do not look at the length of their argument vector: on two arguments they
answer for the first one, where the claim gives `RuntimeError`, and on no argument
they take `front()` of an empty vector (`Err.Undefined`).  The other five built-ins
of arity 1, `number?`, `boolean?`, `symbol?`, `abs` and `not`, do raise
`RuntimeError` on every vector whose length is not 1. -/
theorem unary_builtins_without_arity_check :
    (RunAll 10 ["(car (cons 1 2) 5)", "(cdr (cons 1 2) 5)", "(pair? '(1 2) 3)", "(null? 1 2)",
        "(list? 1 2)", "(car)", "(cdr)", "(pair?)", "(null?)", "(list?)"] Interpreter.new).1
      = [.ok "1", .ok "2", .ok "#t", .ok "#f", .ok "#f", .error Err.Undefined,
          .error Err.Undefined, .error Err.Undefined, .error Err.Undefined,
          .error Err.Undefined] ∧
    (∀ (ev : Obj → Nat → M Obj) (scope : Nat) (h : Heap) (objects : List Obj),
      objects.length ≠ 1 →
      ∀ f ∈ [Func.IsNumber, Func.IsBoolean, Func.IsSymbol, Func.Abs, Func.BooleanNot],
        Apply ev f scope objects h = (.error Err.RuntimeError, h)) := by
  refine ⟨by decide!, ?_⟩
  intro ev scope h objects hlen f hf
  simp only [List.mem_cons, List.mem_singleton, List.not_mem_nil, or_false] at hf
  have htag : ∀ test, ApplyTagTest test objects = .error Err.RuntimeError := by
    intro test
    match objects, hlen with
    | [], _ => rfl
    | [_], hl => simp at hl
    | _ :: _ :: _, _ => rfl
  rcases hf with rfl | rfl | rfl | rfl | rfl
  · simp [Apply, liftE, htag]
  · simp [Apply, liftE, htag]
  · simp [Apply, liftE, htag]
  · simp [Apply, liftE, ApplyAbs, hlen]
  · have : ApplyBooleanNot objects = .error Err.RuntimeError := by
      match objects, hlen with
      | [], _ => rfl
      | [_], hl => simp at hl
      | a :: _ :: _, _ =>
          unfold ApplyBooleanNot
          split <;> simp_all
    simp [Apply, liftE, this]

/-! ## Printing a list with an empty element -/

theorem StringifyImpl_null_element : ∀ (xs : List Obj) (p : Bool),
    (∀ e ∈ xs, e = Obj.null ∨ e.isNumber = true) → Obj.null ∈ xs →
    StringifyImpl (mkChain xs .null) p = .error Err.Undefined
  | [], _, _, hmem => by simp at hmem
  | x :: xs, p, hall, hmem => by
      have hm : mkChain (x :: xs) .null = .Cell x (mkChain xs .null) := rfl
      rw [hm, StringifyImpl_cell]
      rcases hall x (List.mem_cons_self _ _) with hx | hx
      · subst hx
        simp [Obj.isCell, atomStringify, joinCell]
      · have hmem2 : Obj.null ∈ xs := by
          rcases List.mem_cons.mp hmem with h0 | h0
          · rw [← h0] at hx
            simp [Obj.isNumber] at hx
          · exact h0
        have ih := StringifyImpl_null_element xs false
          (fun e he => hall e (List.mem_cons_of_mem _ he)) hmem2
        cases xs with
        | nil => simp at hmem2
        | cons y ys =>
            have hm2 : mkChain (y :: ys) .null = .Cell y (mkChain ys .null) := rfl
            rw [hm2] at ih ⊢
            cases x <;> simp [Obj.isNumber] at hx
            simp [Obj.isCell, atomStringify, joinCell, ih]

/-- Claim C36, evaluated at the failing input.  The list of 1 and the empty list,
built by `(list 1 (list))`, is not printed `(1 ())`: `StringifyImpl` calls
`Stringify` on the empty first slot of its second cell, through a null pointer
(`Err.Undefined`).  Only the list of one empty element, which `Cell::Stringify`
treats apart, prints `(())`; every other proper list of integers and empty lists
that has an empty element ends the same way as `(1 ())`. -/
theorem list_with_empty_element_is_not_printed :
    (RunAll 8 ["(list 1 (list))", "(list (list) 1)", "(list (list))"] Interpreter.new).1
      = [.error Err.Undefined, .error Err.Undefined, .ok "(())"] ∧
    Serialize (mkChain [.Number 1, .null] .null) = .error Err.Undefined ∧
    (∀ xs : List Obj, (∀ e ∈ xs, e = Obj.null ∨ e.isNumber = true) → Obj.null ∈ xs →
      xs ≠ [Obj.null] → Serialize (mkChain xs .null) = .error Err.Undefined) := by
  refine ⟨by decide!, by decide!, ?_⟩
  intro xs hall hmem hne
  have hs := StringifyImpl_null_element xs true hall hmem
  cases xs with
  | nil => simp at hmem
  | cons x xs =>
      have hm : mkChain (x :: xs) .null = .Cell x (mkChain xs .null) := rfl
      rw [hm] at hs ⊢
      cases x with
      | null =>
          cases xs with
          | nil => exact absurd rfl hne
          | cons y ys =>
              have hm2 : mkChain (y :: ys) .null = .Cell y (mkChain ys .null) := rfl
              rw [hm2] at hs ⊢
              exact hs
      | _ => exact hs

/-! ## Calling a value that is no procedure -/

/-- Claim C37, evaluated at the failing input.  After `(define x 5)`,
`(define p (cons 1 2))` and `(define b #t)` the runs of `(x 1)`, `(p 1)` and `(b)`
raise none of the three exceptions: `Evaluate` casts the value of the head with
`As<Function>`, gets a null pointer and calls `Apply` through it (`Err.Undefined`).
So does every call through a symbol (other than `lambda`, `quote`, `define`, `set!`)
whose binding is neither a built-in nor a closure factory, once its arguments have
been evaluated. -/
theorem call_of_a_non_procedure :
    (RunAll 8 ["(define x 5)", "(define p (cons 1 2))", "(define b #t)", "(x 1)", "(p 1)",
        "(b)"] Interpreter.new).1
      = [.ok "()", .ok "()", .ok "()", .error Err.Undefined, .error Err.Undefined,
          .error Err.Undefined] ∧
    (∀ (n : Nat) (f : String) (tail : Obj) (scope : Nat) (h h1 : Heap) (args : List Obj)
      (v : Obj), (f ≠ "lambda" ∧ f ≠ "quote" ∧ f ≠ "define" ∧ f ≠ "set!") →
      ArgsToVector n [] tail f scope h = (.ok args, h1) →
      SymbolEval h1 scope f = .ok v → v.isFunction = false → v.isLambdaCreator = false →
      Evaluate (n + 1) (.Cell (.Symbol f) tail) scope h = (.error Err.Undefined, h1)) := by
  refine ⟨by decide!, ?_⟩
  intro n f tail scope h h1 args v hf hargs hlook hnf hnl
  rw [Evaluate_succ]
  cases v <;> simp [Obj.isFunction, Obj.isLambdaCreator] at hnf hnl <;>
    simp [EvaluateBody, hf.1, hf.2.1, hf.2.2.1, hf.2.2.2, M.bind, hargs, withHeap, hlook, raise]

/-! ## Integer tokens -/

theorem digits_takeWhile_stop {ds rest : List Char} (hd : ds.all isdigit = true)
    (hr : ∀ d r, rest = d :: r → isdigit d = false) :
    (ds ++ rest).takeWhile isdigit = ds ∧ (ds ++ rest).dropWhile isdigit = rest := by
  have hall : ∀ a ∈ ds, isdigit a = true := by simpa using hd
  have hrest : rest.takeWhile isdigit = [] ∧ rest.dropWhile isdigit = rest := by
    cases rest with
    | nil => simp
    | cons c cs =>
        have hc := hr c cs rfl
        simp [List.takeWhile, List.dropWhile, hc]
  rw [List.takeWhile_append_of_pos hall, List.dropWhile_append_of_pos hall, hrest.1, hrest.2]
  simp

/-- A sign that no digit follows is read as a symbol. -/
theorem Next_sign (rest : List Char) (tok : Token) (e : Bool)
    (hr : ∀ d r, rest = d :: r → isdigit d = false) :
    Next ⟨'+' :: rest, tok, e⟩ = .ok ⟨rest, Token.SymbolToken "+", e⟩ ∧
    Next ⟨'-' :: rest, tok, e⟩ = .ok ⟨rest, Token.SymbolToken "-", e⟩ := by
  have p1 : isSkipped '+' = false := by decide
  have p2 : isdigit '+' = false := by decide
  have p3 : kSymbolTokenStartChars.contains '+' = false := by decide!
  have m1 : isSkipped '-' = false := by decide
  have m2 : isdigit '-' = false := by decide
  have m3 : kSymbolTokenStartChars.contains '-' = false := by decide!
  constructor
  · unfold Next
    simp only [List.dropWhile, p1, p2, p3, Bool.false_eq_true, if_false, if_true,
      show ('+' : Char) = '(' ↔ False from by decide, show ('+' : Char) = ')' ↔ False from by decide,
      show ('+' : Char) = '.' ↔ False from by decide, show ('+' : Char) = '\'' ↔ False from by decide]
    cases rest with
    | nil => rfl
    | cons d r => simp [hr d r rfl]
  · unfold Next
    simp only [List.dropWhile, m1, m2, m3, Bool.false_eq_true, if_false, if_true,
      show ('-' : Char) = '(' ↔ False from by decide, show ('-' : Char) = ')' ↔ False from by decide,
      show ('-' : Char) = '.' ↔ False from by decide, show ('-' : Char) = '\'' ↔ False from by decide,
      show ('-' : Char) = '+' ↔ False from by decide]
    cases rest with
    | nil => rfl
    | cons d r => simp [hr d r rfl]

/-- Reading an integer literal that no digit follows. -/
theorem Next_literal_stop (s rest : List Char) (tok : Token) (e : Bool)
    (hs : IsIntLiteral s = true) (hr : ∀ d r, rest = d :: r → isdigit d = false) :
    Next ⟨s ++ rest, tok, e⟩ =
      match stoi s with
      | .ok v => .ok ⟨rest, Token.ConstantToken v, e⟩
      | .error err => .error err := by
  rcases IsIntLiteral_cases hs with ⟨ds, rfl, hne, hd⟩ | ⟨ds, rfl, hne, hd⟩ | ⟨hne, hd⟩
  · obtain ⟨d, ds', rfl⟩ : ∃ d ds', ds = d :: ds' := by
      cases ds with
      | nil => exact absurd rfl hne
      | cons d ds' => exact ⟨d, ds', rfl⟩
    have hdd : isdigit d = true := by simp at hd; exact hd.1
    have h1 : isSkipped '-' = false := by decide
    have h2 : isdigit '-' = false := by decide
    have h3 : kSymbolTokenStartChars.contains '-' = false := by decide!
    have htw := digits_takeWhile_stop hd hr
    have hin : (⟨'-' :: (d :: ds') ++ rest, tok, e⟩ : Tokenizer).in_.dropWhile isSkipped
        = '-' :: (d :: ds' ++ rest) := by
      simp [List.dropWhile, h1]
    unfold Next
    simp only [hin]
    simp only [h2, h3, Bool.false_eq_true, if_false, Char.reduceEq, if_true, List.cons_append, hdd,
      show ('-' : Char) = '(' ↔ False from by decide, show ('-' : Char) = ')' ↔ False from by decide,
      show ('-' : Char) = '.' ↔ False from by decide, show ('-' : Char) = '\'' ↔ False from by decide,
      show ('-' : Char) = '+' ↔ False from by decide]
    unfold ReadConstantToken
    simp only
    rw [show (d :: (ds' ++ rest)) = (d :: ds') ++ rest from rfl, htw.1, htw.2]
    try rfl
  · obtain ⟨d, ds', rfl⟩ : ∃ d ds', ds = d :: ds' := by
      cases ds with
      | nil => exact absurd rfl hne
      | cons d ds' => exact ⟨d, ds', rfl⟩
    have hdd : isdigit d = true := by simp at hd; exact hd.1
    have h1 : isSkipped '+' = false := by decide
    have h2 : isdigit '+' = false := by decide
    have h3 : kSymbolTokenStartChars.contains '+' = false := by decide!
    have htw := digits_takeWhile_stop hd hr
    have hin : (⟨'+' :: (d :: ds') ++ rest, tok, e⟩ : Tokenizer).in_.dropWhile isSkipped
        = '+' :: (d :: ds' ++ rest) := by
      simp [List.dropWhile, h1]
    unfold Next
    simp only [hin]
    simp only [h2, h3, Bool.false_eq_true, if_false, if_true, List.cons_append, hdd,
      show ('+' : Char) = '(' ↔ False from by decide, show ('+' : Char) = ')' ↔ False from by decide,
      show ('+' : Char) = '.' ↔ False from by decide, show ('+' : Char) = '\'' ↔ False from by decide]
    unfold ReadConstantToken
    simp only
    rw [show (d :: (ds' ++ rest)) = (d :: ds') ++ rest from rfl, htw.1, htw.2]
    try rfl
  · obtain ⟨d, ds', rfl⟩ : ∃ d ds', s = d :: ds' := by
      cases s with
      | nil => exact absurd rfl hne
      | cons d ds' => exact ⟨d, ds', rfl⟩
    have hdd : isdigit d = true := by simp at hd; exact hd.1
    have h1 : isSkipped d = false := (isdigit_facts d hdd).1
    have htw := digits_takeWhile_stop hd hr
    have hin : (⟨(d :: ds') ++ rest, tok, e⟩ : Tokenizer).in_.dropWhile isSkipped
        = d :: (ds' ++ rest) := by
      simp [List.dropWhile, h1]
    unfold Next
    simp only [hin]
    simp only [hdd, if_true]
    unfold ReadConstantToken
    simp only [List.nil_append]
    rw [show (d :: (ds' ++ rest)) = (d :: ds') ++ rest from rfl, htw.1, htw.2]
    try rfl

/-- Claim C31 fails on the code: `2147483648` is an integer literal whose value lies
in the signed 64-bit range, but the tokenizer started on it ends in the
`std::out_of_range` of `std::stoi`: a `ConstantToken` holds an `int`. -/
theorem wide_literal_is_no_token :
    IsIntLiteral "2147483648".data = true ∧
    -(2 ^ 63) ≤ literalValue "2147483648".data ∧ literalValue "2147483648".data < 2 ^ 63 ∧
    (match Tokenizer.new "2147483648".data with
      | .ok T => some (Except.ok T.token_)
      | .error e => some (Except.error e)) = some (.error Err.OutOfRange) := by
  decide!

/-- Claim C31 as amended: integer literals are 32-bit.  For every text made of an
optional leading `+` or `-` followed by one or more decimal digits, with no digit
after it, whose value lies in the range of the 32-bit `int`, the tokenizer produces
an integer token carrying exactly that value, and when the value lies outside that
range it ends in `std::out_of_range`; a `+` or `-` not followed by a digit produces
the symbol token `+` or `-`. -/
theorem integer_token_is_32_bit (s rest : List Char) (tok : Token) (e : Bool)
    (hr : ∀ d r, rest = d :: r → isdigit d = false) :
    (IsIntLiteral s = true →
      (-2147483648 ≤ literalValue s ∧ literalValue s ≤ 2147483647 →
        Next ⟨s ++ rest, tok, e⟩ = .ok ⟨rest, Token.ConstantToken (literalValue s), e⟩) ∧
      (¬ (-2147483648 ≤ literalValue s ∧ literalValue s ≤ 2147483647) →
        Next ⟨s ++ rest, tok, e⟩ = .error Err.OutOfRange)) ∧
    Next ⟨'+' :: rest, tok, e⟩ = .ok ⟨rest, Token.SymbolToken "+", e⟩ ∧
    Next ⟨'-' :: rest, tok, e⟩ = .ok ⟨rest, Token.SymbolToken "-", e⟩ := by
  refine ⟨fun hs => ?_, (Next_sign rest tok e hr).1, (Next_sign rest tok e hr).2⟩
  have hN := Next_literal_stop s rest tok e hs hr
  constructor
  · intro hrange
    rw [hN]
    unfold stoi
    rw [if_pos hrange]
  · intro hout
    rw [hN]
    unfold stoi
    rw [if_neg hout]

/-- Claim C31 as amended, at the literal `-2147483648` followed by a closing
parenthesis, and at the signs followed by a blank. -/
theorem integer_token_is_32_bit_witness :
    Next ⟨"-2147483648".data ++ [')'], Token.QuoteToken, false⟩
      = .ok ⟨[')'], Token.ConstantToken (-2147483648), false⟩ ∧
    Next ⟨'+' :: [' ', 'a'], Token.QuoteToken, false⟩
      = .ok ⟨[' ', 'a'], Token.SymbolToken "+", false⟩ :=
  ⟨((integer_token_is_32_bit "-2147483648".data [')'] Token.QuoteToken false
      (by intro d r h; injection h with h1 _; subst h1; decide)).1 (by decide!)).1 (by decide!),
   (integer_token_is_32_bit [] [' ', 'a'] Token.QuoteToken false
      (by intro d r h; injection h with h1 _; subst h1; decide)).2.1⟩

/-! ## Token alphabet -/

theorem startChar_alphabet : ∀ c ∈ kSymbolTokenStartChars,
    inTokenAlphabet c = true ∨ c = '[' ∨ c = ']' := by
  decide!

/-- Claim C32 holds for every byte but the two square brackets, which the constant
`kSymbolTokenStartChars` contains: a token starting at `[` or `]` is read as a symbol,
so that the program `[` ends in `NameError` and not in `SyntaxError`; at every other
byte outside the alphabet `Next` raises `SyntaxError`. -/
theorem square_bracket_starts_a_symbol :
    inTokenAlphabet '[' = false ∧ inTokenAlphabet ']' = false ∧
    Next ⟨['['], Token.QuoteToken, false⟩ = .ok ⟨[], Token.SymbolToken "[", false⟩ ∧
    Next ⟨[']'], Token.QuoteToken, false⟩ = .ok ⟨[], Token.SymbolToken "]", false⟩ ∧
    (RunAll 4 ["[", "]", "[a]", "@"] Interpreter.new).1
      = [.error Err.NameError, .error Err.NameError, .error Err.NameError,
         .error Err.SyntaxError] ∧
    (∀ (c : Char) (rest : List Char) (tok : Token) (e : Bool),
      inTokenAlphabet c = false → c ≠ '[' → c ≠ ']' →
        Next ⟨c :: rest, tok, e⟩ = .error Err.SyntaxError) := by
  refine ⟨by decide, by decide, rfl, rfl, by decide!, ?_⟩
  intro c rest tok e hc h1 h2
  have hstart : kSymbolTokenStartChars.contains c = false := by
    cases hk : kSymbolTokenStartChars.contains c with
    | false => rfl
    | true =>
        have hm : c ∈ kSymbolTokenStartChars := by simpa using hk
        rcases startChar_alphabet c hm with h | h | h
        · rw [h] at hc; cases hc
        · exact absurd h h1
        · exact absurd h h2
  simp only [inTokenAlphabet, Bool.or_eq_false_iff, decide_eq_false_iff_not] at hc
  obtain ⟨⟨⟨⟨⟨⟨⟨⟨⟨⟨⟨⟨⟨⟨⟨s1, s2⟩, s3⟩, s4⟩, s5⟩, s6⟩, s7⟩, s8⟩, _⟩, _⟩, _⟩, _⟩, _⟩, _⟩, _⟩, _⟩ := hc
  unfold Next
  simp only [List.dropWhile, s1, s2, s3, s4, s5, s6, s7, s8, hstart, Bool.false_eq_true,
    if_false]

/-! ## The scope chain -/

/-- Past the frame's own index the bound of the walk plays no part. -/
theorem chainFrom_stable (h : Heap) (hord : ParentsFirst h = true) :
    ∀ (s k : Nat), s < k → chainFrom h k s = chainFrom h (s + 1) s := by
  intro s
  induction s using Nat.strong_induction_on with
  | _ s ih =>
      intro k hk
      obtain ⟨k, rfl⟩ : ∃ j, k = j + 1 := ⟨k - 1, by omega⟩
      simp only [chainFrom]
      cases hp : GetParentScope h s with
      | none => rfl
      | some p =>
          have hlt : p < s := by
            by_cases hs : s < h.length
            · have hall := hord
              unfold ParentsFirst at hall
              rw [List.all_eq_true] at hall
              have := hall s (List.mem_range.mpr hs)
              rw [hp] at this
              simpa using this
            · unfold GetParentScope at hp
              rw [List.getElem?_eq_none (by omega)] at hp
              cases hp
          simp only
          rw [ih p hlt k (by omega), ih p hlt s hlt]

/-- The walks of the scope methods stop at the first frame of the chain that binds
the name. -/
theorem walk_found (h : Heap) (name : String) (value : Obj) :
    ∀ (k s : Nat) (pre : List Nat) (f : Nat) (post : List Nat),
      chainFrom h k s = pre ++ f :: post → (∀ g ∈ pre, Contains h g name = false) →
      Contains h f name = true →
        SetDefineSymbolAux h k s name value = .ok (DefineSymbol h f name value) ∧
        AllContainsAux h k s name = true ∧
        AllResolveSymbolAux h k s name = .ok (ResolveSymbol h f name) ∧
        SymbolEvalAux h k s name = .ok (ResolveSymbol h f name)
  | 0, s, pre, f, post, hc, _, _ => by
      cases pre <;> simp [chainFrom] at hc
  | k + 1, s, [], f, post, hc, _, hf => by
      simp only [chainFrom, List.nil_append, List.cons.injEq] at hc
      obtain ⟨rfl, _⟩ := hc
      simp [SetDefineSymbolAux, AllContainsAux, AllResolveSymbolAux, SymbolEvalAux, hf]
  | k + 1, s, g :: pre, f, post, hc, hpre, hf => by
      simp only [chainFrom, List.cons_append, List.cons.injEq] at hc
      obtain ⟨rfl, hrest⟩ := hc
      have hs : Contains h s name = false := hpre s (List.mem_cons_self _ _)
      cases hp : GetParentScope h s with
      | none =>
          rw [hp] at hrest
          cases pre <;> simp at hrest
      | some p =>
          rw [hp] at hrest
          have ih := walk_found h name value k p pre f post hrest
            (fun g hg => hpre g (List.mem_cons_of_mem _ hg)) hf
          simp [SetDefineSymbolAux, AllContainsAux, AllResolveSymbolAux, SymbolEvalAux, hs, hp, ih]

/-- The walks of the scope methods fail when no frame of the chain binds the name. -/
theorem walk_not_found (h : Heap) (name : String) (value : Obj) :
    ∀ (k s : Nat), (∀ g ∈ chainFrom h k s, Contains h g name = false) →
        SetDefineSymbolAux h k s name value = .error Err.SyntaxError ∧
        AllContainsAux h k s name = false ∧
        SymbolEvalAux h k s name = .error Err.NameError
  | 0, s, _ => by simp [SetDefineSymbolAux, AllContainsAux, SymbolEvalAux]
  | k + 1, s, hall => by
      have hs : Contains h s name = false := hall s (by simp [chainFrom])
      cases hp : GetParentScope h s with
      | none => simp [SetDefineSymbolAux, AllContainsAux, SymbolEvalAux, hs, hp]
      | some p =>
          have ih := walk_not_found h name value k p (fun g hg => hall g (by
            simp only [chainFrom, hp, List.mem_cons]
            exact Or.inr hg))
          simp [SetDefineSymbolAux, AllContainsAux, SymbolEvalAux, hs, hp, ih]

/-- Claim C33: in a heap whose frames were allocated after their parents, let the
scope chain of `scope` be `pre ++ f :: post`, innermost frame first.  If `f` binds
`name` and no frame of `pre` does, `SetDefineSymbol` returns the heap in which `f`
binds `name` to `value`, and in which every other binding of every frame, every
parent pointer and the number of frames are as before.  If no frame of the chain
binds `name`, it raises `SyntaxError` and returns no new heap.  The bound of the
walk plays no part. -/
theorem SetDefineSymbol_rebinds_innermost (h : Heap) (scope : Nat) (name : String)
    (value : Obj) (hord : ParentsFirst h = true) (hs : scope < h.length) :
    (∀ (pre : List Nat) (f : Nat) (post : List Nat),
      scopeChain h scope = pre ++ f :: post → (∀ g ∈ pre, Contains h g name = false) →
      Contains h f name = true →
        SetDefineSymbol h scope name value = .ok (DefineSymbol h f name value) ∧
        Contains (DefineSymbol h f name value) f name = true ∧
        ResolveSymbol (DefineSymbol h f name value) f name = value ∧
        (∀ (g : Nat) (n : String), g ≠ f ∨ n ≠ name →
          Contains (DefineSymbol h f name value) g n = Contains h g n ∧
          ResolveSymbol (DefineSymbol h f name value) g n = ResolveSymbol h g n) ∧
        (∀ g, GetParentScope (DefineSymbol h f name value) g = GetParentScope h g) ∧
        (DefineSymbol h f name value).length = h.length) ∧
    ((∀ g ∈ scopeChain h scope, Contains h g name = false) →
      SetDefineSymbol h scope name value = .error Err.SyntaxError) ∧
    (∀ m, h.length ≤ m →
      chainFrom h m scope = scopeChain h scope ∧
      SetDefineSymbolAux h m scope name value = SetDefineSymbol h scope name value) := by
  refine ⟨?_, ?_, ?_⟩
  · intro pre f post hc hpre hf
    have hw := walk_found h name value h.length scope pre f post hc hpre hf
    have hfl : f < h.length := by
      unfold Contains at hf
      by_contra hge
      rw [List.getElem?_eq_none (by omega)] at hf
      cases hf
    refine ⟨hw.1, Contains_DefineSymbol_self h f name value hfl,
      ResolveSymbol_DefineSymbol_self h f name value hfl, ?_,
      fun g => GetParentScope_DefineSymbol h f g name value, length_DefineSymbol h f name value⟩
    intro g n hgn
    by_cases hn : n = name
    · subst hn
      have hg : f ≠ g := by
        rcases hgn with hg | hg
        · exact fun e => hg e.symm
        · exact absurd rfl hg
      unfold Contains ResolveSymbol
      rw [frame_DefineSymbol_other h f g n value hg]
      exact ⟨rfl, rfl⟩
    · exact lookup_DefineSymbol_other h f g n name value hn
  · intro hall
    exact (walk_not_found h name value h.length scope hall).1
  · intro m hm
    have hch : chainFrom h m scope = scopeChain h scope := by
      unfold scopeChain
      rw [chainFrom_stable h hord scope m (by omega),
        chainFrom_stable h hord scope h.length hs]
    refine ⟨hch, ?_⟩
    unfold SetDefineSymbol
    by_cases hb : ∀ g ∈ scopeChain h scope, Contains h g name = false
    · rw [(walk_not_found h name value m scope (by rw [hch]; exact hb)).1,
        (walk_not_found h name value h.length scope hb).1]
    · have hex : ∃ pre f post, scopeChain h scope = pre ++ f :: post ∧
          (∀ g ∈ pre, Contains h g name = false) ∧ Contains h f name = true := by
        generalize scopeChain h scope = l at hb
        induction l with
        | nil => simp at hb
        | cons a l ih =>
            by_cases ha : Contains h a name = true
            · exact ⟨[], a, l, rfl, by simp, ha⟩
            · have ha2 : Contains h a name = false := by simpa using ha
              have hb2 : ¬ ∀ g ∈ l, Contains h g name = false := by
                intro hl
                apply hb
                intro g hg
                rcases List.mem_cons.mp hg with rfl | hg
                · exact ha2
                · exact hl g hg
              obtain ⟨pre, f, post, e, hp, hf⟩ := ih hb2
              refine ⟨a :: pre, f, post, by rw [e]; rfl, ?_, hf⟩
              intro g hg
              rcases List.mem_cons.mp hg with rfl | hg
              · exact ha2
              · exact hp g hg
      obtain ⟨pre, f, post, e, hp, hf⟩ := hex
      rw [(walk_found h name value m scope pre f post (by rw [hch]; exact e) hp hf).1,
        (walk_found h name value h.length scope pre f post e hp hf).1]

/-- Claim C33 on three nested frames, of which the outermost and the middle one bind
`x`: assignment from the innermost frame rebinds `x` in the middle frame. -/
theorem SetDefineSymbol_rebinds_innermost_witness :
    SetDefineSymbol
        [⟨none, [("x", Obj.Number 1)]⟩, ⟨some 0, [("y", Obj.Number 2), ("x", Obj.Number 3)]⟩,
          ⟨some 1, [("z", Obj.Number 4)]⟩] 2 "x" (Obj.Number 7)
      = .ok [⟨none, [("x", Obj.Number 1)]⟩,
          ⟨some 0, [("y", Obj.Number 2), ("x", Obj.Number 7)]⟩,
          ⟨some 1, [("z", Obj.Number 4)]⟩] ∧
    SetDefineSymbol
        [⟨none, [("x", Obj.Number 1)]⟩, ⟨some 0, [("y", Obj.Number 2), ("x", Obj.Number 3)]⟩,
          ⟨some 1, [("z", Obj.Number 4)]⟩] 2 "w" (Obj.Number 7)
      = .error Err.SyntaxError :=
  ⟨((SetDefineSymbol_rebinds_innermost
      [⟨none, [("x", Obj.Number 1)]⟩, ⟨some 0, [("y", Obj.Number 2), ("x", Obj.Number 3)]⟩,
        ⟨some 1, [("z", Obj.Number 4)]⟩] 2 "x" (Obj.Number 7) (by decide) (by decide)).1
      [2] 1 [0] (by decide) (by decide) (by decide)).1,
   (SetDefineSymbol_rebinds_innermost
      [⟨none, [("x", Obj.Number 1)]⟩, ⟨some 0, [("y", Obj.Number 2), ("x", Obj.Number 3)]⟩,
        ⟨some 1, [("z", Obj.Number 4)]⟩] 2 "w" (Obj.Number 7) (by decide) (by decide)).2.1
      (by decide)⟩

/-! ## Unbound symbols -/

/-- On plain arguments followed by a tail `t`, `ArgsToVector` goes on with `t` and the
vector extended by their values. -/
theorem ArgsToVector_EvalArgs_then {fuel scope : Nat} {as vs : List Obj} {h h1 : Heap}
    (name : String) (hname : name ≠ "and" ∧ name ≠ "or" ∧ name ≠ "if")
    (he : EvalArgs fuel scope as h vs h1) (t : Obj) :
    ∃ N, ∀ m, N ≤ m → ∀ (vec : List Obj) (r : Except Err (List Obj) × Heap),
      (∀ j, 1 ≤ j → ArgsToVector j (vec ++ vs) t name scope h1 = r) →
      ArgsToVector m vec (mkChain as t) name scope h = r := by
  obtain ⟨hand, hor, hif⟩ := hname
  induction he with
  | nil h =>
      refine ⟨1, fun m hm vec r hr => ?_⟩
      have := hr m hm
      simpa [mkChain] using this
  | @cons a as h h1 h2 v vs hp hev _ ih =>
      obtain ⟨N, hN⟩ := ih
      obtain ⟨f0, rfl⟩ := Evaluate_ok_fuel_pos hev
      refine ⟨N + f0 + 3, fun m hm vec r hr => ?_⟩
      obtain ⟨k, rfl⟩ : ∃ k, m = k + 2 := ⟨m - 2, by omega⟩
      have hrest := hN (k + 1) (by omega) (vec ++ [v]) r
        (fun j hj => by simpa using hr j hj)
      have hchain : mkChain (a :: as) t = Obj.Cell a (mkChain as t) := rfl
      have e1 : ArgsToVector (k + 1) = ArgsToVectorBody (Evaluate k) (ArgsToVector k) := rfl
      rw [hchain]
      cases a with
      | Number x =>
          simp [Evaluate_succ, EvaluateBody, pure] at hev
          obtain ⟨rfl, rfl⟩ := hev
          rw [ArgsToVector_cons_step k vec (Obj.Number x) _ name scope h hif rfl rfl]
          have harg : ArgsToVector (k + 1) vec (Obj.Number x) name scope h
              = (.ok (vec ++ [Obj.Number x]), h) := by
            rw [e1]; rfl
          simp [M.bind, harg, hrest]
      | Boolean x =>
          simp [Evaluate_succ, EvaluateBody, pure] at hev
          obtain ⟨rfl, rfl⟩ := hev
          rw [ArgsToVector_cons_step k vec (Obj.Boolean x) _ name scope h hif rfl rfl]
          have harg : ArgsToVector (k + 1) vec (Obj.Boolean x) name scope h
              = (.ok (vec ++ [Obj.Boolean x]), h) := by
            rw [e1]; rfl
          simp [M.bind, harg, hrest]
      | Symbol s =>
          simp only [PlainArg, boundToData, Bool.and_eq_true, decide_eq_true_eq] at hp
          obtain ⟨hs, hc, hd⟩ := hp
          simp only [Evaluate_succ, EvaluateBody, hc, if_true] at hev
          cases hres : AllResolveSymbol h scope s with
          | error e => rw [hres] at hev; simp at hev
          | ok w =>
              rw [hres] at hev hd
              simp only [Prod.mk.injEq, Except.ok.injEq] at hev
              obtain ⟨rfl, rfl⟩ := hev
              simp only [Bool.and_eq_true, Bool.not_eq_true'] at hd
              have e2 : ArgsToVector (k + 2)
                  = ArgsToVectorBody (Evaluate (k + 1)) (ArgsToVector (k + 1)) := rfl
              rw [e2]
              simp [ArgsToVectorBody, hs, hand, hor, withHeap, hc, hres, hd.1, hd.2, hrest]
      | Cell hd tl =>
          cases hd with
          | Symbol hname =>
              simp only [PlainArg, boundToProcedure, Bool.or_eq_true, decide_eq_true_eq,
                Bool.and_eq_true] at hp
              have hmono : Evaluate k (Obj.Cell (Obj.Symbol hname) tl) scope h = (.ok v, h1) := by
                have hle : f0 + 1 ≤ k := by omega
                rw [Evaluate_mono hle _ _ _ (by rw [hev]; simp), hev]
              rw [ArgsToVector_cons_step k vec (Obj.Cell (Obj.Symbol hname) tl) _ name scope h hif rfl rfl]
              have harg : ArgsToVector (k + 1) vec (Obj.Cell (Obj.Symbol hname) tl) name scope h
                  = (.ok (vec ++ [v]), h1) := by
                rw [e1]
                by_cases hl : hname = "lambda"
                · subst hl
                  simp only [Evaluate_succ, EvaluateBody, if_true] at hev
                  cases hrl : readLambdaEarly tl with
                  | error e => rw [hrl] at hev; simp [raise] at hev
                  | ok p =>
                      rw [hrl] at hev
                      simp only [pure, Prod.mk.injEq, Except.ok.injEq] at hev
                      obtain ⟨rfl, rfl⟩ := hev
                      simp [ArgsToVectorBody, readLambda_of_early hrl, pure]
                · rcases hp with hp | ⟨hc, hd⟩
                  · exact absurd hp hl
                  · cases hres : AllResolveSymbol h scope hname with
                    | error e => rw [hres] at hd; simp at hd
                    | ok w =>
                        rw [hres] at hd
                        simp only at hd
                        have hd1 : ¬(w.isFunction = false ∧ w.isLambdaCreator = false) := by
                          rcases Bool.or_eq_true _ _ |>.mp hd with h1 | h1 <;> simp [h1]
                        simp [ArgsToVectorBody, M.bind, hl, hand, hor,
                          withHeap, hc, hres, hd1, hmono, pure]
              simp [M.bind, harg, hrest]
          | _ => simp [PlainArg] at hp
      | _ => simp [PlainArg] at hp

/-- A symbol other than `lambda` that no frame of the chain binds stops `ArgsToVector`,
called for a built-in other than `and` and `or`, when it is the next argument. -/
theorem ArgsToVector_unbound_symbol (n : Nat) (vec : List Obj) (x : String) (tail : Obj)
    (name : String) (scope : Nat) (h : Heap) (hx : x ≠ "lambda")
    (hname : name ≠ "and" ∧ name ≠ "or") (hu : AllContains h scope x = false) :
    ArgsToVector (n + 1) vec (.Cell (.Symbol x) tail) name scope h
      = (.error Err.NameError, h) := by
  have e1 : ArgsToVector (n + 1) = ArgsToVectorBody (Evaluate n) (ArgsToVector n) := rfl
  rw [e1]
  simp [ArgsToVectorBody, hx, hname.1, hname.2, withHeap, hu, raise]

/-- Claim C34 fails on the code.  On a new interpreter neither `lambda` nor `x` is
bound in the global frame, yet `(+ lambda)` raises `SyntaxError`, the runs of
`(and #f x)`, `(or 1 x)` and `(if #f x 2)` return a value, `(quote x)` returns the
symbol and `(define x 1)` binds it. -/
theorem unbound_argument_without_NameError :
    (∀ g ∈ scopeChain Interpreter.new 0, Contains Interpreter.new g "lambda" = false ∧
      Contains Interpreter.new g "x" = false) ∧
    (RunAll 8 ["(+ lambda)", "(and #f x)", "(or 1 x)", "(if #f x 2)", "(quote x)",
        "(define x 1)"] Interpreter.new).1
      = [.error Err.SyntaxError, .ok "#f", .ok "1", .ok "2", .ok "x", .ok "()"] := by
  decide!

/-- Claim C34 as amended.  Let no frame of the scope chain of `scope` bind `x` in the
heap `h`.  Then evaluating the symbol `x` raises `NameError`; and when `x` is not
`lambda`, `ArgsToVector` called for a built-in other than `and` and `or` raises
`NameError` when `x` is the next argument, so that an application
`(f a1 ... ak x ...)` whose head is a symbol other than `lambda`, `quote`, `define`,
`set!`, `if`, `and`, `or` and whose arguments before `x` are plain and evaluate
without error, leaving the heap `h`, raises `NameError`, with enough fuel.  Let
instead the chain be `pre ++ f :: post`, innermost frame first, where `f` binds `x`
and no frame of `pre` does: then evaluating `x` returns the binding of `f`. -/
theorem symbol_lookup (h : Heap) (scope : Nat) (x : String) (n : Nat) :
    ((∀ g ∈ scopeChain h scope, Contains h g x = false) →
      Evaluate (n + 1) (.Symbol x) scope h = (.error Err.NameError, h) ∧
      (x ≠ "lambda" →
        (∀ (vec : List Obj) (tail : Obj) (name : String), name ≠ "and" → name ≠ "or" →
          ArgsToVector (n + 1) vec (.Cell (.Symbol x) tail) name scope h
            = (.error Err.NameError, h)) ∧
        (∀ (fn : String) (fuel : Nat) (as vs : List Obj) (h0 : Heap) (rest : Obj),
          fn ∉ ["lambda", "quote", "define", "set!", "if", "and", "or"] →
          EvalArgs fuel scope as h0 vs h →
          ∃ N, ∀ m, N ≤ m →
            Evaluate m (.Cell (.Symbol fn) (mkChain as (.Cell (.Symbol x) rest))) scope h0
              = (.error Err.NameError, h)))) ∧
    (∀ (pre : List Nat) (f : Nat) (post : List Nat),
      scopeChain h scope = pre ++ f :: post → (∀ g ∈ pre, Contains h g x = false) →
      Contains h f x = true →
        Evaluate (n + 1) (.Symbol x) scope h = (.ok (ResolveSymbol h f x), h)) := by
  have e0 : ∀ k, Evaluate (k + 1) = EvaluateBody (Evaluate k) (ArgsToVector k) :=
    fun _ => rfl
  constructor
  · intro hall
    have hu : AllContains h scope x = false :=
      (walk_not_found h x Obj.null h.length scope hall).2.1
    refine ⟨?_, fun hx => ⟨?_, ?_⟩⟩
    · rw [e0]
      simp [EvaluateBody, hu]
    · intro vec tail name h1 h2
      exact ArgsToVector_unbound_symbol n vec x tail name scope h hx ⟨h1, h2⟩ hu
    · intro fn fuel as vs h0 rest hfn he
      simp only [List.mem_cons, List.mem_singleton, List.not_mem_nil, or_false, not_or] at hfn
      obtain ⟨f1, f2, f3, f4, f5, f6, f7⟩ := hfn
      obtain ⟨N, hN⟩ := ArgsToVector_EvalArgs_then fn ⟨f6, f7, f5⟩ he (.Cell (.Symbol x) rest)
      refine ⟨N + 1, fun m hm => ?_⟩
      obtain ⟨k, rfl⟩ : ∃ k, m = k + 1 := ⟨m - 1, by omega⟩
      have hargs := hN k (by omega) [] (.error Err.NameError, h) (fun j hj => by
        obtain ⟨i, rfl⟩ : ∃ i, j = i + 1 := ⟨j - 1, by omega⟩
        exact ArgsToVector_unbound_symbol i _ x rest fn scope h hx ⟨f6, f7⟩ hu)
      rw [e0]
      simp [EvaluateBody, f1, f2, f3, f4, M.bind, hargs]
  · intro pre f post hc hpre hf
    have hw := walk_found h x Obj.null h.length scope pre f post hc hpre hf
    have hc1 : AllContains h scope x = true := hw.2.1
    have hr1 : AllResolveSymbol h scope x = .ok (ResolveSymbol h f x) := hw.2.2.1
    rw [e0]
    simp [EvaluateBody, hc1, hr1]

/-- Claim C34 as amended, on a new interpreter: the unbound `y` alone and as the
second argument of `+`, and the symbol `x` bound in a frame under the global one. -/
theorem symbol_lookup_witness :
    Evaluate 1 (.Symbol "y") 0 Interpreter.new = (.error Err.NameError, Interpreter.new) ∧
    (∃ N, ∀ m, N ≤ m →
      Evaluate m (.Cell (.Symbol "+") (mkChain [.Number 1] (.Cell (.Symbol "y") .null))) 0
          Interpreter.new
        = (.error Err.NameError, Interpreter.new)) ∧
    Evaluate 1 (.Symbol "x") 1
        (Interpreter.new ++ [⟨some 0, [("x", Obj.Number 3)]⟩])
      = (.ok (Obj.Number 3), Interpreter.new ++ [⟨some 0, [("x", Obj.Number 3)]⟩]) :=
  ⟨((symbol_lookup Interpreter.new 0 "y" 0).1 (by decide!)).1,
   (((symbol_lookup Interpreter.new 0 "y" 0).1 (by decide!)).2 (by decide)).2
      "+" 1 [.Number 1] [.Number 1] Interpreter.new .null (by decide)
      (EvalArgs.cons (by decide!) (by decide!) (EvalArgs.nil Interpreter.new)),
   (symbol_lookup (Interpreter.new ++ [⟨some 0, [("x", Obj.Number 3)]⟩]) 1 "x" 0).2
      [] 1 [0] (by decide!) (by decide) (by decide!)⟩

end Scheme
